import Mathlib

/-!
# Debug hook manager (`Shared/mods/deathmatch/logic/CDebugHookManager.cpp`)

A shallow embedding of `CDebugHookManager`: the hook registry, the name
filter, the masking of arguments, the builders of the hook payloads and the
dispatch of the hooks, followed by the properties proved about them.  A second
part, `ClientModel`, embeds the allocation methods of `CClientModel`.

Conventions of the embedding:

* object identities reached through pointers (`lua_State*`, `CLuaMain*`) are
  natural numbers; a nullable pointer is an `Option`, `none` being the null
  pointer;
* a method that mutates the manager takes the manager and returns the new
  one, next to the value the method returns;
* `g_pGame->GetLuaManager()->GetVirtualMachine` lives outside this file of
  the program, so every operation that calls it takes the resolver as its
  first argument;
* a `std::vector` is a `List`, `push_back` is appending at the end;
* the scripting VM and the other collaborators of a dispatch are the fields of
  a `Host`, which every dispatch takes as its first argument;
* the loop of `CallHook` need not end when callbacks add hooks, so a dispatch
  takes a bound on the number of loop tests and returns `none` when the bound is
  reached.
-/

namespace DebugHook

/-! ## Data model -/

/-- Strings of the program (`SString`, and `const char*` names). -/
abbrev SString := String

/-- Identity of a `lua_State` (the target of a `lua_State*`). -/
abbrev lua_State := Nat

/-- Identity of a `CLuaMain` instance (the target of a `CLuaMain*`). -/
abbrev CLuaMain := Nat

/-- Modelled from the spec: the class `CLuaFunctionRef` is declared in a header
that is not embedded here.  The spec calls it an opaque reference to a callable
bound to a specific VM instance: it carries the `lua_State` it belongs to (read
by `GetLuaVM()`) and the number of the referenced function, and `operator==` is
identity of the reference. -/
structure CLuaFunctionRef where
  m_luaVM : lua_State
  m_iFunction : Int
deriving DecidableEq, Repr

/-- Accessor `CLuaFunctionRef::GetLuaVM`. -/
def CLuaFunctionRef.GetLuaVM (self : CLuaFunctionRef) : lua_State := self.m_luaVM

/-- Modelled from the spec: the struct `SDebugHookCallInfo` is declared in the
header `CDebugHookManager.h`, which is not embedded here.  Its three members are
the ones the code reads and writes: the callback, the owning VM (a `CLuaMain*`)
and the set of allowed names. -/
structure SDebugHookCallInfo where
  functionRef : CLuaFunctionRef
  pLuaMain : Option CLuaMain
  allowedNameMap : Finset SString
deriving DecidableEq

/-- Modelled from the spec: the enum `EDebugHook::EDebugHookType` is declared in
the header `CDebugHookManager.h`, which is not embedded here.  The six
categories and the end marker are listed in the order in which
`GetHookInfoListForType` switches over them; `PRE_EVENT` is the first enumerator
and `MAX_DEBUG_HOOK_TYPE` the last one, as the loop of `OnLuaMainDestroy`
assumes. -/
inductive EDebugHookType where
  | PRE_EVENT
  | POST_EVENT
  | PRE_FUNCTION
  | POST_FUNCTION
  | PRE_EVENT_FUNCTION
  | POST_EVENT_FUNCTION
  | MAX_DEBUG_HOOK_TYPE
deriving DecidableEq, Repr

namespace EDebugHookType

/-- Numeric value of an enumerator. -/
def toUInt : EDebugHookType → Nat
  | PRE_EVENT => 0
  | POST_EVENT => 1
  | PRE_FUNCTION => 2
  | POST_FUNCTION => 3
  | PRE_EVENT_FUNCTION => 4
  | POST_EVENT_FUNCTION => 5
  | MAX_DEBUG_HOOK_TYPE => 6

/-- The cast `(EDebugHookType)hookType` of `OnLuaMainDestroy`.  The loop only
casts the values below `MAX_DEBUG_HOOK_TYPE`; a larger value takes the
`default:` branch of the switch, like `MAX_DEBUG_HOOK_TYPE` itself. -/
def ofUInt : Nat → EDebugHookType
  | 0 => PRE_EVENT
  | 1 => POST_EVENT
  | 2 => PRE_FUNCTION
  | 3 => POST_FUNCTION
  | 4 => PRE_EVENT_FUNCTION
  | 5 => POST_EVENT_FUNCTION
  | _ => MAX_DEBUG_HOOK_TYPE

end EDebugHookType

/-- The six hook list members of `CDebugHookManager`.  A value of this type
stands for the reference `std::vector<SDebugHookCallInfo>&` that
`GetHookInfoListForType` returns: it tells which member the reference
denotes. -/
inductive HookInfoList where
  | m_PreEventHookList
  | m_PostEventHookList
  | m_PreFunctionHookList
  | m_PostFunctionHookList
  | m_PreEventFunctionHookList
  | m_PostEventFunctionHookList
deriving DecidableEq, Repr

/-- State of a `CDebugHookManager`: the six hook lists and the table of the
argument positions to mask. -/
structure CDebugHookManager where
  m_PreEventHookList : List SDebugHookCallInfo
  m_PostEventHookList : List SDebugHookCallInfo
  m_PreFunctionHookList : List SDebugHookCallInfo
  m_PostFunctionHookList : List SDebugHookCallInfo
  m_PreEventFunctionHookList : List SDebugHookCallInfo
  m_PostEventFunctionHookList : List SDebugHookCallInfo
  m_MaskArgumentsMap : List (SString × List Nat)
deriving DecidableEq

namespace CDebugHookManager

/-- Reading through a reference to one of the six members. -/
def read (self : CDebugHookManager) : HookInfoList → List SDebugHookCallInfo
  | .m_PreEventHookList => self.m_PreEventHookList
  | .m_PostEventHookList => self.m_PostEventHookList
  | .m_PreFunctionHookList => self.m_PreFunctionHookList
  | .m_PostFunctionHookList => self.m_PostFunctionHookList
  | .m_PreEventFunctionHookList => self.m_PreEventFunctionHookList
  | .m_PostEventFunctionHookList => self.m_PostEventFunctionHookList

/-- Writing through a reference to one of the six members. -/
def write (self : CDebugHookManager) (r : HookInfoList)
    (l : List SDebugHookCallInfo) : CDebugHookManager :=
  match r with
  | .m_PreEventHookList => { self with m_PreEventHookList := l }
  | .m_PostEventHookList => { self with m_PostEventHookList := l }
  | .m_PreFunctionHookList => { self with m_PreFunctionHookList := l }
  | .m_PostFunctionHookList => { self with m_PostFunctionHookList := l }
  | .m_PreEventFunctionHookList => { self with m_PreEventFunctionHookList := l }
  | .m_PostEventFunctionHookList => { self with m_PostEventFunctionHookList := l }

set_option linter.dupNamespace false in
/-- The constructor `CDebugHookManager::CDebugHookManager()`: the six lists
start empty; the server build (`MTA_CLIENT` not defined) fills the masking
table, the client build leaves it empty. -/
def CDebugHookManager (MTA_CLIENT : Bool) : CDebugHookManager where
  m_PreEventHookList := []
  m_PostEventHookList := []
  m_PreFunctionHookList := []
  m_PostFunctionHookList := []
  m_PreEventFunctionHookList := []
  m_PostEventFunctionHookList := []
  m_MaskArgumentsMap :=
    if MTA_CLIENT then []
    else [("dbConnect", [1, 2, 3]), ("logIn", [2]), ("addAccount", [1]),
          ("getAccount", [1]), ("setAccountPassword", [1])]

end CDebugHookManager

/-! ## Container helpers of `SharedUtil` -/

/-- Modelled from the spec: `MapInsert` is a container helper of `SharedUtil`,
which is not embedded here; on a set it inserts the value (a set holds a value
once). -/
def MapInsert (collection : Finset SString) (item : SString) : Finset SString :=
  insert item collection

/-- Modelled from the spec: `MapContains` is a container helper of `SharedUtil`,
which is not embedded here; on a set it tells whether the value is a member. -/
def MapContains (collection : Finset SString) (item : SString) : Bool :=
  decide (item ∈ collection)

/-- Modelled from the spec: `ListRemoveIndex` is a container helper of
`SharedUtil`, which is not embedded here; it erases the element at the index and
keeps the order of the other elements. -/
def ListRemoveIndex (itemList : List SDebugHookCallInfo) (index : Nat) :
    List SDebugHookCallInfo :=
  itemList.eraseIdx index

/-! ## The registry -/

/-- The member `GetHookInfoListForType` returns a reference to.  The `dassert`
of the `default:` branch is a debug-build assertion and has no effect on the
value returned. -/
def GetHookInfoListForType : EDebugHookType → HookInfoList
  | .PRE_EVENT => .m_PreEventHookList
  | .POST_EVENT => .m_PostEventHookList
  | .PRE_FUNCTION => .m_PreFunctionHookList
  | .POST_FUNCTION => .m_PostFunctionHookList
  | .PRE_EVENT_FUNCTION => .m_PreEventFunctionHookList
  | .POST_EVENT_FUNCTION => .m_PostEventFunctionHookList
  | .MAX_DEBUG_HOOK_TYPE => .m_PostFunctionHookList

/-- First loop of `AddDebugHook`: is there an entry whose `functionRef` equals
the given one? -/
def AddDebugHook.findRef (functionRef : CLuaFunctionRef) :
    List SDebugHookCallInfo → Bool
  | [] => false
  | info :: rest =>
    if info.functionRef = functionRef then true
    else AddDebugHook.findRef functionRef rest

/-- Second loop of `AddDebugHook`: insert the names of `allowedNameList`, from
index `0` on, into the name set of the new entry. -/
def AddDebugHook.insertNames (allowedNameMap : Finset SString) :
    List SString → Finset SString
  | [] => allowedNameMap
  | name :: rest => AddDebugHook.insertNames (MapInsert allowedNameMap name) rest

/-- The method `CDebugHookManager::AddDebugHook`.  Returns the boolean the
method returns and the manager afterwards. -/
def AddDebugHook (GetVirtualMachine : lua_State → Option CLuaMain)
    (self : CDebugHookManager) (hookType : EDebugHookType)
    (functionRef : CLuaFunctionRef) (allowedNameList : List SString) :
    Bool × CDebugHookManager :=
  let hookInfoList := self.read (GetHookInfoListForType hookType)
  if AddDebugHook.findRef functionRef hookInfoList then (false, self)
  else
    let pLuaMain := GetVirtualMachine functionRef.GetLuaVM
    if pLuaMain = none then (false, self)
    else
      let info : SDebugHookCallInfo :=
        { functionRef := functionRef
          pLuaMain := pLuaMain
          allowedNameMap := AddDebugHook.insertNames ∅ allowedNameList }
      (true, self.write (GetHookInfoListForType hookType) (hookInfoList ++ [info]))

/-- Loop of `RemoveDebugHook` over the list: `none` when the loop runs to the
end without a match, otherwise the list after `erase(iter)` at the first entry
with the given owner and callback. -/
def RemoveDebugHook.eraseFirst (pLuaMain : Option CLuaMain)
    (functionRef : CLuaFunctionRef) :
    List SDebugHookCallInfo → Option (List SDebugHookCallInfo)
  | [] => none
  | info :: rest =>
    if info.pLuaMain = pLuaMain ∧ info.functionRef = functionRef then some rest
    else (RemoveDebugHook.eraseFirst pLuaMain functionRef rest).map (info :: ·)

/-- The method `CDebugHookManager::RemoveDebugHook`.  Returns the boolean the
method returns and the manager afterwards. -/
def RemoveDebugHook (GetVirtualMachine : lua_State → Option CLuaMain)
    (self : CDebugHookManager) (hookType : EDebugHookType)
    (functionRef : CLuaFunctionRef) : Bool × CDebugHookManager :=
  let pLuaMain := GetVirtualMachine functionRef.GetLuaVM
  let hookInfoList := self.read (GetHookInfoListForType hookType)
  match RemoveDebugHook.eraseFirst pLuaMain functionRef hookInfoList with
  | some erased => (true, self.write (GetHookInfoListForType hookType) erased)
  | none => (false, self)

/-- Inner loop of `OnLuaMainDestroy`: index `i` walks the list; an entry owned
by `pLuaMain` is removed at the index and the index stays, any other entry
moves the index on. -/
def OnLuaMainDestroy.sweep (pLuaMain : Option CLuaMain)
    (hookInfoList : List SDebugHookCallInfo) (i : Nat) : List SDebugHookCallInfo :=
  if h : i < hookInfoList.length then
    if hookInfoList[i].pLuaMain = pLuaMain then
      OnLuaMainDestroy.sweep pLuaMain (ListRemoveIndex hookInfoList i) i
    else
      OnLuaMainDestroy.sweep pLuaMain hookInfoList (i + 1)
  else hookInfoList
termination_by hookInfoList.length - i
decreasing_by
  · simp only [ListRemoveIndex, List.length_eraseIdx, h, if_true]
    omega
  · omega

/-- Body of the outer loop of `OnLuaMainDestroy` for one value of `hookType`. -/
def OnLuaMainDestroy.body (pLuaMain : Option CLuaMain) (self : CDebugHookManager)
    (hookType : Nat) : CDebugHookManager :=
  let r := GetHookInfoListForType (EDebugHookType.ofUInt hookType)
  self.write r (OnLuaMainDestroy.sweep pLuaMain (self.read r) 0)

/-- The method `CDebugHookManager::OnLuaMainDestroy`: `hookType` runs from
`PRE_EVENT` up to, not including, `MAX_DEBUG_HOOK_TYPE`. -/
def OnLuaMainDestroy (self : CDebugHookManager) (pLuaMain : Option CLuaMain) :
    CDebugHookManager :=
  (List.range' EDebugHookType.PRE_EVENT.toUInt
      (EDebugHookType.MAX_DEBUG_HOOK_TYPE.toUInt - EDebugHookType.PRE_EVENT.toUInt)).foldl
    (OnLuaMainDestroy.body pLuaMain) self

/-! ## The name filter -/

/-- The method `CDebugHookManager::IsNameAllowed`: the loop over the hook list
from index `0` on. -/
def IsNameAllowed (szName : SString) :
    List SDebugHookCallInfo → Bool → Bool
  | [], _ => false
  | info :: rest, bNameMustBeExplicitlyAllowed =>
    if decide (info.allowedNameMap = ∅) && !bNameMustBeExplicitlyAllowed then true
    else if MapContains info.allowedNameMap szName then true
    else IsNameAllowed szName rest bNameMustBeExplicitlyAllowed

/-- The method `CDebugHookManager::MustNameBeExplicitlyAllowed`. -/
def MustNameBeExplicitlyAllowed (strName : SString) : Bool :=
  strName == "addDebugHook" || strName == "removeDebugHook"

/-! ## Argument lists and masking -/

/-- Modelled from the spec: the class `CLuaArgument` is declared in a header that
is not embedded here.  It is one value handed to or returned by a script: nil, a
boolean, a number, a string, a resource or an element.  The numbers the hook
manager itself pushes are line numbers, so numbers are integers here; an element
argument keeps the (nullable) element pointer it was built from. -/
inductive CLuaArgument where
  | nil
  | boolean (b : Bool)
  | number (n : Int)
  | string (s : SString)
  | resource (pResource : Nat)
  | element (pElement : Option Nat)
deriving DecidableEq, Repr

/-- Modelled from the spec: the class `CLuaArguments` is declared in a header
that is not embedded here; it is the ordered list of the arguments. -/
abbrev CLuaArguments := List CLuaArgument

namespace CLuaArguments

/-- Modelled from the spec: `CLuaArguments::operator[]` is defined outside the
embedded sources.  It returns a pointer to the argument at the position, here the
position itself, and the null pointer for a position at or beyond the argument
count (the spec: such positions are ignored without an out-of-bounds error). -/
def index (self : CLuaArguments) (uiPosition : Nat) : Option Nat :=
  if uiPosition < self.length then some uiPosition else none

/-- Modelled from the spec: `CLuaArgument::ReadString` is defined outside the
embedded sources.  Called through a pointer obtained from `operator[]`, it turns
the argument at that position into the string (the spec: the argument is
replaced with the redaction string). -/
def ReadString (self : CLuaArguments) (pArgument : Nat) (str : SString) : CLuaArguments :=
  self.set pArgument (.string str)

/-- Modelled from the spec: `CLuaArguments::PushNil`, defined outside the embedded
sources, appends one value to the ordered list: a nil argument. -/
def PushNil (self : CLuaArguments) : CLuaArguments := self ++ [.nil]

/-- Modelled from the spec: `CLuaArguments::PushBoolean`, defined outside the embedded
sources, appends one value to the ordered list: a boolean argument. -/
def PushBoolean (self : CLuaArguments) (b : Bool) : CLuaArguments := self ++ [.boolean b]

/-- Modelled from the spec: `CLuaArguments::PushNumber`, defined outside the embedded
sources, appends one value to the ordered list: a number argument. -/
def PushNumber (self : CLuaArguments) (n : Int) : CLuaArguments := self ++ [.number n]

/-- Modelled from the spec: `CLuaArguments::PushString`, defined outside the embedded
sources, appends one value to the ordered list: a string argument. -/
def PushString (self : CLuaArguments) (s : SString) : CLuaArguments := self ++ [.string s]

/-- Modelled from the spec: `CLuaArguments::PushResource`, defined outside the embedded
sources, appends one value to the ordered list: a resource argument. -/
def PushResource (self : CLuaArguments) (pResource : Nat) : CLuaArguments :=
  self ++ [.resource pResource]

/-- Modelled from the spec: `CLuaArguments::PushElement`, defined outside the embedded
sources, appends one value to the ordered list: an element argument. -/
def PushElement (self : CLuaArguments) (pElement : Option Nat) : CLuaArguments :=
  self ++ [.element pElement]

/-- Modelled from the spec: `CLuaArguments::PushArguments`, defined outside the
embedded sources, appends a copy of every argument of the other list, in
order. -/
def PushArguments (self : CLuaArguments) (Arguments : CLuaArguments) : CLuaArguments :=
  self ++ Arguments

end CLuaArguments

/-- Modelled from the spec: `MapFind` is a container helper of `SharedUtil`,
which is not embedded here; on a map it returns the value stored for the key, or
the null pointer when the key has no entry. -/
def MapFind (collection : List (SString × List Nat)) (key : SString) : Option (List Nat) :=
  collection.lookup key

/-- Body of the loop of `MaybeMaskArgumentValues` for one listed position. -/
def MaybeMaskArgumentValues.body (FunctionArguments : CLuaArguments) (uiIndex : Nat) :
    CLuaArguments :=
  match CLuaArguments.index FunctionArguments uiIndex with
  | some pArgument => CLuaArguments.ReadString FunctionArguments pArgument "***"
  | none => FunctionArguments

/-- The method `CDebugHookManager::MaybeMaskArgumentValues`; it returns the
argument list it leaves behind. -/
def MaybeMaskArgumentValues (self : CDebugHookManager) (strFunctionName : SString)
    (FunctionArguments : CLuaArguments) : CLuaArguments :=
  match MapFind self.m_MaskArgumentsMap strFunctionName with
  | some pArgIndexList => pArgIndexList.foldl MaybeMaskArgumentValues.body FunctionArguments
  | none => FunctionArguments

/-! ## The host and the scripting VM -/

/-- Modelled from the spec: the struct `lua_Debug` belongs to the scripting VM,
which is not embedded here.  These are the four fields the hook manager reads
after `lua_getinfo`. -/
structure lua_Debug where
  source : SString
  short_src : SString
  currentline : Int
  linedefined : Int
deriving DecidableEq, Repr

/-- Modelled from the spec: the class `CMapEvent` is declared in a header that is
not embedded here.  A scripted event handler knows the VM instance it belongs to
(`GetVM()`, nullable) and the handler function (`GetLuaFunction()`). -/
structure CMapEvent where
  m_pMain : Option CLuaMain
  m_iLuaFunction : CLuaFunctionRef
deriving DecidableEq, Repr

/-- Accessor `CMapEvent::GetVM`. -/
def CMapEvent.GetVM (self : CMapEvent) : Option CLuaMain := self.m_pMain

/-- Accessor `CMapEvent::GetLuaFunction`. -/
def CMapEvent.GetLuaFunction (self : CMapEvent) : CLuaFunctionRef := self.m_iLuaFunction

/-- The program state a dispatch reads and writes: the hook manager, the static
flag `bRecurse` of `CallHook`, and the global variables of every `lua_State`. -/
structure World where
  manager : CDebugHookManager
  bRecurse : Bool
  globals : lua_State → SString → CLuaArgument

/-- Modelled from the spec: `lua_getglobal(pState, name)` followed by
`CLuaArgument(pState, -1)` and `lua_pop`, all defined outside the embedded
sources, give a copy of the value of the global; the spec has the snapshot
tolerate every type of value, nil included, so the copy is the value. -/
def World.lua_getglobal (w : World) (pState : lua_State) (name : SString) : CLuaArgument :=
  w.globals pState name

/-- Modelled from the spec: `Old.Push(pState)` followed by
`lua_setglobal(pState, name)`, both defined outside the embedded sources, give
the global the saved value. -/
def World.lua_setglobal (w : World) (pState : lua_State) (name : SString)
    (value : CLuaArgument) : World :=
  { w with globals := fun L n => if L = pState ∧ n = name then value else w.globals L n }

/-- The collaborators of the hook manager that live outside its source file:
the scripting VM, the table of native functions and the script debugger.

* `Call w pLuaMain functionRef Arguments` is
  `Arguments.Call(pLuaMain, functionRef, &returnValues)`: it runs the callback
  in the given program state and gives the state afterwards and the values
  returned (none when the call fails);
* `GetVirtualMachine` and `GetVM` are the accessors of `CLuaMain` of these
  names, null for an instance whose `lua_State` is gone;
* `GetResource` is `CLuaMain::GetResource`;
* `GetTopLuaMain` is `g_pGame->GetScriptDebugging()->GetTopLuaMain()`;
* `GetFunction f` is the name of `CLuaCFunctions::GetFunction(f)`, null when the
  native function is not registered;
* `lua_getstack luaVM` is the `lua_Debug` filled by `lua_getstack(luaVM, 1, ..)`
  and `lua_getinfo(luaVM, "nlS", ..)`, null when there is no such stack frame;
* `lua_getinfo luaVM ref` is the `lua_Debug` filled by `lua_getref` and
  `lua_getinfo(luaVM, ">lS", ..)`, null when `lua_getinfo` fails;
* `ReadArguments luaVM` is the list `FunctionArguments.ReadArguments(luaVM)`
  reads from the stack of the native call;
* `deadFrameText` is the text that a read through a pointer into the stack frame
  of a function that has returned finds there: the program does not define it,
  the calls made since have reused the frame. -/
structure Host where
  Call : World → Option CLuaMain → CLuaFunctionRef → CLuaArguments → World × CLuaArguments
  GetVirtualMachine : CLuaMain → Option lua_State
  GetVM : CLuaMain → Option lua_State
  GetResource : CLuaMain → Option Nat
  GetTopLuaMain : Option CLuaMain
  GetFunction : Nat → Option SString
  lua_getstack : lua_State → Option lua_Debug
  lua_getinfo : lua_State → CLuaFunctionRef → Option lua_Debug
  ReadArguments : Option lua_State → CLuaArguments
  deadFrameText : SString

/-! ## Call-site information -/

/-- The C function `strrchr(sz, c)` followed by `+ 1`: the text after the last
occurrence of `c`, or null when `c` does not occur. -/
def strrchrNext (c : Char) : List Char → Option (List Char)
  | [] => none
  | x :: rest =>
    match strrchrNext c rest with
    | some szNext => some szNext
    | none => if x = c then some rest else none

/-- The block `// Remove path` of `GetDebugInfo` and `GetMapEventDebugInfo`:
first the text after the last backslash (character 92), then the text after the
last slash. -/
def RemovePath (szFilename : SString) : SString :=
  let afterBackslash :=
    match strrchrNext (Char.ofNat 92) szFilename.data with
    | some szNext => szNext
    | none => szFilename.data
  match strrchrNext '/' afterBackslash with
  | some szNext => String.mk szNext
  | none => String.mk afterBackslash

/-- The block that `GetDebugInfo` and `GetMapEventDebugInfo` both run once the
`lua_Debug` is filled: a source that starts with `@` gives the source name and
the current line (the line of the definition when there is no current line); any
other source gives `short_src` and leaves the line number as it was; then the
path is removed. -/
def DebugInfoLocation (debugInfo : lua_Debug) (iLineNumber : Int) : SString × Int :=
  if debugInfo.source.data.head? = some '@' then
    (RemovePath debugInfo.source,
      if debugInfo.currentline ≠ -1 then debugInfo.currentline else debugInfo.linedefined)
  else
    (RemovePath debugInfo.short_src, iLineNumber)

/-- The function `GetDebugInfo`: the file name and line number of the script
line that is running in `luaVM`; the two output arguments keep the values passed
in when there is no `lua_State` or no stack frame.  The `lua_Debug` it fills
belongs to the caller, so the file name is still there when the caller reads
it. -/
def GetDebugInfo (host : Host) (luaVM : Option lua_State) (szFilename : SString)
    (iLineNumber : Int) : SString × Int :=
  match luaVM with
  | none => (szFilename, iLineNumber)
  | some L =>
    match host.lua_getstack L with
    | none => (szFilename, iLineNumber)
    | some debugInfo => DebugInfoLocation debugInfo iLineNumber

/-- What the `const char*` that `GetMapEventDebugInfo` leaves in `szFilename`
points to once the function has returned: text that is still there (`alive`: the
text passed in by the caller, or the source name, which the VM owns), or the
place inside the local `lua_Debug` of the function where the given text was
(`deadFrame`: `short_src` is a character array of that local). -/
inductive FilenamePointer where
  | alive (text : SString)
  | deadFrame (text : SString)
deriving DecidableEq, Repr

/-- The text that `PushString` reads through a file name pointer: the text a
pointer to live text points to, and the text of the host for a pointer into a
frame that is gone. -/
def Host.ReadFilename (host : Host) : FilenamePointer → SString
  | .alive text => text
  | .deadFrame _ => host.deadFrameText

/-- The function `GetMapEventDebugInfo`: the file name and line number of the
handler function of `pMapEvent`; the two output arguments keep the values passed
in when the handler has no VM instance, the instance has no `lua_State`, or
`lua_getinfo` fails.  The `lua_Debug` is a local of this function: for a source
that starts with `@` the file name points into the source name, and for any other
source into `short_src` of that local, which is gone when the function has
returned. -/
def GetMapEventDebugInfo (host : Host) (pMapEvent : CMapEvent) (szFilename : SString)
    (iLineNumber : Int) : FilenamePointer × Int :=
  match pMapEvent.GetVM with
  | none => (.alive szFilename, iLineNumber)
  | some pLuaMain =>
    match host.GetVirtualMachine pLuaMain with
    | none => (.alive szFilename, iLineNumber)
    | some luaVM =>
      match host.lua_getinfo luaVM pMapEvent.GetLuaFunction with
      | none => (.alive szFilename, iLineNumber)
      | some debugInfo =>
        let location := DebugInfoLocation debugInfo iLineNumber
        if debugInfo.source.data.head? = some '@' then (.alive location.1, location.2)
        else (.deadFrame location.1, location.2)

/-! ## Payloads -/

/-- The statements `luaVM = pLuaMain ? pLuaMain->GetVM() : NULL;` and
`if (luaVM) GetDebugInfo(luaVM, debugInfo, szFilename, iLineNumber);` of the two
builders of event payloads. -/
def GetTopDebugInfo (host : Host) (pLuaMain : Option CLuaMain) (szFilename : SString)
    (iLineNumber : Int) : SString × Int :=
  let luaVM := match pLuaMain with
    | some m => host.GetVM m
    | none => none
  match luaVM with
  | some L => GetDebugInfo host (some L) szFilename iLineNumber
  | none => (szFilename, iLineNumber)

/-- The argument that `PushResource` or `PushNil` appends for a nullable
resource pointer. -/
def ResourceOrNil (pResource : Option Nat) : CLuaArgument :=
  match pResource with
  | some r => .resource r
  | none => .nil

/-- The statement `if (pResource) PushResource(pResource); else PushNil();`. -/
def PushResourceOrNil (NewArguments : CLuaArguments) (pResource : Option Nat) :
    CLuaArguments :=
  match pResource with
  | some r => CLuaArguments.PushResource NewArguments r
  | none => CLuaArguments.PushNil NewArguments

/-- The expression `pLuaMain ? pLuaMain->GetResource() : NULL`. -/
def ResourceOf (host : Host) (pLuaMain : Option CLuaMain) : Option Nat :=
  match pLuaMain with
  | some m => host.GetResource m
  | none => none

/-- The method `CDebugHookManager::GetFunctionCallHookArguments`; it returns
`NewArguments` as the method leaves it. -/
def GetFunctionCallHookArguments (host : Host) (self : CDebugHookManager)
    (NewArguments : CLuaArguments) (strName : SString) (luaVM : Option lua_State)
    (bAllowed : Bool) : CLuaArguments :=
  let location := GetDebugInfo host luaVM "" 0
  let pSourceLuaMain := host.GetTopLuaMain
  let pSourceResource := ResourceOf host pSourceLuaMain
  let NewArguments := PushResourceOrNil NewArguments pSourceResource
  let NewArguments := CLuaArguments.PushString NewArguments strName
  let NewArguments := CLuaArguments.PushBoolean NewArguments bAllowed
  let NewArguments := CLuaArguments.PushString NewArguments location.1
  let NewArguments := CLuaArguments.PushNumber NewArguments location.2
  let FunctionArguments := host.ReadArguments luaVM
  let FunctionArguments := MaybeMaskArgumentValues self strName FunctionArguments
  CLuaArguments.PushArguments NewArguments FunctionArguments

/-- The method `CDebugHookManager::GetEventCallHookArguments`; it returns
`NewArguments` as the method leaves it. -/
def GetEventCallHookArguments (host : Host) (NewArguments : CLuaArguments)
    (strName : SString) (Arguments : CLuaArguments) (pSource pCaller : Option Nat) :
    CLuaArguments :=
  let pSourceLuaMain := host.GetTopLuaMain
  let pSourceResource := ResourceOf host pSourceLuaMain
  let location := GetTopDebugInfo host pSourceLuaMain "" 0
  let NewArguments := PushResourceOrNil NewArguments pSourceResource
  let NewArguments := CLuaArguments.PushString NewArguments strName
  let NewArguments := CLuaArguments.PushElement NewArguments pSource
  let NewArguments := CLuaArguments.PushElement NewArguments pCaller
  let NewArguments := CLuaArguments.PushString NewArguments location.1
  let NewArguments := CLuaArguments.PushNumber NewArguments location.2
  CLuaArguments.PushArguments NewArguments Arguments

/-- The method `CDebugHookManager::GetEventFunctionCallHookArguments`; it
returns `NewArguments` as the method leaves it. -/
def GetEventFunctionCallHookArguments (host : Host) (NewArguments : CLuaArguments)
    (strName : SString) (Arguments : CLuaArguments) (pSource pCaller : Option Nat)
    (pMapEvent : CMapEvent) : CLuaArguments :=
  let pEventLuaMain := host.GetTopLuaMain
  let pEventResource := ResourceOf host pEventLuaMain
  let eventLocation := GetTopDebugInfo host pEventLuaMain "" 0
  let functionLocation := GetMapEventDebugInfo host pMapEvent "" 0
  let pFunctionLuaMain := pMapEvent.GetVM
  let pFunctionResource := ResourceOf host pFunctionLuaMain
  let NewArguments := PushResourceOrNil NewArguments pEventResource
  let NewArguments := CLuaArguments.PushString NewArguments strName
  let NewArguments := CLuaArguments.PushElement NewArguments pSource
  let NewArguments := CLuaArguments.PushElement NewArguments pCaller
  let NewArguments := CLuaArguments.PushString NewArguments eventLocation.1
  let NewArguments := CLuaArguments.PushNumber NewArguments eventLocation.2
  let NewArguments := PushResourceOrNil NewArguments pFunctionResource
  let NewArguments :=
    CLuaArguments.PushString NewArguments (host.ReadFilename functionLocation.1)
  let NewArguments := CLuaArguments.PushNumber NewArguments functionLocation.2
  CLuaArguments.PushArguments NewArguments Arguments

/-! ## Dispatch -/

/-- Modelled from the spec: the default value of the parameter
`bNameMustBeExplicitlyAllowed` of `IsNameAllowed` and of `CallHook` is written
in the header `CDebugHookManager.h`, which is not embedded here.  The event
entry points leave the argument out; the spec has a hook with an empty set of
allowed names match every name that is not restricted, event names included,
which is the behaviour of the value false. -/
def bNameMustBeExplicitlyAllowedDefault : Bool := false

/-- One call of a hook callback made by `CallHook`: the entry that was called
and the payload passed to it.  The list of these calls is kept next to the
program state so that properties of a dispatch can speak about it. -/
structure Invocation where
  info : SDebugHookCallInfo
  Arguments : CLuaArguments
deriving DecidableEq

/-- What a dispatch leaves behind: the value returned to the caller, the program
state, and the calls of hook callbacks that were made, in the order they were
made. -/
structure Dispatch where
  result : Bool
  world : World
  invoked : List Invocation

/-- The expression `info.pLuaMain->GetVirtualMachine()`.  `AddDebugHook` never
stores a null owner; for an entry with a null owner, which the program would
dereference, the embedding gives the null `lua_State`. -/
def Host.pState (host : Host) (pLuaMain : Option CLuaMain) : Option lua_State :=
  match pLuaMain with
  | some m => host.GetVirtualMachine m
  | none => none

/-- The block `// Check for skip option` of `CallHook`: the new value of `bSkip`
after a callback has returned `returnValues`. -/
def CallHook.skipOption (returnValues : CLuaArguments) (bSkip : Bool) : Bool :=
  match returnValues with
  | [] => bSkip
  | returnedValue :: _ =>
    match returnedValue with
    | .string s => if s = "skip" then true else bSkip
    | _ => bSkip

/-- The name test of the loop of `CallHook`: true when the entry is passed over
with `continue` because the name is not in its set of allowed names. -/
def CallHook.filteredOut (szName : SString) (info : SDebugHookCallInfo)
    (bNameMustBeExplicitlyAllowed : Bool) : Bool :=
  if decide (info.allowedNameMap ≠ ∅) || bNameMustBeExplicitlyAllowed then
    !MapContains info.allowedNameMap szName
  else false

/-- The part of the loop body of `CallHook` from `// Save script MTA globals` to
the end: save the six globals of `pState`, call the callback, look for the skip
option, write the six saved values back. -/
def CallHook.invoke (host : Host) (Arguments : CLuaArguments) (w : World) (bSkip : Bool)
    (info : SDebugHookCallInfo) (pState : lua_State) : World × Bool :=
  let OldSource := w.lua_getglobal pState "source"
  let OldThis := w.lua_getglobal pState "this"
  let OldResource := w.lua_getglobal pState "sourceResource"
  let OldResourceRoot := w.lua_getglobal pState "sourceResourceRoot"
  let OldEventName := w.lua_getglobal pState "eventName"
  let OldClient := w.lua_getglobal pState "client"
  let called := host.Call w info.pLuaMain info.functionRef Arguments
  let w := called.1
  let returnValues := called.2
  let bSkip := CallHook.skipOption returnValues bSkip
  let w := w.lua_setglobal pState "source" OldSource
  let w := w.lua_setglobal pState "this" OldThis
  let w := w.lua_setglobal pState "sourceResource" OldResource
  let w := w.lua_setglobal pState "sourceResourceRoot" OldResourceRoot
  let w := w.lua_setglobal pState "eventName" OldEventName
  let w := w.lua_setglobal pState "client" OldClient
  (w, bSkip)

/-- One pass through the loop body of `CallHook` for the entry `info`: the
program state and `bSkip` afterwards, and the call that was made, if any. -/
def CallHook.body (host : Host) (szName : SString) (Arguments : CLuaArguments)
    (bNameMustBeExplicitlyAllowed : Bool) (w : World) (bSkip : Bool)
    (info : SDebugHookCallInfo) : World × Bool × List Invocation :=
  if CallHook.filteredOut szName info bNameMustBeExplicitlyAllowed then (w, bSkip, [])
  else
    match host.pState info.pLuaMain with
    | none => (w, bSkip, [])
    | some pState =>
      let after := CallHook.invoke host Arguments w bSkip info pState
      (after.1, after.2, [{ info := info, Arguments := Arguments }])

/-- The loop of `CallHook`.  `eventHookList` is a reference to one of the six
members, so every iteration reads the list as the callbacks have left it.  A
callback may add entries to that list, so the loop need not end: the first
argument bounds the number of times the loop condition is evaluated, and the
result is `none` when that bound is reached. -/
def CallHook.loop (host : Host) (szName : SString) (eventHookList : HookInfoList)
    (Arguments : CLuaArguments) (bNameMustBeExplicitlyAllowed : Bool) :
    Nat → Nat → World → Bool → List Invocation → Option (World × Bool × List Invocation)
  | 0, _, _, _, _ => none
  | fuel + 1, i, w, bSkip, invoked =>
    if h : i < (w.manager.read eventHookList).length then
      let info := (w.manager.read eventHookList)[i]
      let after := CallHook.body host szName Arguments bNameMustBeExplicitlyAllowed w bSkip info
      CallHook.loop host szName eventHookList Arguments bNameMustBeExplicitlyAllowed
        fuel (i + 1) after.1 after.2.1 (invoked ++ after.2.2)
    else some (w, bSkip, invoked)

/-- The method `CDebugHookManager::CallHook`. -/
def CallHook (host : Host) (fuel : Nat) (w : World) (szName : SString)
    (eventHookList : HookInfoList) (Arguments : CLuaArguments)
    (bNameMustBeExplicitlyAllowed : Bool) : Option Dispatch :=
  if w.bRecurse then some { result := true, world := w, invoked := [] }
  else
    let w := { w with bRecurse := true }
    match CallHook.loop host szName eventHookList Arguments bNameMustBeExplicitlyAllowed
        fuel 0 w false [] with
    | none => none
    | some (w, bSkip, invoked) =>
      some { result := !bSkip, world := { w with bRecurse := false }, invoked := invoked }

/-- The outcome of an entry point that returns before any hook is looked at. -/
def Dispatch.allowed (w : World) : Dispatch :=
  { result := true, world := w, invoked := [] }

/-- The method `CDebugHookManager::OnPreFunction`. -/
def OnPreFunction (host : Host) (fuel : Nat) (w : World) (f : Nat)
    (luaVM : Option lua_State) (bAllowed : Bool) : Option Dispatch :=
  if w.manager.m_PreFunctionHookList.isEmpty then some (Dispatch.allowed w)
  else
    match host.GetFunction f with
    | none => some (Dispatch.allowed w)
    | some strName =>
      let bNameMustBeExplicitlyAllowed := MustNameBeExplicitlyAllowed strName
      if !IsNameAllowed strName w.manager.m_PreFunctionHookList
          bNameMustBeExplicitlyAllowed then
        some (Dispatch.allowed w)
      else
        let NewArguments :=
          GetFunctionCallHookArguments host w.manager [] strName luaVM bAllowed
        CallHook host fuel w strName .m_PreFunctionHookList NewArguments
          bNameMustBeExplicitlyAllowed

/-- The method `CDebugHookManager::OnPostFunction`.  The method returns nothing;
the field `result` is the value of the `CallHook` it ends with, which the method
drops. -/
def OnPostFunction (host : Host) (fuel : Nat) (w : World) (f : Nat)
    (luaVM : Option lua_State) : Option Dispatch :=
  if w.manager.m_PostFunctionHookList.isEmpty then some (Dispatch.allowed w)
  else
    match host.GetFunction f with
    | none => some (Dispatch.allowed w)
    | some strName =>
      let bNameMustBeExplicitlyAllowed := MustNameBeExplicitlyAllowed strName
      if !IsNameAllowed strName w.manager.m_PostFunctionHookList
          bNameMustBeExplicitlyAllowed then
        some (Dispatch.allowed w)
      else
        let NewArguments :=
          GetFunctionCallHookArguments host w.manager [] strName luaVM true
        CallHook host fuel w strName .m_PostFunctionHookList NewArguments
          bNameMustBeExplicitlyAllowed

/-- The method `CDebugHookManager::OnPreEvent`. -/
def OnPreEvent (host : Host) (fuel : Nat) (w : World) (szName : SString)
    (Arguments : CLuaArguments) (pSource pCaller : Option Nat) : Option Dispatch :=
  if w.manager.m_PreEventHookList.isEmpty then some (Dispatch.allowed w)
  else if !IsNameAllowed szName w.manager.m_PreEventHookList
      bNameMustBeExplicitlyAllowedDefault then
    some (Dispatch.allowed w)
  else
    let NewArguments := GetEventCallHookArguments host [] szName Arguments pSource pCaller
    CallHook host fuel w szName .m_PreEventHookList NewArguments
      bNameMustBeExplicitlyAllowedDefault

/-- The method `CDebugHookManager::OnPostEvent`.  The method returns nothing;
the field `result` is the value of the `CallHook` it ends with, which the method
drops. -/
def OnPostEvent (host : Host) (fuel : Nat) (w : World) (szName : SString)
    (Arguments : CLuaArguments) (pSource pCaller : Option Nat) : Option Dispatch :=
  if w.manager.m_PostEventHookList.isEmpty then some (Dispatch.allowed w)
  else if !IsNameAllowed szName w.manager.m_PostEventHookList
      bNameMustBeExplicitlyAllowedDefault then
    some (Dispatch.allowed w)
  else
    let NewArguments := GetEventCallHookArguments host [] szName Arguments pSource pCaller
    CallHook host fuel w szName .m_PostEventHookList NewArguments
      bNameMustBeExplicitlyAllowedDefault

/-- The method `CDebugHookManager::OnPreEventFunction`. -/
def OnPreEventFunction (host : Host) (fuel : Nat) (w : World) (szName : SString)
    (Arguments : CLuaArguments) (pSource pCaller : Option Nat) (pMapEvent : CMapEvent) :
    Option Dispatch :=
  if w.manager.m_PreEventFunctionHookList.isEmpty then some (Dispatch.allowed w)
  else if !IsNameAllowed szName w.manager.m_PreEventFunctionHookList
      bNameMustBeExplicitlyAllowedDefault then
    some (Dispatch.allowed w)
  else
    let NewArguments :=
      GetEventFunctionCallHookArguments host [] szName Arguments pSource pCaller pMapEvent
    CallHook host fuel w szName .m_PreEventFunctionHookList NewArguments
      bNameMustBeExplicitlyAllowedDefault

/-- The method `CDebugHookManager::OnPostEventFunction`.  The method returns
nothing; the field `result` is the value of the `CallHook` it ends with, which
the method drops. -/
def OnPostEventFunction (host : Host) (fuel : Nat) (w : World) (szName : SString)
    (Arguments : CLuaArguments) (pSource pCaller : Option Nat) (pMapEvent : CMapEvent) :
    Option Dispatch :=
  if w.manager.m_PostEventFunctionHookList.isEmpty then some (Dispatch.allowed w)
  else if !IsNameAllowed szName w.manager.m_PostEventFunctionHookList
      bNameMustBeExplicitlyAllowedDefault then
    some (Dispatch.allowed w)
  else
    let NewArguments :=
      GetEventFunctionCallHookArguments host [] szName Arguments pSource pCaller pMapEvent
    CallHook host fuel w szName .m_PostEventFunctionHookList NewArguments
      bNameMustBeExplicitlyAllowedDefault

/-- The calls of callbacks that the loop of `CallHook` makes, in order: for each
call the program state in which `Arguments.Call` is entered and the entry that
is called.  It walks the list as `CallHook.loop` does, from the same bound,
index and program state, and keeps what the loop passes to `Arguments.Call`. -/
def CallHook.calls (host : Host) (szName : SString) (eventHookList : HookInfoList)
    (Arguments : CLuaArguments) (bNameMustBeExplicitlyAllowed : Bool) :
    Nat → Nat → World → List (World × SDebugHookCallInfo)
  | 0, _, _ => []
  | fuel + 1, i, w =>
    if h : i < (w.manager.read eventHookList).length then
      let info := (w.manager.read eventHookList)[i]
      let after := CallHook.body host szName Arguments bNameMustBeExplicitlyAllowed w false info
      after.2.2.map (fun inv => (w, inv.info)) ++
        CallHook.calls host szName eventHookList Arguments bNameMustBeExplicitlyAllowed
          fuel (i + 1) after.1
    else []

/-- The values that the call `c` of `CallHook.calls` returns: what
`Arguments.Call` stores in `returnValues`. -/
def CallHook.returnValues (host : Host) (Arguments : CLuaArguments)
    (c : World × SDebugHookCallInfo) : CLuaArguments :=
  (host.Call c.1 c.2.pLuaMain c.2.functionRef Arguments).2

/-- The six globals that the loop body of `CallHook` saves before a call and
writes back after it, in the order of the source. -/
def CallHook.savedGlobals : List SString :=
  ["source", "this", "sourceResource", "sourceResourceRoot", "eventName", "client"]

end DebugHook

/-! # Client models (`Client/mods/deathmatch/logic/CClientModel.cpp`)

The methods of `CClientModel` that allocate and deallocate a model ID.  The game
layer they call (`g_pGame`, `g_pClientGame` and the managers behind them) is not
embedded: its state is a type `G` and the calls into it are the fields of a
`CGame G`. -/

namespace ClientModel

/-- Modelled from the spec: the enum `eClientModelType` is declared in a header
that is not embedded here, and the spec leaves the model subsystem to the host;
the enumerators are the ones `CClientModel.cpp` names. -/
inductive eClientModelType where
  | PED
  | OBJECT
  | VEHICLE
  | TIMED_OBJECT
  | CLUMP
  | TXD
deriving DecidableEq, Repr

/-- Modelled from the spec: the class `CClientModel` is declared in a header
that is not embedded here, and the spec leaves the model subsystem to the host;
the members are the ones `CClientModel.cpp` reads and writes, with the parent
resource that `SetParentResource` sets. -/
structure CClientModel where
  m_iModelID : Int
  m_eModelType : eClientModelType
  m_bAllocatedByUs : Bool
  m_pParentResource : Option Nat
deriving DecidableEq, Repr

/-- The manager of elements that a call of the lambda
`unloadModelsAndCallEvents` of `DeallocateDFF` walks. -/
inductive ElementManager where
  | peds
  | objects
  | pickups
  | vehicles
deriving DecidableEq, Repr

/-- The calls of `CClientModel.cpp` into the game layer, over a game state `G`.

* `GetModelInfo g id` tells whether `g_pGame->GetModelInfo(id, true)` is a model
  info (true) or the null pointer (false);
* `IsValid`, `GetParentID` and `GetTextureDictionaryID` read the model info of
  an ID;
* `IsValidObjectModel` and `IsValidVehicleModel` are `IsValidModel` of the
  object manager and of the vehicle manager;
* the `Make` functions, `DeallocateModel` and `SetTextureDictionaryID` are the
  methods of these names of the model info of an ID;
* `UnloadModelsAndCallEvents g manager id parent` is one call of the lambda of
  `DeallocateDFF`: every element of the manager that has the model `id` is
  streamed out, gets the model `parent` and the event
  `onClientElementModelChange`;
* `RestoreCOL` and `RestoreDFF` are `RestoreModel` of the COL manager and of the
  DFF manager;
* `AllocateTextureDictonarySlot`, `RemoveTextureDictonarySlot` and
  `SetStreamingInfo` are the calls of these names on the pools and on the
  streaming; the slot that `AllocateTextureDictonarySlot` returns is a `uint`;
* `MAX_MODEL_DFF_ID` is the constant of this name. -/
structure CGame (G : Type) where
  GetModelInfo : G → Int → Bool
  IsValid : G → Int → Bool
  GetParentID : G → Int → Nat
  GetTextureDictionaryID : G → Int → Nat
  IsValidObjectModel : G → Nat → Bool
  IsValidVehicleModel : G → Nat → Bool
  MakePedModel : G → Int → String → G
  MakeObjectModel : G → Int → Nat → G
  MakeClumpModel : G → Int → Nat → G
  MakeTimedObjectModel : G → Int → Nat → G
  MakeVehicleAutomobile : G → Int → Nat → G
  DeallocateModel : G → Int → G
  SetTextureDictionaryID : G → Int → Nat → G
  UnloadModelsAndCallEvents : G → ElementManager → Int → Nat → G
  RestoreCOL : G → Int → G
  RestoreDFF : G → Int → G
  AllocateTextureDictonarySlot : G → Nat → String → Nat × G
  RemoveTextureDictonarySlot : G → Nat → G
  SetStreamingInfo : G → Int → G
  MAX_MODEL_DFF_ID : Nat

/-- Conversion of an `int` to `uint`, a number below `2 ^ 32`. -/
def toUInt (n : Int) : Nat := (n % (2 ^ 32 : Int)).toNat

/-- The method `CClientModel::SetParentResource`, which stores the pointer. -/
def CClientModel.SetParentResource (self : CClientModel) (pResource : Option Nat) :
    CClientModel :=
  { self with m_pParentResource := pResource }

/-- The method `CClientModel::Allocate`: the value returned, the object and the
game state afterwards.  The method dereferences the two model infos without a
test; the result is `none` when one of them is the null pointer. -/
def Allocate {G : Type} (game : CGame G) (self : CClientModel) (g : G) (usParentID : Nat) :
    Option (Bool × CClientModel × G) :=
  let self := { self with m_bAllocatedByUs := true }
  if !game.GetModelInfo g self.m_iModelID then none
  else if game.IsValid g self.m_iModelID then some (false, self, g)
  else if !game.GetModelInfo g usParentID then none
  else if game.GetParentID g usParentID ≠ 0 then some (false, self, g)
  else
    match self.m_eModelType with
    | .PED => some (true, self, game.MakePedModel g self.m_iModelID "PSYCHO")
    | .OBJECT =>
      if game.IsValidObjectModel g usParentID then
        some (true, self, game.MakeObjectModel g self.m_iModelID usParentID)
      else some (false, self, g)
    | .CLUMP =>
      if game.IsValidObjectModel g usParentID then
        some (true, self, game.MakeClumpModel g self.m_iModelID usParentID)
      else some (false, self, g)
    | .TIMED_OBJECT =>
      if game.IsValidObjectModel g usParentID then
        some (true, self, game.MakeTimedObjectModel g self.m_iModelID usParentID)
      else some (false, self, g)
    | .VEHICLE =>
      if game.IsValidVehicleModel g usParentID then
        some (true, self, game.MakeVehicleAutomobile g self.m_iModelID usParentID)
      else some (false, self, g)
    | .TXD => some (false, self, g)

/-- The method `CClientModel::DeallocateDFF`: the value returned and the game
state afterwards. -/
def DeallocateDFF {G : Type} (game : CGame G) (self : CClientModel) (g : G) : Bool × G :=
  let g :=
    match self.m_eModelType with
    | .PED => game.UnloadModelsAndCallEvents g .peds self.m_iModelID 0
    | .CLUMP | .OBJECT | .TIMED_OBJECT =>
      let usParentID := game.GetParentID g self.m_iModelID
      let g := game.UnloadModelsAndCallEvents g .objects self.m_iModelID usParentID
      let g := game.UnloadModelsAndCallEvents g .pickups self.m_iModelID usParentID
      game.RestoreCOL g self.m_iModelID
    | .VEHICLE =>
      let usParentID := game.GetParentID g self.m_iModelID
      game.UnloadModelsAndCallEvents g .vehicles self.m_iModelID usParentID
    | .TXD => g
  let g := game.RestoreDFF g self.m_iModelID
  let g := game.DeallocateModel g self.m_iModelID
  (true, g)

/-- The method `CClientModel::DeallocateTXD`: the value returned and the game
state afterwards. -/
def DeallocateTXD {G : Type} (game : CGame G) (self : CClientModel) (g : G) : Bool × G :=
  let uiTextureDictonarySlotID := toUInt (self.m_iModelID - game.MAX_MODEL_DFF_ID)
  let g := (List.range game.MAX_MODEL_DFF_ID).foldl
    (fun g uiModelID =>
      if game.GetTextureDictionaryID g uiModelID = uiTextureDictonarySlotID then
        game.SetTextureDictionaryID g uiModelID 0
      else g) g
  let g := game.RemoveTextureDictonarySlot g uiTextureDictonarySlotID
  let g := game.SetStreamingInfo g self.m_iModelID
  (true, g)

/-- The method `CClientModel::Deallocate`: the value returned, the object and
the game state afterwards. -/
def Deallocate {G : Type} (game : CGame G) (self : CClientModel) (g : G) :
    Bool × CClientModel × G :=
  if !self.m_bAllocatedByUs then (false, self, g)
  else if !game.GetModelInfo g self.m_iModelID || !game.IsValid g self.m_iModelID then
    (false, self, g)
  else
    let self := self.SetParentResource none
    match self.m_eModelType with
    | .PED | .OBJECT | .VEHICLE =>
      let done := DeallocateDFF game self g
      (done.1, self, done.2)
    | .TXD =>
      let done := DeallocateTXD game self g
      (done.1, self, done.2)
    | _ => (false, self, g)

/-- The method `CClientModel::AllocateTXD`: the value returned, the object and
the game state afterwards.  The comparison `uiSlotID != -1` is made on `uint`. -/
def AllocateTXD {G : Type} (game : CGame G) (self : CClientModel) (g : G)
    (strTxdName : String) : Bool × CClientModel × G :=
  let slot := game.AllocateTextureDictonarySlot g
    (toUInt (self.m_iModelID - game.MAX_MODEL_DFF_ID)) strTxdName
  if slot.1 ≠ toUInt (-1) then (true, { self with m_bAllocatedByUs := true }, slot.2)
  else (false, self, slot.2)

/-- A small game state for examples: the model IDs that are valid and the model
IDs that have been deallocated, latest first. -/
structure SampleGame where
  valid : List Int
  deallocated : List Int
deriving DecidableEq, Repr

/-- A game over `SampleGame`: the IDs from 0 to 19999 have a model info, the
`Make` functions make an ID valid, `DeallocateModel` makes it invalid and
records it, no model has a parent, and every parent ID is a valid object and
vehicle model. -/
def sampleGame : CGame SampleGame where
  GetModelInfo := fun _ id => decide (0 ≤ id ∧ id < 20000)
  IsValid := fun g id => decide (id ∈ g.valid)
  GetParentID := fun _ _ => 0
  GetTextureDictionaryID := fun _ _ => 0
  IsValidObjectModel := fun _ _ => true
  IsValidVehicleModel := fun _ _ => true
  MakePedModel := fun g id _ => { g with valid := id :: g.valid }
  MakeObjectModel := fun g id _ => { g with valid := id :: g.valid }
  MakeClumpModel := fun g id _ => { g with valid := id :: g.valid }
  MakeTimedObjectModel := fun g id _ => { g with valid := id :: g.valid }
  MakeVehicleAutomobile := fun g id _ => { g with valid := id :: g.valid }
  DeallocateModel := fun g id =>
    { valid := g.valid.filter (fun x => decide (x ≠ id)), deallocated := id :: g.deallocated }
  SetTextureDictionaryID := fun g _ _ => g
  UnloadModelsAndCallEvents := fun g _ _ _ => g
  RestoreCOL := fun g _ => g
  RestoreDFF := fun g _ => g
  AllocateTextureDictonarySlot := fun g slot _ => (slot, g)
  RemoveTextureDictonarySlot := fun g _ => g
  SetStreamingInfo := fun g _ => g
  MAX_MODEL_DFF_ID := 20000

/-- A game state in which the ped model 7 of the game is valid. -/
def stockGame : SampleGame := { valid := [7], deallocated := [] }

/-- A fresh client model of type ped for the model ID 7, not allocated by us. -/
def pedModel : CClientModel :=
  { m_iModelID := 7, m_eModelType := .PED, m_bAllocatedByUs := false,
    m_pParentResource := none }

end ClientModel

namespace DebugHook

/-! ## Reachable registries -/

/-- The registries the program can be in: the one the constructor builds, and
every registry obtained from a reachable one by a call of `AddDebugHook`,
`RemoveDebugHook` or `OnLuaMainDestroy`.  The VM resolver is an argument of
each step, since the set of live VM instances changes between calls. -/
inductive Reachable : CDebugHookManager → Prop where
  | init (MTA_CLIENT : Bool) : Reachable (CDebugHookManager.CDebugHookManager MTA_CLIENT)
  | add (GetVirtualMachine : lua_State → Option CLuaMain) (s : CDebugHookManager)
      (hookType : EDebugHookType) (functionRef : CLuaFunctionRef)
      (allowedNameList : List SString) :
      Reachable s →
      Reachable (AddDebugHook GetVirtualMachine s hookType functionRef allowedNameList).2
  | remove (GetVirtualMachine : lua_State → Option CLuaMain) (s : CDebugHookManager)
      (hookType : EDebugHookType) (functionRef : CLuaFunctionRef) :
      Reachable s →
      Reachable (RemoveDebugHook GetVirtualMachine s hookType functionRef).2
  | destroy (s : CDebugHookManager) (pLuaMain : Option CLuaMain) :
      Reachable s → Reachable (OnLuaMainDestroy s pLuaMain)

/-! ## Sample inputs -/

/-- A resolver with two live VM instances: `lua_State` 7 belongs to `CLuaMain` 1
and `lua_State` 8 to `CLuaMain` 2. -/
def sampleVMs : lua_State → Option CLuaMain :=
  fun L => if L = 7 then some 1 else if L = 8 then some 2 else none

/-- A resolver with no live VM instance. -/
def noVMs : lua_State → Option CLuaMain := fun _ => none

/-- A callback of the VM with `lua_State` 7. -/
def refA : CLuaFunctionRef := { m_luaVM := 7, m_iFunction := 1 }

/-- A second callback of the VM with `lua_State` 7. -/
def refB : CLuaFunctionRef := { m_luaVM := 7, m_iFunction := 2 }

/-- A callback of the VM with `lua_State` 8. -/
def refC : CLuaFunctionRef := { m_luaVM := 8, m_iFunction := 1 }

/-- The server registry after `refA` has been added as a pre-function hook with
an empty list of allowed names, while its VM was live. -/
def oneHook : CDebugHookManager :=
  (AddDebugHook sampleVMs (CDebugHookManager.CDebugHookManager false)
    .PRE_FUNCTION refA []).2

/-- The registry `oneHook` after `refC`, a callback of the second VM, has been
added as a pre-function hook restricted to the name `onChat`. -/
def twoHooks : CDebugHookManager :=
  (AddDebugHook sampleVMs oneHook .PRE_FUNCTION refC ["onChat"]).2

/-- An entry with an empty set of allowed names. -/
def entryAll : SDebugHookCallInfo :=
  { functionRef := refA, pLuaMain := some 1, allowedNameMap := ∅ }

/-- An entry restricted to the names `onChat` and `addDebugHook`. -/
def entryNamed : SDebugHookCallInfo :=
  { functionRef := refB, pLuaMain := some 1,
    allowedNameMap := {"onChat", "addDebugHook"} }

/-- The registry of a server right after construction. -/
def serverManager : CDebugHookManager := CDebugHookManager.CDebugHookManager false

/-- A host with two live VM instances, `CLuaMain` 1 with `lua_State` 7 and
`CLuaMain` 2 with `lua_State` 8.  The callback `refB` sets the global `source`
of its VM and returns `skip`; every other callback returns nothing.  The running
script is `main.lua` of resource 100, at line 12. -/
def sampleHost : Host where
  Call := fun w _ functionRef _ =>
    if functionRef = refB then (w.lua_setglobal 7 "source" (.number 5), [.string "skip"])
    else (w, [])
  GetVirtualMachine := fun m => if m = 1 then some 7 else if m = 2 then some 8 else none
  GetVM := fun m => if m = 1 then some 7 else if m = 2 then some 8 else none
  GetResource := fun m => if m = 1 then some 100 else if m = 2 then some 200 else none
  GetTopLuaMain := some 1
  GetFunction := fun f =>
    if f = 0 then some "setElementPosition"
    else if f = 1 then some "addDebugHook"
    else if f = 2 then some "logIn"
    else none
  lua_getstack := fun L =>
    if L = 7 then
      some { source := "@scripts/main.lua", short_src := "scripts/main.lua",
             currentline := 12, linedefined := 3 }
    else none
  lua_getinfo := fun L _ =>
    if L = 8 then
      some { source := "@handlers/chat.lua", short_src := "handlers/chat.lua",
             currentline := -1, linedefined := 40 }
    else none
  ReadArguments := fun _ => [.element (some 4), .string "acc", .string "pw"]
  deadFrameText := "bytes of a dead frame"

/-- A second host: like `sampleHost`, but no script is running and the stack
holds no argument. -/
def idleHost : Host :=
  { sampleHost with GetTopLuaMain := none, lua_getstack := fun _ => none,
                    ReadArguments := fun _ => [] }

/-- The program state outside a dispatch with the given hook manager and every
global nil. -/
def worldOf (manager : CDebugHookManager) : World :=
  { manager := manager, bRecurse := false, globals := fun _ _ => .nil }

/-- The server registry after `refA`, `refB` and `refC` have been added, in this
order, as pre-function hooks with an empty list of allowed names. -/
def threeHooks : CDebugHookManager :=
  (AddDebugHook sampleVMs
    (AddDebugHook sampleVMs oneHook .PRE_FUNCTION refB []).2 .PRE_FUNCTION refC []).2

/-- The server registry after `refA` has been added as a pre-event hook with an
empty list of allowed names. -/
def oneEventHook : CDebugHookManager :=
  (AddDebugHook sampleVMs serverManager .PRE_EVENT refA []).2

/-- A host like `sampleHost` in which the handler functions of `lua_State` 8
were defined in a string: the source is the text of the chunk and does not start
with `@`. -/
def stringHost : Host :=
  { sampleHost with
    lua_getinfo := fun L _ =>
      if L = 8 then
        some { source := "function handler() end", short_src := "[string handler]",
               currentline := -1, linedefined := 1 }
      else none }

/-- A scripted event handler of the second VM instance. -/
def sampleMapEvent : CMapEvent := { m_pMain := some 2, m_iLuaFunction := refC }

/-- The server registry with two pre-function hooks: `refA` with an empty list
of allowed names, then `refB` restricted to the name `addDebugHook`. -/
def adminHooks : CDebugHookManager :=
  (AddDebugHook sampleVMs oneHook .PRE_FUNCTION refB ["addDebugHook"]).2

/-- The server registry after `refA` has been added as a pre-event-function hook
with an empty list of allowed names. -/
def oneHandlerHook : CDebugHookManager :=
  (AddDebugHook sampleVMs serverManager .PRE_EVENT_FUNCTION refA []).2

/-- The server registry after `refA` has been added as a post-function hook with
an empty list of allowed names. -/
def postHook : CDebugHookManager :=
  (AddDebugHook sampleVMs serverManager .POST_FUNCTION refA []).2

/-- A host whose callbacks change globals of their own VM only: a callback of
`CLuaMain` 1 sets `source` and `counter` in `lua_State` 7 and returns `skip`, a
callback of `CLuaMain` 2 sets `client` in `lua_State` 8 and returns nothing. -/
def ownHost : Host :=
  { sampleHost with
    Call := fun w pLuaMain _ _ =>
      if pLuaMain = some 1 then
        ((w.lua_setglobal 7 "source" (.number 5)).lua_setglobal 7 "counter" (.number 1),
          [.string "skip"])
      else if pLuaMain = some 2 then (w.lua_setglobal 8 "client" (.number 6), [])
      else (w, []) }

/-- A host with a callback that reaches into another VM: `refC`, which runs in
`lua_State` 8, sets the global `source` of `lua_State` 7; `refB`, which runs in
`lua_State` 7, copies the `source` it sees into the global `seen`. -/
def crossHost : Host :=
  { sampleHost with
    Call := fun w _ functionRef _ =>
      if functionRef = refC then (w.lua_setglobal 7 "source" (.number 5), [])
      else if functionRef = refB then (w.lua_setglobal 7 "seen" (w.globals 7 "source"), [])
      else (w, []) }

/-- The server registry after `refA`, `refC` and `refB` have been added, in this
order, as pre-function hooks with an empty list of allowed names. -/
def crossHooks : CDebugHookManager :=
  (AddDebugHook sampleVMs
    (AddDebugHook sampleVMs oneHook .PRE_FUNCTION refC []).2 .PRE_FUNCTION refB []).2

/-- A host in which the VM of `CLuaMain` 1 is gone and the VM of `CLuaMain` 2 is
live. -/
def deadHost : Host :=
  { sampleHost with GetVirtualMachine := fun m => if m = 2 then some 8 else none }

/-- The host that a call made from inside a callback goes through: like
`sampleHost`, with the native function 3 registered as `removeDebugHook`. -/
def nestedHost : Host :=
  { sampleHost with
    GetFunction := fun f => if f = 3 then some "removeDebugHook" else sampleHost.GetFunction f }

/-- A host in which the callback `refA` calls the script function
`removeDebugHook` for itself: the call goes through `OnPreFunction`, which
returns true because a dispatch is in progress, and then `RemoveDebugHook` takes
the pre-function hook `refA` out of its list.  The other callbacks do nothing. -/
def removingHost : Host :=
  { nestedHost with
    Call := fun w _ functionRef _ =>
      if functionRef = refA then
        match OnPreFunction nestedHost 0 w 3 (some 7) true with
        | some d =>
          if d.result then
            ({ d.world with
                manager := (RemoveDebugHook sampleVMs d.world.manager .PRE_FUNCTION refA).2 },
              [])
          else (d.world, [])
        | none => (w, [])
      else (w, []) }

/-- The server registry after `refA` and `refB` have been added as pre-function
hooks with an empty list of allowed names, and then `refC` as a pre-function
hook for the names `setElementPosition` and `removeDebugHook`. -/
def guardedHooks : CDebugHookManager :=
  (AddDebugHook sampleVMs
    (AddDebugHook sampleVMs oneHook .PRE_FUNCTION refB []).2 .PRE_FUNCTION refC
    ["setElementPosition", "removeDebugHook"]).2

/-! ## Lemmas on the registry loops -/

theorem read_write_same (s : CDebugHookManager) (r : HookInfoList)
    (l : List SDebugHookCallInfo) : (s.write r l).read r = l := by
  cases r <;> rfl

theorem read_write_other (s : CDebugHookManager) (r r0 : HookInfoList)
    (l : List SDebugHookCallInfo) (h : r ≠ r0) : (s.write r0 l).read r = s.read r := by
  cases r <;> cases r0 <;> first | rfl | exact absurd rfl h

theorem findRef_eq_true_iff (f : CLuaFunctionRef) (l : List SDebugHookCallInfo) :
    AddDebugHook.findRef f l = true ↔ ∃ e ∈ l, e.functionRef = f := by
  induction l with
  | nil => simp [AddDebugHook.findRef]
  | cons a l ih =>
    by_cases ha : a.functionRef = f
    · simp [AddDebugHook.findRef, ha]
    · simp [AddDebugHook.findRef, ha, ih]

theorem findRef_eq_false_iff (f : CLuaFunctionRef) (l : List SDebugHookCallInfo) :
    AddDebugHook.findRef f l = false ↔ ∀ e ∈ l, e.functionRef ≠ f := by
  rw [← Bool.not_eq_true, findRef_eq_true_iff]
  push_neg
  rfl

theorem insertNames_eq (acc : Finset SString) (names : List SString) :
    AddDebugHook.insertNames acc names = acc ∪ names.toFinset := by
  induction names generalizing acc with
  | nil => simp [AddDebugHook.insertNames]
  | cons n names ih =>
    rw [AddDebugHook.insertNames, ih]
    ext x
    simp only [MapInsert, Finset.mem_union, Finset.mem_insert, List.toFinset_cons]
    tauto

theorem eraseFirst_eq_none_iff (p : Option CLuaMain) (f : CLuaFunctionRef)
    (l : List SDebugHookCallInfo) :
    RemoveDebugHook.eraseFirst p f l = none ↔
      ∀ e ∈ l, ¬ (e.pLuaMain = p ∧ e.functionRef = f) := by
  induction l with
  | nil => simp [RemoveDebugHook.eraseFirst]
  | cons a l ih =>
    by_cases ha : a.pLuaMain = p ∧ a.functionRef = f
    · simp [RemoveDebugHook.eraseFirst, ha]
    · simp only [RemoveDebugHook.eraseFirst, ha, if_false, Option.map_eq_none', ih,
        List.forall_mem_cons, true_and, not_false_eq_true]

theorem eraseFirst_eq_some (p : Option CLuaMain) (f : CLuaFunctionRef)
    (l l2 : List SDebugHookCallInfo) (h : RemoveDebugHook.eraseFirst p f l = some l2) :
    ∃ front e back, l = front ++ e :: back ∧ l2 = front ++ back ∧
      e.pLuaMain = p ∧ e.functionRef = f ∧
      ∀ x ∈ front, ¬ (x.pLuaMain = p ∧ x.functionRef = f) := by
  induction l generalizing l2 with
  | nil => simp [RemoveDebugHook.eraseFirst] at h
  | cons a l ih =>
    by_cases ha : a.pLuaMain = p ∧ a.functionRef = f
    · simp only [RemoveDebugHook.eraseFirst, ha, and_self, if_true, Option.some.injEq] at h
      exact ⟨[], a, l, by simp, by simp [h], ha.1, ha.2, by simp⟩
    · simp only [RemoveDebugHook.eraseFirst, ha, if_false, Option.map_eq_some'] at h
      obtain ⟨l3, h3, rfl⟩ := h
      obtain ⟨front, e, back, h1, h2, h4, h5, h6⟩ := ih l3 h3
      refine ⟨a :: front, e, back, by simp [h1], by simp [h2], h4, h5, ?_⟩
      intro x hx
      rcases List.mem_cons.1 hx with rfl | hx
      · exact ha
      · exact h6 x hx

theorem sweep_eq (p : Option CLuaMain) (n : Nat) :
    ∀ (l : List SDebugHookCallInfo) (i : Nat), l.length - i = n →
      OnLuaMainDestroy.sweep p l i
        = l.take i ++ (l.drop i).filter (fun e => decide (e.pLuaMain ≠ p)) := by
  induction n using Nat.strong_induction_on with
  | _ n ih =>
    intro l i hn
    rw [OnLuaMainDestroy.sweep]
    by_cases h : i < l.length
    · have hdrop : l.drop i = l[i] :: l.drop (i + 1) := List.drop_eq_getElem_cons h
      by_cases hp : l[i].pLuaMain = p
      · have hlen : (ListRemoveIndex l i).length - i < n := by
          simp only [ListRemoveIndex, List.length_eraseIdx, h, if_true]
          omega
        have hE : ListRemoveIndex l i = l.take i ++ l.drop (i + 1) := by
          simp [ListRemoveIndex, List.eraseIdx_eq_take_drop_succ]
        have hti : (l.take i).length = i := by
          simp [List.length_take]; omega
        rw [dif_pos h, if_pos hp, ih _ hlen _ i rfl, hE, hdrop]
        rw [List.take_left' hti, List.drop_left' hti, List.filter_cons]
        simp only [hp, ne_eq, not_true_eq_false, decide_False, Bool.false_eq_true, if_false]
      · have hlen : l.length - (i + 1) < n := by omega
        rw [dif_pos h, if_neg hp, ih _ hlen l (i + 1) rfl, hdrop]
        rw [List.take_succ, List.getElem?_eq_getElem h, List.filter_cons]
        simp only [hp, ne_eq, not_false_eq_true, decide_True, if_true, Option.toList_some,
          List.append_assoc, List.singleton_append]
    · have hle : l.length ≤ i := Nat.le_of_not_lt h
      rw [dif_neg h, List.take_of_length_le hle, List.drop_of_length_le hle]
      simp

theorem sweep_zero (p : Option CLuaMain) (l : List SDebugHookCallInfo) :
    OnLuaMainDestroy.sweep p l 0 = l.filter (fun e => decide (e.pLuaMain ≠ p)) := by
  simpa using sweep_eq p _ l 0 rfl

theorem OnLuaMainDestroy_read (s : CDebugHookManager) (p : Option CLuaMain)
    (r : HookInfoList) :
    (OnLuaMainDestroy s p).read r
      = (s.read r).filter (fun e => decide (e.pLuaMain ≠ p)) := by
  have hr : List.range' 0 6 = [0, 1, 2, 3, 4, 5] := rfl
  simp only [OnLuaMainDestroy, EDebugHookType.toUInt, Nat.sub_zero, hr, List.foldl_cons,
    List.foldl_nil, OnLuaMainDestroy.body, EDebugHookType.ofUInt, GetHookInfoListForType,
    sweep_zero]
  cases r <;> rfl

theorem GetHookInfoListForType_injOn (a b : EDebugHookType)
    (ha : a ≠ .MAX_DEBUG_HOOK_TYPE) (hb : b ≠ .MAX_DEBUG_HOOK_TYPE)
    (h : GetHookInfoListForType a = GetHookInfoListForType b) : a = b := by
  cases a <;> cases b <;> first | rfl | exact absurd rfl ha | exact absurd rfl hb | cases h

theorem AddDebugHook_read_other (vm : lua_State → Option CLuaMain)
    (s : CDebugHookManager) (t : EDebugHookType) (f : CLuaFunctionRef)
    (names : List SString) (r : HookInfoList) (hr : r ≠ GetHookInfoListForType t) :
    (AddDebugHook vm s t f names).2.read r = s.read r := by
  unfold AddDebugHook
  simp only
  split
  · rfl
  · split
    · rfl
    · exact read_write_other s r _ _ hr

theorem RemoveDebugHook_read_other (vm : lua_State → Option CLuaMain)
    (s : CDebugHookManager) (t : EDebugHookType) (f : CLuaFunctionRef)
    (r : HookInfoList) (hr : r ≠ GetHookInfoListForType t) :
    (RemoveDebugHook vm s t f).2.read r = s.read r := by
  unfold RemoveDebugHook
  simp only
  split
  · exact read_write_other s r _ _ hr
  · rfl

theorem eraseFirst_sublist (p : Option CLuaMain) (f : CLuaFunctionRef)
    (l l2 : List SDebugHookCallInfo) (h : RemoveDebugHook.eraseFirst p f l = some l2) :
    l2.Sublist l := by
  obtain ⟨front, e, back, h1, h2, -⟩ := eraseFirst_eq_some p f l l2 h
  rw [h1, h2]
  exact List.Sublist.append_left (List.sublist_cons_self e back) front

theorem reachable_nodup (s : CDebugHookManager) (h : Reachable s) (r : HookInfoList) :
    ((s.read r).map SDebugHookCallInfo.functionRef).Nodup := by
  induction h generalizing r with
  | init c => cases r <;> simp [CDebugHookManager.read, CDebugHookManager.CDebugHookManager]
  | add vm s t f names _ ih =>
    by_cases hr : r = GetHookInfoListForType t
    · subst hr
      unfold AddDebugHook
      simp only
      split
      · exact ih _
      · split
        · exact ih _
        · rename_i hf _
          have hnew := (findRef_eq_false_iff f _).1 (by simpa using hf)
          rw [read_write_same, List.map_append, List.nodup_append]
          refine ⟨ih _, by simp, ?_⟩
          intro a ha hb
          simp only [List.map_cons, List.map_nil, List.mem_singleton] at hb
          obtain ⟨e, he, rfl⟩ := List.mem_map.1 ha
          exact hnew e he hb
    · rw [AddDebugHook_read_other vm s t f names r hr]
      exact ih r
  | remove vm s t f _ ih =>
    by_cases hr : r = GetHookInfoListForType t
    · subst hr
      unfold RemoveDebugHook
      simp only
      split
      · rename_i erased he
        rw [read_write_same]
        exact (ih _).sublist ((eraseFirst_sublist _ _ _ _ he).map _)
      · exact ih _
    · rw [RemoveDebugHook_read_other vm s t f r hr]
      exact ih r
  | destroy s p _ ih =>
    rw [OnLuaMainDestroy_read]
    exact (ih r).sublist ((List.filter_sublist _).map _)

/-! ## Registration -/

/-- C1: when the list of the category already holds an entry with the callback,
`AddDebugHook` returns false and each of the six hook lists is the list it was
(the whole manager is unchanged). -/
theorem AddDebugHook_duplicate (GetVirtualMachine : lua_State → Option CLuaMain)
    (s : CDebugHookManager) (hookType : EDebugHookType) (functionRef : CLuaFunctionRef)
    (allowedNameList : List SString)
    (h : ∃ e ∈ s.read (GetHookInfoListForType hookType), e.functionRef = functionRef) :
    (AddDebugHook GetVirtualMachine s hookType functionRef allowedNameList).1 = false ∧
    (∀ r, (AddDebugHook GetVirtualMachine s hookType functionRef allowedNameList).2.read r
        = s.read r) ∧
    (AddDebugHook GetVirtualMachine s hookType functionRef allowedNameList).2 = s := by
  have hf := (findRef_eq_true_iff functionRef _).2 h
  simp [AddDebugHook, hf]

theorem AddDebugHook_duplicate_witness :
    (∃ e ∈ oneHook.read (GetHookInfoListForType .PRE_FUNCTION), e.functionRef = refA) ∧
    ((AddDebugHook sampleVMs oneHook .PRE_FUNCTION refA ["onChat"]).1 = false ∧
     (∀ r, (AddDebugHook sampleVMs oneHook .PRE_FUNCTION refA ["onChat"]).2.read r
        = oneHook.read r) ∧
     (AddDebugHook sampleVMs oneHook .PRE_FUNCTION refA ["onChat"]).2 = oneHook) :=
  ⟨by decide, AddDebugHook_duplicate sampleVMs oneHook .PRE_FUNCTION refA ["onChat"] (by decide)⟩

/-- C2: when the list of the category holds no entry with the callback and the
callback resolves to a live VM instance, `AddDebugHook` returns true and the list
of the category becomes the old list followed by one new entry, made of the
callback, the resolved VM and the set of the given names; every old position
holds the entry it held. -/
theorem AddDebugHook_success (GetVirtualMachine : lua_State → Option CLuaMain)
    (s : CDebugHookManager) (hookType : EDebugHookType) (functionRef : CLuaFunctionRef)
    (allowedNameList : List SString) (pLuaMain : CLuaMain)
    (hnew : ∀ e ∈ s.read (GetHookInfoListForType hookType), e.functionRef ≠ functionRef)
    (hvm : GetVirtualMachine functionRef.GetLuaVM = some pLuaMain) :
    (AddDebugHook GetVirtualMachine s hookType functionRef allowedNameList).1 = true ∧
    (AddDebugHook GetVirtualMachine s hookType functionRef allowedNameList).2.read
        (GetHookInfoListForType hookType)
      = s.read (GetHookInfoListForType hookType) ++
          [{ functionRef := functionRef, pLuaMain := some pLuaMain,
             allowedNameMap := allowedNameList.toFinset }] ∧
    (∀ i, i < (s.read (GetHookInfoListForType hookType)).length →
      ((AddDebugHook GetVirtualMachine s hookType functionRef allowedNameList).2.read
        (GetHookInfoListForType hookType))[i]?
        = (s.read (GetHookInfoListForType hookType))[i]?) := by
  have hf := (findRef_eq_false_iff functionRef _).2 hnew
  have hlist : (AddDebugHook GetVirtualMachine s hookType functionRef allowedNameList).2.read
        (GetHookInfoListForType hookType)
      = s.read (GetHookInfoListForType hookType) ++
          [{ functionRef := functionRef, pLuaMain := some pLuaMain,
             allowedNameMap := allowedNameList.toFinset }] := by
    simp [AddDebugHook, hf, hvm, read_write_same, insertNames_eq]
  refine ⟨by simp [AddDebugHook, hf, hvm], hlist, ?_⟩
  intro i hi
  rw [hlist, List.getElem?_append_left hi]

theorem AddDebugHook_success_witness :
    (AddDebugHook sampleVMs oneHook .PRE_FUNCTION refC ["onChat", "onChat"]).1 = true ∧
    (AddDebugHook sampleVMs oneHook .PRE_FUNCTION refC ["onChat", "onChat"]).2.read
        (GetHookInfoListForType .PRE_FUNCTION)
      = oneHook.read (GetHookInfoListForType .PRE_FUNCTION) ++
          [{ functionRef := refC, pLuaMain := some 2,
             allowedNameMap := ["onChat", "onChat"].toFinset }] :=
  have h := AddDebugHook_success sampleVMs oneHook .PRE_FUNCTION refC ["onChat", "onChat"] 2
    (by decide) (by decide)
  ⟨h.1, h.2.1⟩

/-- C3: when the VM of the callback does not resolve to a live VM instance,
`AddDebugHook` returns false and each of the six hook lists is the list it was
(the whole manager is unchanged). -/
theorem AddDebugHook_unresolved (GetVirtualMachine : lua_State → Option CLuaMain)
    (s : CDebugHookManager) (hookType : EDebugHookType) (functionRef : CLuaFunctionRef)
    (allowedNameList : List SString)
    (hvm : GetVirtualMachine functionRef.GetLuaVM = none) :
    (AddDebugHook GetVirtualMachine s hookType functionRef allowedNameList).1 = false ∧
    (∀ r, (AddDebugHook GetVirtualMachine s hookType functionRef allowedNameList).2.read r
        = s.read r) ∧
    (AddDebugHook GetVirtualMachine s hookType functionRef allowedNameList).2 = s := by
  by_cases hf : AddDebugHook.findRef functionRef (s.read (GetHookInfoListForType hookType)) = true
  · simp [AddDebugHook, hf]
  · simp [AddDebugHook, hf, hvm]

theorem AddDebugHook_unresolved_witness :
    noVMs refA.GetLuaVM = none ∧
    ((AddDebugHook noVMs twoHooks .POST_EVENT refA []).1 = false ∧
     (∀ r, (AddDebugHook noVMs twoHooks .POST_EVENT refA []).2.read r = twoHooks.read r) ∧
     (AddDebugHook noVMs twoHooks .POST_EVENT refA []).2 = twoHooks) :=
  ⟨rfl, AddDebugHook_unresolved noVMs twoHooks .POST_EVENT refA [] rfl⟩

/-- C4: in every registry reachable from the constructed one by calls of
`AddDebugHook`, `RemoveDebugHook` and `OnLuaMainDestroy`, each of the six lists
holds at most one entry per callback. -/
theorem Reachable_unique_callback (s : CDebugHookManager) (h : Reachable s)
    (r : HookInfoList) (functionRef : CLuaFunctionRef) :
    ((s.read r).filter (fun e => decide (e.functionRef = functionRef))).length ≤ 1 := by
  have hn := List.nodup_iff_count_le_one.1 (reachable_nodup s h r) functionRef
  have hc : List.count functionRef ((s.read r).map SDebugHookCallInfo.functionRef)
      = ((s.read r).filter (fun e => decide (e.functionRef = functionRef))).length := by
    rw [List.count, List.countP_map, List.countP_eq_length_filter]
    congr 2
  omega

theorem Reachable_unique_callback_witness :
    Reachable twoHooks ∧
    ((twoHooks.read .m_PreFunctionHookList).filter
      (fun e => decide (e.functionRef = refA))).length ≤ 1 :=
  have h : Reachable twoHooks :=
    Reachable.add _ _ _ _ _ (Reachable.add _ _ _ _ _ (Reachable.init false))
  ⟨h, Reachable_unique_callback twoHooks h .m_PreFunctionHookList refA⟩

/-- C5: when the list of the category holds no entry with the callback,
`RemoveDebugHook` returns false and each of the six hook lists is the list it
was (the whole manager is unchanged). -/
theorem RemoveDebugHook_absent (GetVirtualMachine : lua_State → Option CLuaMain)
    (s : CDebugHookManager) (hookType : EDebugHookType) (functionRef : CLuaFunctionRef)
    (h : ∀ e ∈ s.read (GetHookInfoListForType hookType), e.functionRef ≠ functionRef) :
    (RemoveDebugHook GetVirtualMachine s hookType functionRef).1 = false ∧
    (∀ r, (RemoveDebugHook GetVirtualMachine s hookType functionRef).2.read r = s.read r) ∧
    (RemoveDebugHook GetVirtualMachine s hookType functionRef).2 = s := by
  have hnone : RemoveDebugHook.eraseFirst (GetVirtualMachine functionRef.GetLuaVM)
      functionRef (s.read (GetHookInfoListForType hookType)) = none :=
    (eraseFirst_eq_none_iff _ _ _).2 (fun e he hc => h e he hc.2)
  simp [RemoveDebugHook, hnone]

theorem RemoveDebugHook_absent_witness :
    (∀ e ∈ oneHook.read (GetHookInfoListForType .PRE_FUNCTION), e.functionRef ≠ refB) ∧
    ((RemoveDebugHook sampleVMs oneHook .PRE_FUNCTION refB).1 = false ∧
     (∀ r, (RemoveDebugHook sampleVMs oneHook .PRE_FUNCTION refB).2.read r = oneHook.read r) ∧
     (RemoveDebugHook sampleVMs oneHook .PRE_FUNCTION refB).2 = oneHook) :=
  ⟨by decide, RemoveDebugHook_absent sampleVMs oneHook .PRE_FUNCTION refB (by decide)⟩

/-- C6, the claim as written fails: `oneHook` holds an entry with the callback
`refA`, registered while its VM was live; once the VM of `refA` no longer
resolves, `RemoveDebugHook` compares the owner of the entry with a null pointer,
finds no match, returns false and removes nothing. -/
theorem RemoveDebugHook_owner_counterexample :
    (AddDebugHook sampleVMs (CDebugHookManager.CDebugHookManager false)
      .PRE_FUNCTION refA []) = (true, oneHook) ∧
    (∃ e ∈ oneHook.read (GetHookInfoListForType .PRE_FUNCTION), e.functionRef = refA) ∧
    RemoveDebugHook noVMs oneHook .PRE_FUNCTION refA = (false, oneHook) ∧
    ¬ ((RemoveDebugHook noVMs oneHook .PRE_FUNCTION refA).1 = true ↔
        ∃ e ∈ oneHook.read (GetHookInfoListForType .PRE_FUNCTION), e.functionRef = refA) := by
  decide

/-- C6, as the code has it: `RemoveDebugHook` returns true exactly when the list
of the category holds an entry with the callback whose owning VM is the VM
instance the callback resolves to at the time of the call; then the list
afterwards is the old list with the first such entry deleted, the entries before
and after it keeping their order; when it returns false the manager is
unchanged. -/
theorem RemoveDebugHook_spec (GetVirtualMachine : lua_State → Option CLuaMain)
    (s : CDebugHookManager) (hookType : EDebugHookType) (functionRef : CLuaFunctionRef) :
    ((RemoveDebugHook GetVirtualMachine s hookType functionRef).1 = true ↔
      ∃ e ∈ s.read (GetHookInfoListForType hookType),
        e.functionRef = functionRef ∧
        e.pLuaMain = GetVirtualMachine functionRef.GetLuaVM) ∧
    ((RemoveDebugHook GetVirtualMachine s hookType functionRef).1 = true →
      ∃ front e back,
        s.read (GetHookInfoListForType hookType) = front ++ e :: back ∧
        (RemoveDebugHook GetVirtualMachine s hookType functionRef).2.read
          (GetHookInfoListForType hookType) = front ++ back ∧
        e.functionRef = functionRef ∧
        e.pLuaMain = GetVirtualMachine functionRef.GetLuaVM ∧
        ∀ x ∈ front, ¬ (x.functionRef = functionRef ∧
          x.pLuaMain = GetVirtualMachine functionRef.GetLuaVM)) ∧
    ((RemoveDebugHook GetVirtualMachine s hookType functionRef).1 = false →
      (RemoveDebugHook GetVirtualMachine s hookType functionRef).2 = s) := by
  cases he : RemoveDebugHook.eraseFirst (GetVirtualMachine functionRef.GetLuaVM)
      functionRef (s.read (GetHookInfoListForType hookType)) with
  | none =>
    have hno := (eraseFirst_eq_none_iff _ _ _).1 he
    have h1 : (RemoveDebugHook GetVirtualMachine s hookType functionRef) = (false, s) := by
      simp [RemoveDebugHook, he]
    rw [h1]
    refine ⟨?_, by simp, fun _ => rfl⟩
    constructor
    · intro h
      cases h
    · rintro ⟨e, hmem, hf, hp⟩
      exact absurd ⟨hp, hf⟩ (hno e hmem)
  | some erased =>
    obtain ⟨front, e, back, h1, h2, h3, h4, h5⟩ := eraseFirst_eq_some _ _ _ _ he
    have h6 : (RemoveDebugHook GetVirtualMachine s hookType functionRef)
        = (true, s.write (GetHookInfoListForType hookType) erased) := by
      simp [RemoveDebugHook, he]
    rw [h6]
    refine ⟨?_, ?_, by simp⟩
    · constructor
      · intro _
        exact ⟨e, by simp [h1], h4, h3⟩
      · intro _
        rfl
    · intro _
      exact ⟨front, e, back, h1, by rw [read_write_same, h2], h4, h3,
        fun x hx hc => h5 x hx ⟨hc.2, hc.1⟩⟩

theorem RemoveDebugHook_spec_witness :
    (RemoveDebugHook sampleVMs twoHooks .PRE_FUNCTION refA).1 = true ∧
    ∃ front e back,
      twoHooks.read (GetHookInfoListForType .PRE_FUNCTION) = front ++ e :: back ∧
      (RemoveDebugHook sampleVMs twoHooks .PRE_FUNCTION refA).2.read
        (GetHookInfoListForType .PRE_FUNCTION) = front ++ back ∧
      e.functionRef = refA ∧
      e.pLuaMain = sampleVMs refA.GetLuaVM ∧
      ∀ x ∈ front, ¬ (x.functionRef = refA ∧ x.pLuaMain = sampleVMs refA.GetLuaVM) :=
  ⟨by decide, (RemoveDebugHook_spec sampleVMs twoHooks .PRE_FUNCTION refA).2.1 (by decide)⟩

/-- C7: after `OnLuaMainDestroy` of a VM, each of the six lists is the old list
filtered to the entries owned by another VM: no entry of the VM remains, every
entry of another VM is still there, and the order of the old list is kept. -/
theorem OnLuaMainDestroy_filter (s : CDebugHookManager) (pLuaMain : Option CLuaMain)
    (r : HookInfoList) :
    (OnLuaMainDestroy s pLuaMain).read r
      = (s.read r).filter (fun e => decide (e.pLuaMain ≠ pLuaMain)) ∧
    (∀ e ∈ (OnLuaMainDestroy s pLuaMain).read r, e.pLuaMain ≠ pLuaMain) ∧
    (∀ e ∈ s.read r, e.pLuaMain ≠ pLuaMain → e ∈ (OnLuaMainDestroy s pLuaMain).read r) ∧
    ((OnLuaMainDestroy s pLuaMain).read r).Sublist (s.read r) := by
  rw [OnLuaMainDestroy_read]
  refine ⟨rfl, ?_, ?_, List.filter_sublist _⟩
  · intro e he
    simpa using (List.mem_filter.1 he).2
  · intro e he hp
    exact List.mem_filter.2 ⟨he, by simpa using hp⟩

theorem OnLuaMainDestroy_filter_witness :
    (OnLuaMainDestroy twoHooks (some 1)).read .m_PreFunctionHookList
      = [{ functionRef := refC, pLuaMain := some 2, allowedNameMap := {"onChat"} }] :=
  (OnLuaMainDestroy_filter twoHooks (some 1) .m_PreFunctionHookList).1.trans (by decide)

/-- C8: `AddDebugHook` and `RemoveDebugHook` on one of the six categories leave
the lists of the other five categories as they were, and
`GetHookInfoListForType` sends two different categories to two different
lists. -/
theorem categories_independent (GetVirtualMachine : lua_State → Option CLuaMain)
    (s : CDebugHookManager) (functionRef : CLuaFunctionRef)
    (allowedNameList : List SString) (hookType other : EDebugHookType)
    (h1 : hookType ≠ .MAX_DEBUG_HOOK_TYPE) (h2 : other ≠ .MAX_DEBUG_HOOK_TYPE)
    (hne : other ≠ hookType) :
    (AddDebugHook GetVirtualMachine s hookType functionRef allowedNameList).2.read
        (GetHookInfoListForType other) = s.read (GetHookInfoListForType other) ∧
    (RemoveDebugHook GetVirtualMachine s hookType functionRef).2.read
        (GetHookInfoListForType other) = s.read (GetHookInfoListForType other) ∧
    GetHookInfoListForType other ≠ GetHookInfoListForType hookType := by
  have hr : GetHookInfoListForType other ≠ GetHookInfoListForType hookType :=
    fun h => hne (GetHookInfoListForType_injOn other hookType h2 h1 h)
  exact ⟨AddDebugHook_read_other _ _ _ _ _ _ hr, RemoveDebugHook_read_other _ _ _ _ _ hr, hr⟩

theorem categories_independent_witness :
    (AddDebugHook sampleVMs oneHook .POST_FUNCTION refA []).2.read
        (GetHookInfoListForType .PRE_FUNCTION)
      = oneHook.read (GetHookInfoListForType .PRE_FUNCTION) ∧
    (RemoveDebugHook sampleVMs oneHook .POST_FUNCTION refA).2.read
        (GetHookInfoListForType .PRE_FUNCTION)
      = oneHook.read (GetHookInfoListForType .PRE_FUNCTION) ∧
    GetHookInfoListForType .PRE_FUNCTION ≠ GetHookInfoListForType .POST_FUNCTION :=
  categories_independent sampleVMs oneHook refA [] .POST_FUNCTION .PRE_FUNCTION
    (by decide) (by decide) (by decide)

/-! ## Name filter -/

/-- C9: `IsNameAllowed` returns true exactly when the list holds an entry whose
set of allowed names contains the name, or whose set of allowed names is empty
while `bNameMustBeExplicitlyAllowed` is false; on the empty list it returns
false. -/
theorem IsNameAllowed_iff (szName : SString) (eventHookList : List SDebugHookCallInfo)
    (bNameMustBeExplicitlyAllowed : Bool) :
    (IsNameAllowed szName eventHookList bNameMustBeExplicitlyAllowed = true ↔
      ∃ info ∈ eventHookList,
        szName ∈ info.allowedNameMap ∨
        (info.allowedNameMap = ∅ ∧ bNameMustBeExplicitlyAllowed = false)) ∧
    IsNameAllowed szName [] bNameMustBeExplicitlyAllowed = false := by
  refine ⟨?_, rfl⟩
  induction eventHookList with
  | nil => simp [IsNameAllowed]
  | cons a l ih =>
    rw [IsNameAllowed]
    by_cases h1 : a.allowedNameMap = ∅ ∧ bNameMustBeExplicitlyAllowed = false
    · simp [h1.1, h1.2]
    · by_cases h2 : szName ∈ a.allowedNameMap
      · simp [MapContains, h2]
      · have h3 : (decide (a.allowedNameMap = ∅) && !bNameMustBeExplicitlyAllowed) = false := by
          cases bNameMustBeExplicitlyAllowed <;> simp_all
        simp only [h3, Bool.false_eq_true, if_false, MapContains, h2, decide_False, ih,
          List.exists_mem_cons_iff, h1, or_self, false_or]

/-- C10: for a list with a single hook whose set of allowed names is empty,
`IsNameAllowed` returns true for every name when `bNameMustBeExplicitlyAllowed`
is false and false for every name when it is true; for a single hook whose set
of allowed names is not empty and `bNameMustBeExplicitlyAllowed` true, it
returns true exactly for the names of the set. -/
theorem IsNameAllowed_single (info : SDebugHookCallInfo) (szName : SString) :
    (info.allowedNameMap = ∅ →
      IsNameAllowed szName [info] false = true ∧
      IsNameAllowed szName [info] true = false) ∧
    (info.allowedNameMap ≠ ∅ →
      (IsNameAllowed szName [info] true = true ↔ szName ∈ info.allowedNameMap)) := by
  constructor
  · intro h
    simp [IsNameAllowed, MapContains, h]
  · intro _
    simp [IsNameAllowed, MapContains]

theorem IsNameAllowed_single_witness :
    (IsNameAllowed "onChat" [entryAll] false = true ∧
     IsNameAllowed "onChat" [entryAll] true = false) ∧
    (IsNameAllowed "onChat" [entryNamed] true = true ↔
      "onChat" ∈ entryNamed.allowedNameMap) :=
  ⟨(IsNameAllowed_single entryAll "onChat").1 (by decide),
   (IsNameAllowed_single entryNamed "onChat").2 (by decide)⟩


/-! ## Explicitly allowed names -/

/-- C11: `MustNameBeExplicitlyAllowed` returns true for the two names
`addDebugHook` and `removeDebugHook` and for no other string; the comparison is
exact, so a name that differs in case or by a trailing blank gets false. -/
theorem MustNameBeExplicitlyAllowed_iff (strName : SString) :
    (MustNameBeExplicitlyAllowed strName = true ↔
      strName = "addDebugHook" ∨ strName = "removeDebugHook") ∧
    MustNameBeExplicitlyAllowed "addDebugHook" = true ∧
    MustNameBeExplicitlyAllowed "removeDebugHook" = true ∧
    MustNameBeExplicitlyAllowed "AddDebugHook" = false ∧
    MustNameBeExplicitlyAllowed "removedebughook" = false ∧
    MustNameBeExplicitlyAllowed "addDebugHook " = false ∧
    MustNameBeExplicitlyAllowed "" = false := by
  refine ⟨?_, by decide, by decide, by decide, by decide, by decide, by decide⟩
  simp [MustNameBeExplicitlyAllowed]

/-! ## Masking -/

theorem maskBody_length (args : CLuaArguments) (i : Nat) :
    (MaybeMaskArgumentValues.body args i).length = args.length := by
  unfold MaybeMaskArgumentValues.body CLuaArguments.index
  split_ifs <;> simp [CLuaArguments.ReadString]

theorem maskBody_get (args : CLuaArguments) (i j : Nat) :
    (MaybeMaskArgumentValues.body args i)[j]?
      = if j = i ∧ i < args.length then some (CLuaArgument.string "***") else args[j]? := by
  unfold MaybeMaskArgumentValues.body CLuaArguments.index
  by_cases hi : i < args.length
  · by_cases hj : j = i
    · subst hj
      simp [hi, CLuaArguments.ReadString]
    · have hji : ¬ i = j := fun h => hj h.symm
      simp [hi, hj, hji, CLuaArguments.ReadString, List.getElem?_set]
  · simp [hi]

theorem maskBody_out_of_range (args : CLuaArguments) (i : Nat) (h : args.length ≤ i) :
    MaybeMaskArgumentValues.body args i = args := by
  unfold MaybeMaskArgumentValues.body CLuaArguments.index
  simp [Nat.not_lt.2 h]

theorem maskFold_length (pos : List Nat) (args : CLuaArguments) :
    (pos.foldl MaybeMaskArgumentValues.body args).length = args.length := by
  induction pos generalizing args with
  | nil => rfl
  | cons i pos ih => rw [List.foldl_cons, ih, maskBody_length]

theorem maskFold_get (pos : List Nat) (args : CLuaArguments) (j : Nat) :
    (pos.foldl MaybeMaskArgumentValues.body args)[j]?
      = if j ∈ pos ∧ j < args.length then some (CLuaArgument.string "***") else args[j]? := by
  induction pos generalizing args with
  | nil => simp
  | cons i pos ih =>
    rw [List.foldl_cons, ih, maskBody_length, maskBody_get]
    by_cases hj : j < args.length
    · by_cases h1 : j ∈ pos
      · simp [h1, hj]
      · by_cases h2 : j = i
        · subst h2
          simp [h1, hj]
        · simp [h1, h2, hj]
    · have hnone : args[j]? = none := List.getElem?_eq_none (Nat.le_of_not_lt hj)
      by_cases h2 : j = i
      · subst h2
        simp [hj, hnone]
      · simp [hj, h2]

theorem maskFold_filter (pos : List Nat) (args : CLuaArguments) :
    pos.foldl MaybeMaskArgumentValues.body args
      = (pos.filter (fun i => decide (i < args.length))).foldl
          MaybeMaskArgumentValues.body args := by
  induction pos generalizing args with
  | nil => rfl
  | cons i pos ih =>
    by_cases hi : i < args.length
    · rw [List.filter_cons_of_pos (by simpa using hi), List.foldl_cons, List.foldl_cons, ih,
        maskBody_length]
    · rw [List.filter_cons_of_neg (by simpa using hi), List.foldl_cons,
        maskBody_out_of_range args i (Nat.le_of_not_lt hi), ih]

theorem mask_length (self : CDebugHookManager) (strFunctionName : SString)
    (FunctionArguments : CLuaArguments) :
    (MaybeMaskArgumentValues self strFunctionName FunctionArguments).length
      = FunctionArguments.length := by
  unfold MaybeMaskArgumentValues
  cases MapFind self.m_MaskArgumentsMap strFunctionName with
  | none => rfl
  | some pos => exact maskFold_length pos _

theorem mask_unlisted (self : CDebugHookManager) (strFunctionName : SString)
    (FunctionArguments : CLuaArguments)
    (h : MapFind self.m_MaskArgumentsMap strFunctionName = none) :
    MaybeMaskArgumentValues self strFunctionName FunctionArguments = FunctionArguments := by
  unfold MaybeMaskArgumentValues
  rw [h]

/-- C13: `MaybeMaskArgumentValues` keeps the length of the argument list; a
position below the argument count holds the string `***` when it is listed for
the name in the masking table and its original value otherwise.  With the table
of the server, `logIn` with three arguments changes index 2 only. -/
theorem MaybeMaskArgumentValues_spec (self : CDebugHookManager) (strFunctionName : SString)
    (FunctionArguments : CLuaArguments) :
    (MaybeMaskArgumentValues self strFunctionName FunctionArguments).length
      = FunctionArguments.length ∧
    (∀ j, j < FunctionArguments.length →
      (MaybeMaskArgumentValues self strFunctionName FunctionArguments)[j]?
        = if j ∈ (MapFind self.m_MaskArgumentsMap strFunctionName).getD []
          then some (CLuaArgument.string "***") else FunctionArguments[j]?) ∧
    (CDebugHookManager.CDebugHookManager false).m_MaskArgumentsMap
      = [("dbConnect", [1, 2, 3]), ("logIn", [2]), ("addAccount", [1]),
         ("getAccount", [1]), ("setAccountPassword", [1])] ∧
    (∀ a b c : CLuaArgument,
      MaybeMaskArgumentValues (CDebugHookManager.CDebugHookManager false) "logIn" [a, b, c]
        = [a, b, CLuaArgument.string "***"]) := by
  refine ⟨mask_length self strFunctionName FunctionArguments, ?_, rfl, fun a b c => rfl⟩
  · intro j hj
    unfold MaybeMaskArgumentValues
    cases MapFind self.m_MaskArgumentsMap strFunctionName with
    | none => simp
    | some pos => simp [maskFold_get, hj]

theorem MaybeMaskArgumentValues_spec_witness :
    (MaybeMaskArgumentValues serverManager "dbConnect"
        [.string "mysql", .string "host", .string "user", .string "pw", .string "opt"])[2]?
      = some (CLuaArgument.string "***") ∧
    (MaybeMaskArgumentValues serverManager "dbConnect"
        [.string "mysql", .string "host", .string "user", .string "pw", .string "opt"])[4]?
      = some (CLuaArgument.string "opt") :=
  have h := (MaybeMaskArgumentValues_spec serverManager "dbConnect"
    [.string "mysql", .string "host", .string "user", .string "pw", .string "opt"]).2.1
  ⟨(h 2 (by decide)).trans (by decide), (h 4 (by decide)).trans (by decide)⟩

/-- C14: for a function name without an entry in the masking table,
`MaybeMaskArgumentValues` leaves the argument list as it is. -/
theorem MaybeMaskArgumentValues_unlisted (self : CDebugHookManager)
    (strFunctionName : SString) (FunctionArguments : CLuaArguments)
    (h : MapFind self.m_MaskArgumentsMap strFunctionName = none) :
    MaybeMaskArgumentValues self strFunctionName FunctionArguments = FunctionArguments :=
  mask_unlisted self strFunctionName FunctionArguments h

theorem MaybeMaskArgumentValues_unlisted_witness :
    MapFind serverManager.m_MaskArgumentsMap "setElementPosition" = none ∧
    MaybeMaskArgumentValues serverManager "setElementPosition"
        [.element (some 4), .number 1, .number 2, .number 3]
      = [.element (some 4), .number 1, .number 2, .number 3] :=
  ⟨by decide, MaybeMaskArgumentValues_unlisted serverManager "setElementPosition" _ (by decide)⟩

/-- C15: a listed position at or beyond the argument count gets the null
pointer from the lookup, is skipped and changes nothing, so masking never reads
or writes outside the list: masking with the listed positions equals masking
with the listed positions below the argument count.  With the table of the
server, `logIn` with 0, 1 or 2 arguments is unchanged and `dbConnect` with 2
arguments changes index 1 only. -/
theorem MaybeMaskArgumentValues_out_of_range (self : CDebugHookManager)
    (strFunctionName : SString) (FunctionArguments : CLuaArguments) :
    (∀ uiIndex, FunctionArguments.length ≤ uiIndex →
      CLuaArguments.index FunctionArguments uiIndex = none ∧
      MaybeMaskArgumentValues.body FunctionArguments uiIndex = FunctionArguments) ∧
    (∀ pArgIndexList, MapFind self.m_MaskArgumentsMap strFunctionName = some pArgIndexList →
      MaybeMaskArgumentValues self strFunctionName FunctionArguments
        = (pArgIndexList.filter (fun i => decide (i < FunctionArguments.length))).foldl
            MaybeMaskArgumentValues.body FunctionArguments) ∧
    (MaybeMaskArgumentValues self strFunctionName FunctionArguments).length
      = FunctionArguments.length ∧
    (∀ a b : CLuaArgument,
      MaybeMaskArgumentValues (CDebugHookManager.CDebugHookManager false) "logIn" [] = [] ∧
      MaybeMaskArgumentValues (CDebugHookManager.CDebugHookManager false) "logIn" [a] = [a] ∧
      MaybeMaskArgumentValues (CDebugHookManager.CDebugHookManager false) "logIn" [a, b]
        = [a, b] ∧
      MaybeMaskArgumentValues (CDebugHookManager.CDebugHookManager false) "dbConnect" [a, b]
        = [a, CLuaArgument.string "***"]) := by
  refine ⟨?_, ?_, mask_length self strFunctionName FunctionArguments,
    fun a b => ⟨rfl, rfl, rfl, rfl⟩⟩
  · intro i hi
    exact ⟨by simp [CLuaArguments.index, Nat.not_lt.2 hi], maskBody_out_of_range _ i hi⟩
  · intro pos hpos
    unfold MaybeMaskArgumentValues
    rw [hpos]
    exact maskFold_filter pos _

theorem MaybeMaskArgumentValues_out_of_range_witness :
    CLuaArguments.index [CLuaArgument.number 1, CLuaArgument.string "acc"] 2 = none ∧
    MaybeMaskArgumentValues.body [CLuaArgument.number 1, CLuaArgument.string "acc"] 2
      = [CLuaArgument.number 1, CLuaArgument.string "acc"] :=
  (MaybeMaskArgumentValues_out_of_range serverManager "logIn"
    [CLuaArgument.number 1, CLuaArgument.string "acc"]).1 2 (by decide)


/-! ## Payloads -/

theorem PushResourceOrNil_eq (args : CLuaArguments) (p : Option Nat) :
    PushResourceOrNil args p = args ++ [ResourceOrNil p] := by
  cases p <;> rfl

/-- C16: called with an empty `NewArguments`, `GetFunctionCallHookArguments`
builds the source resource (nil when there is none), the function name, the
allowed flag, the file name and the line number, followed by the arguments of the
call after masking: `5 + n` values for `n` arguments.  For a name without an
entry in the masking table, such as `setElementPosition` in both builds, the
values after the first five are the arguments of the call. -/
theorem GetFunctionCallHookArguments_payload (host : Host) (self : CDebugHookManager)
    (strName : SString) (luaVM : Option lua_State) (bAllowed : Bool) :
    GetFunctionCallHookArguments host self [] strName luaVM bAllowed
      = [ResourceOrNil (ResourceOf host host.GetTopLuaMain), CLuaArgument.string strName,
         CLuaArgument.boolean bAllowed,
         CLuaArgument.string (GetDebugInfo host luaVM "" 0).1,
         CLuaArgument.number (GetDebugInfo host luaVM "" 0).2]
        ++ MaybeMaskArgumentValues self strName (host.ReadArguments luaVM) ∧
    (GetFunctionCallHookArguments host self [] strName luaVM bAllowed).length
      = 5 + (host.ReadArguments luaVM).length ∧
    (MapFind self.m_MaskArgumentsMap strName = none →
      (GetFunctionCallHookArguments host self [] strName luaVM bAllowed).drop 5
        = host.ReadArguments luaVM) ∧
    (∀ MTA_CLIENT,
      (GetFunctionCallHookArguments host (CDebugHookManager.CDebugHookManager MTA_CLIENT) []
          "setElementPosition" luaVM bAllowed).drop 5
        = host.ReadArguments luaVM) := by
  have hpay : ∀ (m : CDebugHookManager) (name : SString),
      GetFunctionCallHookArguments host m [] name luaVM bAllowed
        = [ResourceOrNil (ResourceOf host host.GetTopLuaMain), CLuaArgument.string name,
           CLuaArgument.boolean bAllowed,
           CLuaArgument.string (GetDebugInfo host luaVM "" 0).1,
           CLuaArgument.number (GetDebugInfo host luaVM "" 0).2]
          ++ MaybeMaskArgumentValues m name (host.ReadArguments luaVM) := by
    intro m name
    simp [GetFunctionCallHookArguments, PushResourceOrNil_eq, CLuaArguments.PushString,
      CLuaArguments.PushBoolean, CLuaArguments.PushNumber, CLuaArguments.PushArguments]
  refine ⟨hpay _ _, ?_, ?_, ?_⟩
  · rw [hpay, List.length_append, mask_length self strName _]
    rfl
  · intro h
    rw [hpay, mask_unlisted self strName _ h]
    rfl
  · intro c
    have hnone : MapFind (CDebugHookManager.CDebugHookManager c).m_MaskArgumentsMap
        "setElementPosition" = none := by
      cases c <;> decide
    rw [hpay, mask_unlisted _ _ _ hnone]
    rfl

theorem GetFunctionCallHookArguments_payload_witness :
    MapFind serverManager.m_MaskArgumentsMap "setElementPosition" = none ∧
    GetFunctionCallHookArguments sampleHost serverManager [] "setElementPosition" (some 7) true
      = [.resource 100, .string "setElementPosition", .boolean true, .string "main.lua",
         .number 12, .element (some 4), .string "acc", .string "pw"] ∧
    (GetFunctionCallHookArguments sampleHost serverManager [] "setElementPosition"
        (some 7) true).drop 5 = sampleHost.ReadArguments (some 7) :=
  ⟨by decide, by decide,
   (GetFunctionCallHookArguments_payload sampleHost serverManager "setElementPosition"
      (some 7) true).2.2.1 (by decide)⟩

/-- C17: called with an empty `NewArguments`, `GetEventCallHookArguments` builds
the source resource (nil when there is none), the event name, the source
element, the caller, the file name and the line number, followed by the event
arguments as they are: `6 + n` values for `n` arguments.  The masking table is
not consulted: an event called `logIn` keeps its arguments. -/
theorem GetEventCallHookArguments_payload (host : Host) (strName : SString)
    (Arguments : CLuaArguments) (pSource pCaller : Option Nat) :
    GetEventCallHookArguments host [] strName Arguments pSource pCaller
      = [ResourceOrNil (ResourceOf host host.GetTopLuaMain), CLuaArgument.string strName,
         CLuaArgument.element pSource, CLuaArgument.element pCaller,
         CLuaArgument.string (GetTopDebugInfo host host.GetTopLuaMain "" 0).1,
         CLuaArgument.number (GetTopDebugInfo host host.GetTopLuaMain "" 0).2]
        ++ Arguments ∧
    (GetEventCallHookArguments host [] strName Arguments pSource pCaller).length
      = 6 + Arguments.length ∧
    (GetEventCallHookArguments host [] strName Arguments pSource pCaller).drop 6
      = Arguments ∧
    (GetEventCallHookArguments host [] "logIn" Arguments pSource pCaller).drop 6
      = Arguments := by
  have hpay : ∀ name : SString,
      GetEventCallHookArguments host [] name Arguments pSource pCaller
        = [ResourceOrNil (ResourceOf host host.GetTopLuaMain), CLuaArgument.string name,
           CLuaArgument.element pSource, CLuaArgument.element pCaller,
           CLuaArgument.string (GetTopDebugInfo host host.GetTopLuaMain "" 0).1,
           CLuaArgument.number (GetTopDebugInfo host host.GetTopLuaMain "" 0).2]
          ++ Arguments := by
    intro name
    simp [GetEventCallHookArguments, PushResourceOrNil_eq, CLuaArguments.PushString,
      CLuaArguments.PushElement, CLuaArguments.PushNumber, CLuaArguments.PushArguments]
  refine ⟨hpay _, ?_, ?_, ?_⟩
  · rw [hpay, List.length_append]
    rfl
  · rw [hpay]
    rfl
  · rw [hpay]
    rfl

theorem GetEventCallHookArguments_payload_witness :
    GetEventCallHookArguments sampleHost [] "logIn"
        [.element (some 4), .string "acc", .string "pw"] (some 4) (some 9)
      = [.resource 100, .string "logIn", .element (some 4), .element (some 9),
         .string "main.lua", .number 12, .element (some 4), .string "acc", .string "pw"] :=
  (GetEventCallHookArguments_payload sampleHost "logIn"
    [.element (some 4), .string "acc", .string "pw"] (some 4) (some 9)).1.trans (by decide)

/-- C18, what the code does: called with an empty `NewArguments`,
`GetEventFunctionCallHookArguments` builds the event resource (nil when there is
none), the event name, the source element, the caller, the event file and line,
the handler resource (nil when there is none), the handler file and line,
followed by the event arguments as they are: `9 + n` values for `n` arguments.
For a handler whose source starts with `@` the handler file is the source name
without its path.  For a handler with any other source, one defined in a string,
`GetMapEventDebugInfo` hands back a pointer into its own local `lua_Debug`, and
the handler file of the payload is what the dead frame holds, not `short_src` of
the handler; the handler line is 0. -/
theorem GetEventFunctionCallHookArguments_dangling_file (host : Host) (strName : SString)
    (Arguments : CLuaArguments) (pSource pCaller : Option Nat) (pMapEvent : CMapEvent) :
    GetEventFunctionCallHookArguments host [] strName Arguments pSource pCaller pMapEvent
      = [ResourceOrNil (ResourceOf host host.GetTopLuaMain), CLuaArgument.string strName,
         CLuaArgument.element pSource, CLuaArgument.element pCaller,
         CLuaArgument.string (GetTopDebugInfo host host.GetTopLuaMain "" 0).1,
         CLuaArgument.number (GetTopDebugInfo host host.GetTopLuaMain "" 0).2,
         ResourceOrNil (ResourceOf host pMapEvent.GetVM),
         CLuaArgument.string
           (host.ReadFilename (GetMapEventDebugInfo host pMapEvent "" 0).1),
         CLuaArgument.number (GetMapEventDebugInfo host pMapEvent "" 0).2]
        ++ Arguments ∧
    (GetEventFunctionCallHookArguments host [] strName Arguments pSource pCaller
        pMapEvent).length = 9 + Arguments.length ∧
    (GetEventFunctionCallHookArguments host [] strName Arguments pSource pCaller
        pMapEvent).drop 9 = Arguments ∧
    (∀ pLuaMain luaVM debugInfo, pMapEvent.GetVM = some pLuaMain →
      host.GetVirtualMachine pLuaMain = some luaVM →
      host.lua_getinfo luaVM pMapEvent.GetLuaFunction = some debugInfo →
      (debugInfo.source.data.head? = some '@' →
        (GetEventFunctionCallHookArguments host [] strName Arguments pSource pCaller
            pMapEvent)[7]? = some (CLuaArgument.string (RemovePath debugInfo.source)) ∧
        (GetEventFunctionCallHookArguments host [] strName Arguments pSource pCaller
            pMapEvent)[8]? = some (CLuaArgument.number
              (if debugInfo.currentline ≠ -1 then debugInfo.currentline
               else debugInfo.linedefined))) ∧
      (debugInfo.source.data.head? ≠ some '@' →
        GetMapEventDebugInfo host pMapEvent "" 0
          = (FilenamePointer.deadFrame (RemovePath debugInfo.short_src), 0) ∧
        (GetEventFunctionCallHookArguments host [] strName Arguments pSource pCaller
            pMapEvent)[7]? = some (CLuaArgument.string host.deadFrameText) ∧
        (GetEventFunctionCallHookArguments host [] strName Arguments pSource pCaller
            pMapEvent)[8]? = some (CLuaArgument.number 0))) := by
  have hpay : GetEventFunctionCallHookArguments host [] strName Arguments pSource pCaller
      pMapEvent
        = [ResourceOrNil (ResourceOf host host.GetTopLuaMain), CLuaArgument.string strName,
           CLuaArgument.element pSource, CLuaArgument.element pCaller,
           CLuaArgument.string (GetTopDebugInfo host host.GetTopLuaMain "" 0).1,
           CLuaArgument.number (GetTopDebugInfo host host.GetTopLuaMain "" 0).2,
           ResourceOrNil (ResourceOf host pMapEvent.GetVM),
           CLuaArgument.string
             (host.ReadFilename (GetMapEventDebugInfo host pMapEvent "" 0).1),
           CLuaArgument.number (GetMapEventDebugInfo host pMapEvent "" 0).2]
          ++ Arguments := by
    simp [GetEventFunctionCallHookArguments, PushResourceOrNil_eq, CLuaArguments.PushString,
      CLuaArguments.PushElement, CLuaArguments.PushNumber, CLuaArguments.PushArguments]
  refine ⟨hpay, ?_, ?_, ?_⟩
  · rw [hpay, List.length_append]
    rfl
  · rw [hpay]
    rfl
  · intro pLuaMain luaVM debugInfo h1 h2 h3
    constructor
    · intro hsrc
      have hloc : GetMapEventDebugInfo host pMapEvent "" 0
          = (FilenamePointer.alive (DebugInfoLocation debugInfo 0).1,
              (DebugInfoLocation debugInfo 0).2) := by
        unfold GetMapEventDebugInfo
        rw [h1]
        simp only
        rw [h2]
        simp only
        rw [h3]
        simp only
        rw [if_pos hsrc]
      rw [hpay, hloc]
      constructor <;> simp [Host.ReadFilename, DebugInfoLocation, hsrc]
    · intro hsrc
      have hloc : GetMapEventDebugInfo host pMapEvent "" 0
          = (FilenamePointer.deadFrame (RemovePath debugInfo.short_src), 0) := by
        unfold GetMapEventDebugInfo
        rw [h1]
        simp only
        rw [h2]
        simp only
        rw [h3]
        simp only
        rw [if_neg hsrc]
        simp [DebugInfoLocation, hsrc]
      refine ⟨hloc, ?_⟩
      rw [hpay, hloc]
      constructor <;> simp [Host.ReadFilename]

theorem GetEventFunctionCallHookArguments_dangling_file_witness :
    stringHost.lua_getinfo 8 sampleMapEvent.GetLuaFunction
      = some { source := "function handler() end", short_src := "[string handler]",
               currentline := -1, linedefined := 1 } ∧
    GetEventFunctionCallHookArguments stringHost [] "onChat" [.string "hi"] (some 4) none
        sampleMapEvent
      = [.resource 100, .string "onChat", .element (some 4), .element none,
         .string "main.lua", .number 12, .resource 200,
         .string "bytes of a dead frame", .number 0, .string "hi"] ∧
    (GetMapEventDebugInfo stringHost sampleMapEvent "" 0
        = (FilenamePointer.deadFrame "[string handler]", 0) ∧
      (GetEventFunctionCallHookArguments stringHost [] "onChat" [.string "hi"] (some 4) none
        sampleMapEvent)[7]? = some (CLuaArgument.string stringHost.deadFrameText) ∧
      (GetEventFunctionCallHookArguments stringHost [] "onChat" [.string "hi"] (some 4) none
        sampleMapEvent)[8]? = some (CLuaArgument.number 0)) ∧
    GetEventFunctionCallHookArguments sampleHost [] "onChat" [.string "hi"] (some 4) none
        sampleMapEvent
      = [.resource 100, .string "onChat", .element (some 4), .element none,
         .string "main.lua", .number 12, .resource 200, .string "chat.lua", .number 40,
         .string "hi"] :=
  ⟨by decide, by decide,
   ((GetEventFunctionCallHookArguments_dangling_file stringHost "onChat" [.string "hi"]
      (some 4) none sampleMapEvent).2.2.2 2 8 _ rfl rfl rfl).2 (by decide),
   by decide⟩


/-! ## Lemmas on the dispatch loop -/

theorem filteredOut_eq_false_iff (szName : SString) (info : SDebugHookCallInfo)
    (flag : Bool) :
    CallHook.filteredOut szName info flag = false ↔
      (szName ∈ info.allowedNameMap ∨ (info.allowedNameMap = ∅ ∧ flag = false)) := by
  unfold CallHook.filteredOut MapContains
  by_cases h1 : info.allowedNameMap = ∅
  · cases flag <;> simp [h1]
  · cases flag <;> simp [h1]

theorem invoke_read (host : Host) (r : HookInfoList)
    (hfix : ∀ w pLuaMain functionRef args,
      (host.Call w pLuaMain functionRef args).1.manager.read r = w.manager.read r)
    (Arguments : CLuaArguments) (w : World) (bSkip : Bool) (info : SDebugHookCallInfo)
    (pState : lua_State) :
    (CallHook.invoke host Arguments w bSkip info pState).1.manager.read r
      = w.manager.read r := by
  unfold CallHook.invoke
  exact hfix _ _ _ _

theorem body_read (host : Host) (r : HookInfoList)
    (hfix : ∀ w pLuaMain functionRef args,
      (host.Call w pLuaMain functionRef args).1.manager.read r = w.manager.read r)
    (szName : SString) (Arguments : CLuaArguments) (flag : Bool) (w : World) (bSkip : Bool)
    (info : SDebugHookCallInfo) :
    (CallHook.body host szName Arguments flag w bSkip info).1.manager.read r
      = w.manager.read r := by
  unfold CallHook.body
  split
  · rfl
  · split
    · rfl
    · exact invoke_read host r hfix Arguments w bSkip info _

theorem body_invoked (host : Host) (szName : SString) (Arguments : CLuaArguments)
    (flag : Bool) (w : World) (bSkip : Bool) (info : SDebugHookCallInfo) :
    (CallHook.body host szName Arguments flag w bSkip info).2.2
      = if (!CallHook.filteredOut szName info flag && (host.pState info.pLuaMain).isSome)
          = true
        then [{ info := info, Arguments := Arguments }] else [] := by
  unfold CallHook.body
  cases hf : CallHook.filteredOut szName info flag
  · cases hp : host.pState info.pLuaMain <;> simp
  · simp

theorem loop_fixed (host : Host) (szName : SString) (r : HookInfoList)
    (Arguments : CLuaArguments) (flag : Bool)
    (hfix : ∀ w pLuaMain functionRef args,
      (host.Call w pLuaMain functionRef args).1.manager.read r = w.manager.read r) :
    ∀ (fuel i : Nat) (w : World) (bSkip : Bool) (invoked : List Invocation),
      (w.manager.read r).length - i < fuel →
      ∃ w2 b2, CallHook.loop host szName r Arguments flag fuel i w bSkip invoked
          = some (w2, b2, invoked ++ (((w.manager.read r).drop i).filter
              (fun info => !CallHook.filteredOut szName info flag &&
                (host.pState info.pLuaMain).isSome)).map
              (fun info => { info := info, Arguments := Arguments })) ∧
        w2.manager.read r = w.manager.read r := by
  intro fuel
  induction fuel with
  | zero => intro i w bSkip invoked h; omega
  | succ fuel ih =>
    intro i w bSkip invoked hlt
    rw [CallHook.loop]
    by_cases h : i < (w.manager.read r).length
    · rw [dif_pos h]
      have hread := body_read host r hfix szName Arguments flag w bSkip
        ((w.manager.read r)[i])
      have hlt2 : ((CallHook.body host szName Arguments flag w bSkip
          ((w.manager.read r)[i])).1.manager.read r).length - (i + 1) < fuel := by
        rw [hread]; omega
      obtain ⟨w2, b2, h1, h2⟩ := ih (i + 1) _
        (CallHook.body host szName Arguments flag w bSkip ((w.manager.read r)[i])).2.1
        (invoked ++ (CallHook.body host szName Arguments flag w bSkip
          ((w.manager.read r)[i])).2.2) hlt2
      refine ⟨w2, b2, ?_, h2.trans hread⟩
      rw [h1, hread, body_invoked, List.drop_eq_getElem_cons h, List.filter_cons]
      by_cases hk : (!CallHook.filteredOut szName ((w.manager.read r)[i]) flag &&
          (host.pState ((w.manager.read r)[i]).pLuaMain).isSome) = true
      · rw [if_pos hk, if_pos hk, List.map_cons, List.append_assoc, List.singleton_append]
      · rw [if_neg hk, if_neg hk, List.append_nil]
    · rw [dif_neg h, List.drop_of_length_le (Nat.le_of_not_lt h)]
      exact ⟨w, bSkip, by simp, rfl⟩

theorem loop_sound (host : Host) (szName : SString) (r : HookInfoList)
    (Arguments : CLuaArguments) (flag : Bool) :
    ∀ (fuel i : Nat) (w : World) (bSkip : Bool) (invoked : List Invocation)
      (res : World × Bool × List Invocation),
      CallHook.loop host szName r Arguments flag fuel i w bSkip invoked = some res →
      ∃ extra, res.2.2 = invoked ++ extra ∧
        ∀ inv ∈ extra, CallHook.filteredOut szName inv.info flag = false ∧
          (host.pState inv.info.pLuaMain).isSome = true ∧ inv.Arguments = Arguments := by
  intro fuel
  induction fuel with
  | zero =>
    intro i w bSkip invoked res h
    simp [CallHook.loop] at h
  | succ fuel ih =>
    intro i w bSkip invoked res h
    rw [CallHook.loop] at h
    by_cases hi : i < (w.manager.read r).length
    · rw [dif_pos hi] at h
      obtain ⟨extra, h1, h2⟩ := ih _ _ _ _ _ h
      refine ⟨(CallHook.body host szName Arguments flag w bSkip
        ((w.manager.read r)[i])).2.2 ++ extra, by rw [h1, List.append_assoc], ?_⟩
      intro inv hinv
      rcases List.mem_append.1 hinv with hb | he
      · rw [body_invoked] at hb
        split_ifs at hb with hk
        · rw [List.mem_singleton] at hb
          subst hb
          simp only [Bool.and_eq_true, Bool.not_eq_true'] at hk
          exact ⟨hk.1, hk.2, rfl⟩
        · cases hb
      · exact h2 inv he
    · rw [dif_neg hi] at h
      cases h
      exact ⟨[], by simp, by simp⟩

theorem CallHook_sound (host : Host) (fuel : Nat) (w : World) (szName : SString)
    (r : HookInfoList) (Arguments : CLuaArguments) (flag : Bool) (d : Dispatch)
    (h : CallHook host fuel w szName r Arguments flag = some d) :
    ∀ inv ∈ d.invoked, CallHook.filteredOut szName inv.info flag = false ∧
      (host.pState inv.info.pLuaMain).isSome = true ∧ inv.Arguments = Arguments := by
  unfold CallHook at h
  by_cases hb : w.bRecurse = true
  · rw [if_pos hb] at h
    cases h
    simp
  · rw [if_neg hb] at h
    simp only at h
    split at h
    · cases h
    · rename_i w2 b2 invoked hl
      cases h
      obtain ⟨extra, h1, h2⟩ := loop_sound host szName r Arguments flag _ _ _ _ _ _ hl
      simp only [List.nil_append] at h1
      simp only
      rw [h1]
      exact h2


theorem keep_eq_decide (host : Host) (szName : SString) (flag : Bool)
    (info : SDebugHookCallInfo) :
    (!CallHook.filteredOut szName info flag && (host.pState info.pLuaMain).isSome)
      = decide ((szName ∈ info.allowedNameMap ∨ (info.allowedNameMap = ∅ ∧ flag = false)) ∧
          host.pState info.pLuaMain ≠ none) := by
  cases hf : CallHook.filteredOut szName info flag
  · have h := (filteredOut_eq_false_iff szName info flag).1 hf
    cases hp : host.pState info.pLuaMain <;> simp [h]
  · have h : ¬ (szName ∈ info.allowedNameMap ∨ (info.allowedNameMap = ∅ ∧ flag = false)) := by
      intro hc
      rw [(filteredOut_eq_false_iff szName info flag).2 hc] at hf
      cases hf
    simp [h]

/-! ## Dispatch -/

/-- C12, the claim as written fails for the event and event-handler categories:
`OnPreEvent` and `OnPreEventFunction` do not derive the flag from the name, so
for an event called `addDebugHook` the hook `refA`, registered with an empty list
of allowed names, is invoked. -/
theorem event_dispatch_counterexample :
    MustNameBeExplicitlyAllowed "addDebugHook" = true ∧
    (OnPreEvent sampleHost 2 (worldOf oneEventHook) "addDebugHook" [.number 1]
        (some 4) none).map
      (fun d => d.invoked.map (fun inv => (inv.info.functionRef, inv.info.allowedNameMap)))
      = some [(refA, ∅)] ∧
    (OnPreEventFunction sampleHost 2 (worldOf oneHandlerHook) "addDebugHook" [.number 1]
        (some 4) none sampleMapEvent).map
      (fun d => d.invoked.map (fun inv => (inv.info.functionRef, inv.info.allowedNameMap)))
      = some [(refA, ∅)] := by
  decide

/-- C12, as the code has it: in a dispatch of `OnPreFunction` or `OnPostFunction`
for the function name `addDebugHook` or `removeDebugHook`, every hook that is
invoked lists that name in its set of allowed names; a hook with an empty set is
not invoked. -/
theorem function_dispatch_explicit_names (host : Host) (fuel : Nat) (w : World) (f : Nat)
    (luaVM : Option lua_State) (bAllowed : Bool) (strName : SString)
    (hname : host.GetFunction f = some strName)
    (hadmin : strName = "addDebugHook" ∨ strName = "removeDebugHook") :
    (∀ d ∈ OnPreFunction host fuel w f luaVM bAllowed, ∀ inv ∈ d.invoked,
      strName ∈ inv.info.allowedNameMap ∧ inv.info.allowedNameMap ≠ ∅) ∧
    (∀ d ∈ OnPostFunction host fuel w f luaVM, ∀ inv ∈ d.invoked,
      strName ∈ inv.info.allowedNameMap ∧ inv.info.allowedNameMap ≠ ∅) := by
  have hflag : MustNameBeExplicitlyAllowed strName = true := by
    rcases hadmin with h | h <;> subst h <;> decide
  have key : ∀ (r : HookInfoList) (args : CLuaArguments) (d : Dispatch),
      CallHook host fuel w strName r args true = some d →
      ∀ inv ∈ d.invoked,
        strName ∈ inv.info.allowedNameMap ∧ inv.info.allowedNameMap ≠ ∅ := by
    intro r args d hd inv hinv
    have h1 := (CallHook_sound host fuel w strName r args true d hd inv hinv).1
    rcases (filteredOut_eq_false_iff strName inv.info true).1 h1 with h2 | h2
    · exact ⟨h2, Finset.ne_empty_of_mem h2⟩
    · cases h2.2
  constructor
  · intro d hd inv hinv
    rw [Option.mem_def] at hd
    unfold OnPreFunction at hd
    rw [hname] at hd
    simp only [hflag] at hd
    split_ifs at hd
    · cases hd; cases hinv
    · cases hd; cases hinv
    · exact key _ _ d hd inv hinv
  · intro d hd inv hinv
    rw [Option.mem_def] at hd
    unfold OnPostFunction at hd
    rw [hname] at hd
    simp only [hflag] at hd
    split_ifs at hd
    · cases hd; cases hinv
    · cases hd; cases hinv
    · exact key _ _ d hd inv hinv

theorem function_dispatch_explicit_names_witness :
    (OnPreFunction sampleHost 3 (worldOf adminHooks) 1 (some 7) true).map
      (fun d => d.invoked.map (fun inv => inv.info.functionRef)) = some [refB] ∧
    (∀ d ∈ OnPreFunction sampleHost 3 (worldOf adminHooks) 1 (some 7) true,
      ∀ inv ∈ d.invoked,
        "addDebugHook" ∈ inv.info.allowedNameMap ∧ inv.info.allowedNameMap ≠ ∅) :=
  ⟨by decide,
   (function_dispatch_explicit_names sampleHost 3 (worldOf adminHooks) 1 (some 7) true
      "addDebugHook" (by decide) (Or.inl rfl)).1⟩

/-- C19: when the hook list of its category is empty, each of the three `Pre`
entry points returns true, invokes no callback and leaves the program state,
the flag `bRecurse` and all globals included, as it was; each of the three
`Post` entry points invokes no callback and leaves the program state as it
was. -/
theorem entry_points_empty_list (host : Host) (fuel : Nat) (w : World) (f : Nat)
    (luaVM : Option lua_State) (bAllowed : Bool) (szName : SString)
    (Arguments : CLuaArguments) (pSource pCaller : Option Nat) (pMapEvent : CMapEvent) :
    (w.manager.m_PreFunctionHookList = [] →
      OnPreFunction host fuel w f luaVM bAllowed
        = some { result := true, world := w, invoked := [] }) ∧
    (w.manager.m_PreEventHookList = [] →
      OnPreEvent host fuel w szName Arguments pSource pCaller
        = some { result := true, world := w, invoked := [] }) ∧
    (w.manager.m_PreEventFunctionHookList = [] →
      OnPreEventFunction host fuel w szName Arguments pSource pCaller pMapEvent
        = some { result := true, world := w, invoked := [] }) ∧
    (w.manager.m_PostFunctionHookList = [] →
      (OnPostFunction host fuel w f luaVM).map (fun d => (d.world, d.invoked))
        = some (w, [])) ∧
    (w.manager.m_PostEventHookList = [] →
      (OnPostEvent host fuel w szName Arguments pSource pCaller).map
        (fun d => (d.world, d.invoked)) = some (w, [])) ∧
    (w.manager.m_PostEventFunctionHookList = [] →
      (OnPostEventFunction host fuel w szName Arguments pSource pCaller pMapEvent).map
        (fun d => (d.world, d.invoked)) = some (w, [])) := by
  refine ⟨?_, ?_, ?_, ?_, ?_, ?_⟩ <;> intro h
  · simp [OnPreFunction, h, Dispatch.allowed]
  · simp [OnPreEvent, h, Dispatch.allowed]
  · simp [OnPreEventFunction, h, Dispatch.allowed]
  · simp [OnPostFunction, h, Dispatch.allowed]
  · simp [OnPostEvent, h, Dispatch.allowed]
  · simp [OnPostEventFunction, h, Dispatch.allowed]

theorem entry_points_empty_list_witness :
    (worldOf threeHooks).manager.m_PreEventHookList = [] ∧
    OnPreEvent sampleHost 0 (worldOf threeHooks) "onChat" [.string "hi"] (some 4) none
      = some { result := true, world := worldOf threeHooks, invoked := [] } :=
  ⟨rfl,
   (entry_points_empty_list sampleHost 0 (worldOf threeHooks) 0 (some 7) true "onChat"
      [.string "hi"] (some 4) none sampleMapEvent).2.1 rfl⟩

/-- C20: a top-level `CallHook` over a hook list that the callbacks leave as it
is ends, once the bound exceeds the length of the list, and the callbacks it has
invoked are, in the order of the list, the entries that match the name and whose
VM is live, each called once with the payload of the dispatch; three such
entries A, B, C are invoked as A, B, C. -/
theorem CallHook_dispatch_order (host : Host) (fuel : Nat) (w : World) (szName : SString)
    (eventHookList : HookInfoList) (Arguments : CLuaArguments)
    (bNameMustBeExplicitlyAllowed : Bool)
    (htop : w.bRecurse = false)
    (hfix : ∀ w2 pLuaMain functionRef args,
      (host.Call w2 pLuaMain functionRef args).1.manager.read eventHookList
        = w2.manager.read eventHookList)
    (hfuel : (w.manager.read eventHookList).length < fuel) :
    ∃ d, CallHook host fuel w szName eventHookList Arguments bNameMustBeExplicitlyAllowed
        = some d ∧
      d.invoked = ((w.manager.read eventHookList).filter (fun info =>
          decide ((szName ∈ info.allowedNameMap ∨
              (info.allowedNameMap = ∅ ∧ bNameMustBeExplicitlyAllowed = false)) ∧
            host.pState info.pLuaMain ≠ none))).map
          (fun info => { info := info, Arguments := Arguments }) ∧
      d.world.manager.read eventHookList = w.manager.read eventHookList ∧
      (∀ A B C, w.manager.read eventHookList = [A, B, C] →
        (∀ info ∈ [A, B, C],
          (szName ∈ info.allowedNameMap ∨
            (info.allowedNameMap = ∅ ∧ bNameMustBeExplicitlyAllowed = false)) ∧
          host.pState info.pLuaMain ≠ none) →
        d.invoked = [{ info := A, Arguments := Arguments },
                     { info := B, Arguments := Arguments },
                     { info := C, Arguments := Arguments }]) := by
  obtain ⟨w2, b2, h1, h2⟩ := loop_fixed host szName eventHookList Arguments
    bNameMustBeExplicitlyAllowed hfix fuel 0 { w with bRecurse := true } false []
    (by simpa using hfuel)
  have hinv : (((w.manager.read eventHookList).drop 0).filter
      (fun info => !CallHook.filteredOut szName info bNameMustBeExplicitlyAllowed &&
        (host.pState info.pLuaMain).isSome)).map
        (fun info => ({ info := info, Arguments := Arguments } : Invocation))
      = ((w.manager.read eventHookList).filter (fun info =>
          decide ((szName ∈ info.allowedNameMap ∨
              (info.allowedNameMap = ∅ ∧ bNameMustBeExplicitlyAllowed = false)) ∧
            host.pState info.pLuaMain ≠ none))).map
          (fun info => { info := info, Arguments := Arguments }) := by
    rw [List.drop_zero]
    congr 1
    apply List.filter_congr
    intro info _
    exact keep_eq_decide host szName bNameMustBeExplicitlyAllowed info
  refine ⟨{ result := !b2, world := { w2 with bRecurse := false },
            invoked := ((w.manager.read eventHookList).filter (fun info =>
              decide ((szName ∈ info.allowedNameMap ∨
                  (info.allowedNameMap = ∅ ∧ bNameMustBeExplicitlyAllowed = false)) ∧
                host.pState info.pLuaMain ≠ none))).map
              (fun info => { info := info, Arguments := Arguments }) }, ?_, rfl, h2, ?_⟩
  · unfold CallHook
    rw [htop]
    simp only [Bool.false_eq_true, if_false]
    rw [h1]
    simp only [List.nil_append]
    rw [hinv]
  · intro A B C hl hall
    simp only
    rw [hl]
    have hA := hall A (by simp)
    have hB := hall B (by simp)
    have hC := hall C (by simp)
    simp [List.filter_cons, hA, hB, hC]

theorem CallHook_dispatch_order_witness :
    ∃ d, CallHook sampleHost 4 (worldOf threeHooks) "setElementPosition"
        .m_PreFunctionHookList [.string "payload"] false = some d ∧
      d.invoked.map (fun inv => inv.info.functionRef) = [refA, refB, refC] :=
  have h := CallHook_dispatch_order sampleHost 4 (worldOf threeHooks) "setElementPosition"
    .m_PreFunctionHookList [.string "payload"] false rfl
    (fun w2 _ functionRef _ => by
      show (if functionRef = refB then _ else _ : World × CLuaArguments).1.manager.read _ = _
      split <;> rfl)
    (by decide)
  h.elim fun d hd => ⟨d, hd.1, by rw [hd.2.1]; decide⟩


/-! ## Lemmas on filters and payloads of a dispatch -/

theorem IsNameAllowed_eq_any (szName : SString) (l : List SDebugHookCallInfo)
    (flag : Bool) :
    IsNameAllowed szName l flag = l.any (fun info => !CallHook.filteredOut szName info flag) := by
  induction l with
  | nil => rfl
  | cons a l ih =>
    rw [IsNameAllowed, List.any_cons, ih]
    unfold CallHook.filteredOut MapContains
    by_cases h1 : a.allowedNameMap = ∅
    · cases flag <;> simp [h1]
    · by_cases h2 : szName ∈ a.allowedNameMap
      · cases flag <;> simp [h1, h2]
      · cases flag <;> simp [h1, h2]

theorem body_filteredOut (host : Host) (szName : SString) (Arguments : CLuaArguments)
    (flag : Bool) (w : World) (bSkip : Bool) (info : SDebugHookCallInfo)
    (h : CallHook.filteredOut szName info flag = true) :
    CallHook.body host szName Arguments flag w bSkip info = (w, bSkip, []) := by
  unfold CallHook.body
  rw [if_pos h]

theorem body_dead (host : Host) (szName : SString) (Arguments : CLuaArguments)
    (flag : Bool) (w : World) (bSkip : Bool) (info : SDebugHookCallInfo)
    (h : host.pState info.pLuaMain = none) :
    CallHook.body host szName Arguments flag w bSkip info = (w, bSkip, []) := by
  unfold CallHook.body
  split
  · rfl
  · rw [h]

theorem loop_all_filtered (host : Host) (szName : SString) (r : HookInfoList)
    (Arguments : CLuaArguments) (flag : Bool) (w : World)
    (hall : ∀ info ∈ w.manager.read r, CallHook.filteredOut szName info flag = true) :
    ∀ (fuel i : Nat) (bSkip : Bool) (invoked : List Invocation),
      (w.manager.read r).length - i < fuel →
      CallHook.loop host szName r Arguments flag fuel i w bSkip invoked
        = some (w, bSkip, invoked) := by
  intro fuel
  induction fuel with
  | zero => intro i bSkip invoked h; omega
  | succ fuel ih =>
    intro i bSkip invoked hlt
    rw [CallHook.loop]
    by_cases h : i < (w.manager.read r).length
    · rw [dif_pos h]
      simp only
      rw [body_filteredOut host szName Arguments flag w bSkip _
        (hall _ (List.getElem_mem h))]
      simp only [List.append_nil]
      exact ih (i + 1) bSkip invoked (by omega)
    · rw [dif_neg h]

theorem functionPayload_eq (host : Host) (self : CDebugHookManager) (strName : SString)
    (luaVM : Option lua_State) (bAllowed : Bool) :
    GetFunctionCallHookArguments host self [] strName luaVM bAllowed
      = [ResourceOrNil (ResourceOf host host.GetTopLuaMain), CLuaArgument.string strName,
         CLuaArgument.boolean bAllowed,
         CLuaArgument.string (GetDebugInfo host luaVM "" 0).1,
         CLuaArgument.number (GetDebugInfo host luaVM "" 0).2]
        ++ MaybeMaskArgumentValues self strName (host.ReadArguments luaVM) := by
  simp [GetFunctionCallHookArguments, PushResourceOrNil_eq, CLuaArguments.PushString,
    CLuaArguments.PushBoolean, CLuaArguments.PushNumber, CLuaArguments.PushArguments]


/-! ## Re-entrancy, pre-check and the allowed flag -/

/-- C24: while the flag `bRecurse` is set, `CallHook` on any of the six lists
returns true at once, calls no callback and leaves the program state, the flag
included, as it was; so does each of the six entry points. -/
theorem CallHook_nested (host : Host) (fuel : Nat) (w : World) (szName : SString)
    (eventHookList : HookInfoList) (Arguments : CLuaArguments)
    (bNameMustBeExplicitlyAllowed : Bool) (f : Nat) (luaVM : Option lua_State)
    (bAllowed : Bool) (pSource pCaller : Option Nat) (pMapEvent : CMapEvent)
    (h : w.bRecurse = true) :
    CallHook host fuel w szName eventHookList Arguments bNameMustBeExplicitlyAllowed
      = some { result := true, world := w, invoked := [] } ∧
    OnPreFunction host fuel w f luaVM bAllowed
      = some { result := true, world := w, invoked := [] } ∧
    OnPostFunction host fuel w f luaVM
      = some { result := true, world := w, invoked := [] } ∧
    OnPreEvent host fuel w szName Arguments pSource pCaller
      = some { result := true, world := w, invoked := [] } ∧
    OnPostEvent host fuel w szName Arguments pSource pCaller
      = some { result := true, world := w, invoked := [] } ∧
    OnPreEventFunction host fuel w szName Arguments pSource pCaller pMapEvent
      = some { result := true, world := w, invoked := [] } ∧
    OnPostEventFunction host fuel w szName Arguments pSource pCaller pMapEvent
      = some { result := true, world := w, invoked := [] } := by
  have key : ∀ (name : SString) (r : HookInfoList) (args : CLuaArguments) (flag : Bool),
      CallHook host fuel w name r args flag
        = some { result := true, world := w, invoked := [] } := by
    intro name r args flag
    unfold CallHook
    rw [if_pos h]
  refine ⟨key _ _ _ _, ?_, ?_, ?_, ?_, ?_, ?_⟩
  · unfold OnPreFunction
    split
    · rfl
    · split
      · rfl
      · simp only
        split
        · rfl
        · exact key _ _ _ _
  · unfold OnPostFunction
    split
    · rfl
    · split
      · rfl
      · simp only
        split
        · rfl
        · exact key _ _ _ _
  · unfold OnPreEvent
    split
    · rfl
    · split
      · rfl
      · exact key _ _ _ _
  · unfold OnPostEvent
    split
    · rfl
    · split
      · rfl
      · exact key _ _ _ _
  · unfold OnPreEventFunction
    split
    · rfl
    · split
      · rfl
      · exact key _ _ _ _
  · unfold OnPostEventFunction
    split
    · rfl
    · split
      · rfl
      · exact key _ _ _ _

theorem CallHook_nested_witness :
    (CallHook sampleHost 0 { worldOf threeHooks with bRecurse := true } "setElementPosition"
        .m_PreFunctionHookList [] false).map (fun d => (d.result, d.world.bRecurse, d.invoked))
      = some (true, true, []) :=
  (congrArg (Option.map (fun d => (d.result, d.world.bRecurse, d.invoked)))
    (CallHook_nested sampleHost 0 { worldOf threeHooks with bRecurse := true }
      "setElementPosition" .m_PreFunctionHookList [] false 0 none true none none
      sampleMapEvent rfl).1).trans rfl

/-- C27: `IsNameAllowed` returns true exactly when the name test of the loop of
`CallHook` lets at least one entry of the list through, and on a single entry
the two tests agree; so when `IsNameAllowed` is false, a top-level `CallHook`
over that list calls no callback. -/
theorem IsNameAllowed_precheck (szName : SString) (eventHookList : List SDebugHookCallInfo)
    (bNameMustBeExplicitlyAllowed : Bool) :
    (IsNameAllowed szName eventHookList bNameMustBeExplicitlyAllowed = true ↔
      ∃ info ∈ eventHookList,
        CallHook.filteredOut szName info bNameMustBeExplicitlyAllowed = false) ∧
    (∀ info, IsNameAllowed szName [info] bNameMustBeExplicitlyAllowed
      = !CallHook.filteredOut szName info bNameMustBeExplicitlyAllowed) ∧
    (∀ (host : Host) (fuel : Nat) (w : World) (r : HookInfoList) (Arguments : CLuaArguments),
      w.manager.read r = eventHookList → w.bRecurse = false →
      eventHookList.length < fuel →
      IsNameAllowed szName eventHookList bNameMustBeExplicitlyAllowed = false →
      ∃ d, CallHook host fuel w szName r Arguments bNameMustBeExplicitlyAllowed = some d ∧
        d.invoked = [] ∧ d.result = true) := by
  refine ⟨?_, ?_, ?_⟩
  · rw [IsNameAllowed_eq_any, List.any_eq_true]
    simp
  · intro info
    rw [IsNameAllowed_eq_any]
    simp
  · intro host fuel w r Arguments hl htop hfuel hno
    have hall : ∀ info ∈ ({ w with bRecurse := true } : World).manager.read r,
        CallHook.filteredOut szName info bNameMustBeExplicitlyAllowed = true := by
      intro info hinfo
      rw [IsNameAllowed_eq_any, List.any_eq_false] at hno
      have := hno info (by rw [← hl]; exact hinfo)
      simpa using this
    have hloop := loop_all_filtered host szName r Arguments bNameMustBeExplicitlyAllowed
      { w with bRecurse := true } hall fuel 0 false []
      (by show (w.manager.read r).length - 0 < fuel; rw [hl]; omega)
    refine ⟨{ result := true, world := { ({ w with bRecurse := true } : World) with
        bRecurse := false }, invoked := [] }, ?_, rfl, rfl⟩
    unfold CallHook
    rw [htop]
    simp only [Bool.false_eq_true, if_false]
    rw [hloop]
    rfl

theorem IsNameAllowed_precheck_witness :
    (worldOf twoHooks).manager.m_PreFunctionHookList.map
        (fun info => (info.functionRef, info.allowedNameMap))
      = [(refA, ∅), (refC, {"onChat"})] ∧
    (∀ info ∈ (worldOf twoHooks).manager.read .m_PreFunctionHookList,
      CallHook.filteredOut "addDebugHook" info true = true) ∧
    IsNameAllowed "addDebugHook" ((worldOf twoHooks).manager.read .m_PreFunctionHookList)
      true = false ∧
    ∃ d, CallHook sampleHost 3 (worldOf twoHooks) "addDebugHook" .m_PreFunctionHookList
        [] true = some d ∧ d.invoked = [] ∧ d.result = true :=
  ⟨by decide, by decide, by decide,
   (IsNameAllowed_precheck "addDebugHook"
      ((worldOf twoHooks).manager.read .m_PreFunctionHookList) true).2.2
      sampleHost 3 (worldOf twoHooks) .m_PreFunctionHookList [] rfl rfl (by decide) (by decide)⟩

/-- C29: every callback that `OnPostFunction` calls gets the payload built with
the allowed flag true, whatever the program state, so its third value is true;
every callback that `OnPreFunction` calls gets the payload built with the
argument `bAllowed`, so its third value is `bAllowed`. -/
theorem function_dispatch_allowed_flag (host : Host) (fuel : Nat) (w : World) (f : Nat)
    (luaVM : Option lua_State) (bAllowed : Bool) :
    (∀ d ∈ OnPostFunction host fuel w f luaVM, ∀ inv ∈ d.invoked,
      (∃ strName, inv.Arguments
        = GetFunctionCallHookArguments host w.manager [] strName luaVM true) ∧
      inv.Arguments[2]? = some (CLuaArgument.boolean true)) ∧
    (∀ d ∈ OnPreFunction host fuel w f luaVM bAllowed, ∀ inv ∈ d.invoked,
      (∃ strName, inv.Arguments
        = GetFunctionCallHookArguments host w.manager [] strName luaVM bAllowed) ∧
      inv.Arguments[2]? = some (CLuaArgument.boolean bAllowed)) := by
  have key : ∀ (name : SString) (r : HookInfoList) (b flag : Bool) (d : Dispatch),
      CallHook host fuel w name r
          (GetFunctionCallHookArguments host w.manager [] name luaVM b) flag = some d →
      ∀ inv ∈ d.invoked,
        (∃ strName, inv.Arguments
          = GetFunctionCallHookArguments host w.manager [] strName luaVM b) ∧
        inv.Arguments[2]? = some (CLuaArgument.boolean b) := by
    intro name r b flag d hd inv hinv
    have h1 := (CallHook_sound host fuel w name r _ flag d hd inv hinv).2.2
    refine ⟨⟨name, h1⟩, ?_⟩
    rw [h1, functionPayload_eq]
    rfl
  constructor
  · intro d hd inv hinv
    rw [Option.mem_def] at hd
    unfold OnPostFunction at hd
    split at hd
    · cases hd; cases hinv
    · split at hd
      · cases hd; cases hinv
      · simp only at hd
        split at hd
        · cases hd; cases hinv
        · exact key _ _ _ _ d hd inv hinv
  · intro d hd inv hinv
    rw [Option.mem_def] at hd
    unfold OnPreFunction at hd
    split at hd
    · cases hd; cases hinv
    · split at hd
      · cases hd; cases hinv
      · simp only at hd
        split at hd
        · cases hd; cases hinv
        · exact key _ _ _ _ d hd inv hinv


theorem function_dispatch_allowed_flag_witness :
    (OnPostFunction sampleHost 2 (worldOf postHook) 0 (some 7)).map
      (fun d => d.invoked.map (fun inv => inv.Arguments[2]?))
      = some [some (CLuaArgument.boolean true)] ∧
    (OnPreFunction sampleHost 4 (worldOf threeHooks) 0 (some 7) false).map
      (fun d => d.invoked.map (fun inv => inv.Arguments[2]?))
      = some [some (CLuaArgument.boolean false), some (CLuaArgument.boolean false),
              some (CLuaArgument.boolean false)] ∧
    (∀ d ∈ OnPostFunction sampleHost 2 (worldOf postHook) 0 (some 7), ∀ inv ∈ d.invoked,
      inv.Arguments[2]? = some (CLuaArgument.boolean true)) :=
  ⟨by decide, by decide,
   fun d hd inv hinv =>
     ((function_dispatch_allowed_flag sampleHost 2 (worldOf postHook) 0 (some 7) true).1
       d hd inv hinv).2⟩

/-! ## Lemmas on the calls of a dispatch -/

theorem skipOption_eq (returnValues : CLuaArguments) (bSkip : Bool) :
    CallHook.skipOption returnValues bSkip
      = (bSkip || decide (returnValues.head? = some (CLuaArgument.string "skip"))) := by
  unfold CallHook.skipOption
  cases returnValues with
  | nil => simp
  | cons x rest =>
    cases x with
    | string s =>
      by_cases hs : s = "skip"
      · simp [hs]
      · simp [hs]
    | nil => simp
    | boolean b => simp
    | number n => simp
    | resource p => simp
    | element p => simp

theorem body_world_indep (host : Host) (szName : SString) (Arguments : CLuaArguments)
    (flag : Bool) (w : World) (b1 b2 : Bool) (info : SDebugHookCallInfo) :
    (CallHook.body host szName Arguments flag w b1 info).1
      = (CallHook.body host szName Arguments flag w b2 info).1 ∧
    (CallHook.body host szName Arguments flag w b1 info).2.2
      = (CallHook.body host szName Arguments flag w b2 info).2.2 := by
  unfold CallHook.body
  split
  · exact ⟨rfl, rfl⟩
  · split
    · exact ⟨rfl, rfl⟩
    · exact ⟨rfl, rfl⟩

theorem body_skip (host : Host) (szName : SString) (Arguments : CLuaArguments)
    (flag : Bool) (w : World) (bSkip : Bool) (info : SDebugHookCallInfo) :
    (CallHook.body host szName Arguments flag w bSkip info).2.1
      = (bSkip || ((CallHook.body host szName Arguments flag w false info).2.2.map
          (fun inv => (w, inv.info))).any (fun c =>
            decide ((CallHook.returnValues host Arguments c).head?
              = some (CLuaArgument.string "skip")))) := by
  unfold CallHook.body
  split
  · simp
  · split
    · simp
    · simp [CallHook.invoke, skipOption_eq, CallHook.returnValues]

theorem loop_calls (host : Host) (szName : SString) (r : HookInfoList)
    (Arguments : CLuaArguments) (flag : Bool) :
    ∀ (fuel i : Nat) (w : World) (bSkip : Bool) (invoked : List Invocation)
      (res : World × Bool × List Invocation),
      CallHook.loop host szName r Arguments flag fuel i w bSkip invoked = some res →
      res.2.2 = invoked ++ (CallHook.calls host szName r Arguments flag fuel i w).map
          (fun c => { info := c.2, Arguments := Arguments }) ∧
      res.2.1 = (bSkip || (CallHook.calls host szName r Arguments flag fuel i w).any
          (fun c => decide ((CallHook.returnValues host Arguments c).head?
            = some (CLuaArgument.string "skip")))) := by
  intro fuel
  induction fuel with
  | zero =>
    intro i w bSkip invoked res h
    simp [CallHook.loop] at h
  | succ fuel ih =>
    intro i w bSkip invoked res h
    rw [CallHook.loop] at h
    rw [CallHook.calls]
    by_cases hi : i < (w.manager.read r).length
    · rw [dif_pos hi] at h
      rw [dif_pos hi]
      simp only at h ⊢
      have hw := (body_world_indep host szName Arguments flag w bSkip false
        ((w.manager.read r)[i])).1
      have hinv := (body_world_indep host szName Arguments flag w bSkip false
        ((w.manager.read r)[i])).2
      have hskip := body_skip host szName Arguments flag w bSkip ((w.manager.read r)[i])
      obtain ⟨h1, h2⟩ := ih _ _ _ _ _ h
      rw [hw] at h1 h2
      constructor
      · rw [h1, hinv, List.map_append, List.map_map, List.append_assoc]
        congr 2
        rw [← List.map_id ((CallHook.body host szName Arguments flag w false
          ((w.manager.read r)[i])).2.2)]
        rw [List.map_map]
        apply List.map_congr_left
        intro inv hmem
        rw [body_invoked] at hmem
        split_ifs at hmem with hk
        · rw [List.mem_singleton] at hmem
          subst hmem
          rfl
        · cases hmem
      · rw [h2, hskip, List.any_append, Bool.or_assoc]
    · rw [dif_neg hi] at h
      rw [dif_neg hi]
      cases h
      simp


theorem CallHook_top (host : Host) (fuel : Nat) (w : World) (szName : SString)
    (r : HookInfoList) (Arguments : CLuaArguments) (flag : Bool)
    (htop : w.bRecurse = false) (d : Dispatch)
    (hd : CallHook host fuel w szName r Arguments flag = some d) :
    ∃ w2 b2 invoked,
      CallHook.loop host szName r Arguments flag fuel 0 { w with bRecurse := true } false []
        = some (w2, b2, invoked) ∧
      d = { result := !b2, world := { w2 with bRecurse := false }, invoked := invoked } := by
  unfold CallHook at hd
  rw [htop] at hd
  simp only [Bool.false_eq_true, if_false] at hd
  split at hd
  · cases hd
  · rename_i w2 b2 invoked hl
    cases hd
    exact ⟨w2, b2, invoked, hl, rfl⟩

theorem CallHook_fixed (host : Host) (fuel : Nat) (w : World) (szName : SString)
    (r : HookInfoList) (Arguments : CLuaArguments) (flag : Bool)
    (htop : w.bRecurse = false)
    (hfix : ∀ w2 pLuaMain functionRef args,
      (host.Call w2 pLuaMain functionRef args).1.manager.read r = w2.manager.read r)
    (hfuel : (w.manager.read r).length < fuel) :
    ∃ w2 b2,
      CallHook.loop host szName r Arguments flag fuel 0 { w with bRecurse := true } false []
        = some (w2, b2, ((w.manager.read r).filter
            (fun info => !CallHook.filteredOut szName info flag &&
              (host.pState info.pLuaMain).isSome)).map
            (fun info => { info := info, Arguments := Arguments })) ∧
      w2.manager.read r = w.manager.read r ∧
      CallHook host fuel w szName r Arguments flag
        = some { result := !b2, world := { w2 with bRecurse := false },
                 invoked := ((w.manager.read r).filter
                   (fun info => !CallHook.filteredOut szName info flag &&
                     (host.pState info.pLuaMain).isSome)).map
                   (fun info => { info := info, Arguments := Arguments }) } := by
  obtain ⟨w2, b2, h1, h2⟩ := loop_fixed host szName r Arguments flag hfix fuel 0
    { w with bRecurse := true } false [] (by simpa using hfuel)
  simp only [List.nil_append, List.drop_zero] at h1
  refine ⟨w2, b2, h1, h2, ?_⟩
  unfold CallHook
  rw [htop]
  simp only [Bool.false_eq_true, if_false]
  rw [h1]

theorem body_congr_host (host host2 : Host)
    (heff : ∀ w p f a, (host2.Call w p f a).1 = (host.Call w p f a).1)
    (hvm : host2.GetVirtualMachine = host.GetVirtualMachine)
    (szName : SString) (Arguments : CLuaArguments) (flag : Bool) (w : World) (b1 b2 : Bool)
    (info : SDebugHookCallInfo) :
    (CallHook.body host2 szName Arguments flag w b1 info).1
      = (CallHook.body host szName Arguments flag w b2 info).1 ∧
    (CallHook.body host2 szName Arguments flag w b1 info).2.2
      = (CallHook.body host szName Arguments flag w b2 info).2.2 := by
  have hp : host2.pState info.pLuaMain = host.pState info.pLuaMain := by
    unfold Host.pState
    rw [hvm]
  unfold CallHook.body
  rw [hp]
  split
  · exact ⟨rfl, rfl⟩
  · split
    · exact ⟨rfl, rfl⟩
    · refine ⟨?_, rfl⟩
      simp only [CallHook.invoke]
      rw [heff]

theorem loop_congr_host (host host2 : Host)
    (heff : ∀ w p f a, (host2.Call w p f a).1 = (host.Call w p f a).1)
    (hvm : host2.GetVirtualMachine = host.GetVirtualMachine)
    (szName : SString) (r : HookInfoList) (Arguments : CLuaArguments) (flag : Bool) :
    ∀ (fuel i : Nat) (w : World) (b1 b2 : Bool) (invoked : List Invocation),
      (CallHook.loop host2 szName r Arguments flag fuel i w b1 invoked).map
          (fun res => (res.1, res.2.2))
        = (CallHook.loop host szName r Arguments flag fuel i w b2 invoked).map
          (fun res => (res.1, res.2.2)) := by
  intro fuel
  induction fuel with
  | zero => intro i w b1 b2 invoked; rfl
  | succ fuel ih =>
    intro i w b1 b2 invoked
    rw [CallHook.loop, CallHook.loop]
    by_cases hi : i < (w.manager.read r).length
    · rw [dif_pos hi, dif_pos hi]
      simp only
      obtain ⟨h1, h2⟩ := body_congr_host host host2 heff hvm szName Arguments flag w b1 b2
        ((w.manager.read r)[i])
      rw [h1, h2]
      exact ih _ _ _ _ _
    · rw [dif_neg hi, dif_neg hi]
      rfl

/-! ## Verdict -/

/-- C21: a top-level `CallHook` returns false exactly when one of the callbacks
it has called returned at least one value and the first value is the string
`skip`; the callbacks it has called are those of `CallHook.calls`.  A callback
that returns no value (a failed call included), a first value that is not a
string, another string, or `skip` in a later position leaves the verdict as it
was.  Over a list that the callbacks leave as it is, the dispatch ends once the
bound exceeds the length of the list. -/
theorem CallHook_verdict (host : Host) (fuel : Nat) (w : World) (szName : SString)
    (eventHookList : HookInfoList) (Arguments : CLuaArguments)
    (bNameMustBeExplicitlyAllowed : Bool) (htop : w.bRecurse = false) :
    (∀ d ∈ CallHook host fuel w szName eventHookList Arguments bNameMustBeExplicitlyAllowed,
      (d.result = false ↔
        ∃ c ∈ CallHook.calls host szName eventHookList Arguments
            bNameMustBeExplicitlyAllowed fuel 0 { w with bRecurse := true },
          (CallHook.returnValues host Arguments c).head?
            = some (CLuaArgument.string "skip")) ∧
      d.invoked = (CallHook.calls host szName eventHookList Arguments
          bNameMustBeExplicitlyAllowed fuel 0 { w with bRecurse := true }).map
          (fun c => { info := c.2, Arguments := Arguments })) ∧
    (∀ rest : CLuaArguments, ∀ b : Bool,
      CallHook.skipOption [] b = b ∧
      (∀ x : CLuaArgument, (∀ s, x ≠ CLuaArgument.string s) →
        CallHook.skipOption (x :: rest) b = b) ∧
      (∀ s : SString, s ≠ "skip" →
        CallHook.skipOption (CLuaArgument.string s :: rest) b = b) ∧
      (∀ x : CLuaArgument, x ≠ CLuaArgument.string "skip" →
        CallHook.skipOption (x :: CLuaArgument.string "skip" :: rest) b = b) ∧
      CallHook.skipOption (CLuaArgument.string "skip" :: rest) b = true) ∧
    ((∀ w2 pLuaMain functionRef args,
        (host.Call w2 pLuaMain functionRef args).1.manager.read eventHookList
          = w2.manager.read eventHookList) →
      (w.manager.read eventHookList).length < fuel →
      ∃ d, CallHook host fuel w szName eventHookList Arguments
        bNameMustBeExplicitlyAllowed = some d) := by
  refine ⟨?_, ?_, ?_⟩
  · intro d hd
    rw [Option.mem_def] at hd
    obtain ⟨w2, b2, invoked, hl, rfl⟩ := CallHook_top host fuel w szName eventHookList
      Arguments bNameMustBeExplicitlyAllowed htop d hd
    obtain ⟨h1, h2⟩ := loop_calls host szName eventHookList Arguments
      bNameMustBeExplicitlyAllowed _ _ _ _ _ _ hl
    simp only [List.nil_append, Bool.false_or] at h1 h2
    refine ⟨?_, h1⟩
    simp only [Bool.not_eq_false']
    rw [h2, List.any_eq_true]
    simp
  · intro rest b
    refine ⟨rfl, ?_, ?_, ?_, ?_⟩
    · intro x hx
      rw [skipOption_eq]
      have : ¬ (x = CLuaArgument.string "skip") := hx "skip"
      simp [this]
    · intro s hs
      rw [skipOption_eq]
      simp [hs]
    · intro x hx
      rw [skipOption_eq]
      simp [hx]
    · rw [skipOption_eq]
      simp
  · intro hfix hfuel
    obtain ⟨w2, b2, -, -, h⟩ := CallHook_fixed host fuel w szName eventHookList Arguments
      bNameMustBeExplicitlyAllowed htop hfix hfuel
    exact ⟨_, h⟩

theorem CallHook_verdict_witness :
    (CallHook sampleHost 4 (worldOf threeHooks) "setElementPosition"
        .m_PreFunctionHookList [] false).map (fun d => d.result) = some false ∧
    (∀ d ∈ CallHook sampleHost 4 (worldOf threeHooks) "setElementPosition"
        .m_PreFunctionHookList [] false,
      d.result = false ↔
        ∃ c ∈ CallHook.calls sampleHost "setElementPosition" .m_PreFunctionHookList []
            false 4 0 { worldOf threeHooks with bRecurse := true },
          (CallHook.returnValues sampleHost [] c).head?
            = some (CLuaArgument.string "skip")) :=
  ⟨by decide,
   fun d hd => ((CallHook_verdict sampleHost 4 (worldOf threeHooks) "setElementPosition"
      .m_PreFunctionHookList [] false rfl).1 d hd).1⟩


/-- C22: the values the callbacks return have no influence on which callbacks a
`CallHook` calls: two hosts whose callbacks have the same effects and differ in
the values returned give the same calls and the same program state.  A verdict
that is skip stays skip whatever a later callback returns.  Over a list A, B, C
of matching entries with live VMs that the callbacks leave as it is, when B
returns `skip` all three are called, in this order, and the verdict is skip. -/
theorem CallHook_no_short_circuit (host host2 : Host) (fuel : Nat) (w : World)
    (szName : SString) (eventHookList : HookInfoList) (Arguments : CLuaArguments)
    (bNameMustBeExplicitlyAllowed : Bool)
    (heff : ∀ w2 pLuaMain functionRef args,
      (host2.Call w2 pLuaMain functionRef args).1 = (host.Call w2 pLuaMain functionRef args).1)
    (hvm : host2.GetVirtualMachine = host.GetVirtualMachine) :
    (CallHook host2 fuel w szName eventHookList Arguments bNameMustBeExplicitlyAllowed).map
        (fun d => (d.world, d.invoked))
      = (CallHook host fuel w szName eventHookList Arguments
          bNameMustBeExplicitlyAllowed).map (fun d => (d.world, d.invoked)) ∧
    (∀ returnValues, CallHook.skipOption returnValues true = true) ∧
    (∀ A B C, w.bRecurse = false →
      (∀ w2 pLuaMain functionRef args,
        (host.Call w2 pLuaMain functionRef args).1.manager.read eventHookList
          = w2.manager.read eventHookList) →
      w.manager.read eventHookList = [A, B, C] → 3 < fuel →
      (∀ info ∈ [A, B, C],
        (szName ∈ info.allowedNameMap ∨
          (info.allowedNameMap = ∅ ∧ bNameMustBeExplicitlyAllowed = false)) ∧
        host.pState info.pLuaMain ≠ none) →
      (∀ w2, (host.Call w2 B.pLuaMain B.functionRef Arguments).2.head?
        = some (CLuaArgument.string "skip")) →
      ∃ d, CallHook host fuel w szName eventHookList Arguments
          bNameMustBeExplicitlyAllowed = some d ∧
        d.invoked = [{ info := A, Arguments := Arguments },
                     { info := B, Arguments := Arguments },
                     { info := C, Arguments := Arguments }] ∧
        d.result = false) := by
  refine ⟨?_, ?_, ?_⟩
  · unfold CallHook
    by_cases hb : w.bRecurse = true
    · rw [if_pos hb, if_pos hb]
    · rw [if_neg hb, if_neg hb]
      simp only
      have h := loop_congr_host host host2 heff hvm szName eventHookList Arguments
        bNameMustBeExplicitlyAllowed fuel 0 { w with bRecurse := true } false false []
      cases h2 : CallHook.loop host2 szName eventHookList Arguments
          bNameMustBeExplicitlyAllowed fuel 0 { w with bRecurse := true } false [] with
      | none =>
        rw [h2] at h
        cases h1 : CallHook.loop host szName eventHookList Arguments
            bNameMustBeExplicitlyAllowed fuel 0 { w with bRecurse := true } false [] with
        | none => rfl
        | some res => rw [h1] at h; cases h
      | some res2 =>
        rw [h2] at h
        cases h1 : CallHook.loop host szName eventHookList Arguments
            bNameMustBeExplicitlyAllowed fuel 0 { w with bRecurse := true } false [] with
        | none => rw [h1] at h; cases h
        | some res =>
          rw [h1] at h
          simp only [Option.map_some', Option.some.injEq, Prod.mk.injEq] at h
          obtain ⟨w2, b2, inv2⟩ := res2
          obtain ⟨w1, b1, inv1⟩ := res
          simp only at h
          simp only [Option.map_some', Option.some.injEq, Prod.mk.injEq]
          exact ⟨by rw [h.1], h.2⟩
  · intro returnValues
    rw [skipOption_eq]
    rfl
  · intro A B C htop hfix hl hfuel hall hB
    obtain ⟨w2, b2, hloop, -, hcall⟩ := CallHook_fixed host fuel w szName eventHookList
      Arguments bNameMustBeExplicitlyAllowed htop hfix (by rw [hl]; exact hfuel)
    have hkeep : ∀ info ∈ [A, B, C],
        (!CallHook.filteredOut szName info bNameMustBeExplicitlyAllowed &&
          (host.pState info.pLuaMain).isSome) = true := by
      intro info hinfo
      rw [keep_eq_decide]
      exact decide_eq_true (hall info hinfo)
    have hfilter : ([A, B, C].filter
        (fun info => !CallHook.filteredOut szName info bNameMustBeExplicitlyAllowed &&
          (host.pState info.pLuaMain).isSome)) = [A, B, C] :=
      List.filter_eq_self.2 hkeep
    rw [hl, hfilter] at hloop hcall
    obtain ⟨h1, h2⟩ := loop_calls host szName eventHookList Arguments
      bNameMustBeExplicitlyAllowed _ _ _ _ _ _ hloop
    simp only [List.nil_append, Bool.false_or, List.map_cons, List.map_nil] at h1 h2
    refine ⟨_, hcall, rfl, ?_⟩
    simp only [Bool.not_eq_false']
    rw [h2, List.any_eq_true]
    have hmem : ({ info := B, Arguments := Arguments } : Invocation) ∈
        (CallHook.calls host szName eventHookList Arguments bNameMustBeExplicitlyAllowed
          fuel 0 { w with bRecurse := true }).map
          (fun c => ({ info := c.2, Arguments := Arguments } : Invocation)) := by
      rw [← h1]
      simp
    obtain ⟨c, hc, hcB⟩ := List.mem_map.1 hmem
    have hc2 : c.2 = B := by
      have := congrArg Invocation.info hcB
      simpa using this
    refine ⟨c, hc, ?_⟩
    unfold CallHook.returnValues
    rw [hc2]
    simpa using hB c.1

theorem CallHook_no_short_circuit_witness :
    (CallHook idleHost 4 (worldOf threeHooks) "setElementPosition" .m_PreFunctionHookList
        [.number 1] false).map (fun d => d.invoked.map (fun inv => inv.info.functionRef))
      = some [refA, refB, refC] ∧
    (CallHook idleHost 4 (worldOf threeHooks) "setElementPosition" .m_PreFunctionHookList
        [.number 1] false).map (fun d => d.result) = some false ∧
    (CallHook { idleHost with Call := fun w p f a => ((idleHost.Call w p f a).1, []) } 4
        (worldOf threeHooks) "setElementPosition" .m_PreFunctionHookList [.number 1]
        false).map (fun d => (d.world, d.invoked))
      = (CallHook idleHost 4 (worldOf threeHooks) "setElementPosition"
          .m_PreFunctionHookList [.number 1] false).map (fun d => (d.world, d.invoked)) :=
  ⟨by decide, by decide,
   (CallHook_no_short_circuit idleHost
      { idleHost with Call := fun w p f a => ((idleHost.Call w p f a).1, []) } 4
      (worldOf threeHooks) "setElementPosition" .m_PreFunctionHookList [.number 1] false
      (fun _ _ _ _ => rfl) rfl).1⟩


/-! ## Saved globals -/

theorem lua_setglobal_other (w : World) (pState L : lua_State) (name g : SString)
    (value : CLuaArgument) (h : L ≠ pState) :
    (w.lua_setglobal pState name value).globals L g = w.globals L g := by
  simp [World.lua_setglobal, h]

theorem invoke_restores (host : Host) (Arguments : CLuaArguments) (w : World) (bSkip : Bool)
    (info : SDebugHookCallInfo) (pState : lua_State) (g : SString)
    (hg : g ∈ CallHook.savedGlobals) :
    (CallHook.invoke host Arguments w bSkip info pState).1.globals pState g
      = w.globals pState g := by
  simp only [CallHook.savedGlobals, List.mem_cons, List.mem_singleton, List.not_mem_nil,
    or_false] at hg
  rcases hg with h | h | h | h | h | h <;> subst h <;>
    simp [CallHook.invoke, World.lua_setglobal, World.lua_getglobal]

theorem invoke_other (host : Host) (Arguments : CLuaArguments) (w : World) (bSkip : Bool)
    (info : SDebugHookCallInfo) (pState L : lua_State) (g : SString) (h : L ≠ pState) :
    (CallHook.invoke host Arguments w bSkip info pState).1.globals L g
      = (host.Call w info.pLuaMain info.functionRef Arguments).1.globals L g := by
  simp only [CallHook.invoke]
  rw [lua_setglobal_other _ _ _ _ _ _ h, lua_setglobal_other _ _ _ _ _ _ h,
    lua_setglobal_other _ _ _ _ _ _ h, lua_setglobal_other _ _ _ _ _ _ h,
    lua_setglobal_other _ _ _ _ _ _ h, lua_setglobal_other _ _ _ _ _ _ h]

theorem body_saved (host : Host)
    (hown : ∀ w pLuaMain functionRef args L, host.pState pLuaMain ≠ some L →
      ∀ g ∈ CallHook.savedGlobals,
        (host.Call w pLuaMain functionRef args).1.globals L g = w.globals L g)
    (szName : SString) (Arguments : CLuaArguments) (flag : Bool) (w : World) (bSkip : Bool)
    (info : SDebugHookCallInfo) (L : lua_State) (g : SString)
    (hg : g ∈ CallHook.savedGlobals) :
    (CallHook.body host szName Arguments flag w bSkip info).1.globals L g
      = w.globals L g := by
  unfold CallHook.body
  split
  · rfl
  · split
    · rfl
    · rename_i pState hp
      simp only
      by_cases hL : L = pState
      · subst hL
        exact invoke_restores host Arguments w bSkip info L g hg
      · rw [invoke_other host Arguments w bSkip info pState L g hL]
        exact hown w info.pLuaMain info.functionRef Arguments L
          (by rw [hp]; intro hc; exact hL (Option.some.inj hc).symm) g hg

theorem loop_saved (host : Host)
    (hown : ∀ w pLuaMain functionRef args L, host.pState pLuaMain ≠ some L →
      ∀ g ∈ CallHook.savedGlobals,
        (host.Call w pLuaMain functionRef args).1.globals L g = w.globals L g)
    (szName : SString) (r : HookInfoList) (Arguments : CLuaArguments) (flag : Bool)
    (L : lua_State) (g : SString) (hg : g ∈ CallHook.savedGlobals) :
    ∀ (fuel i : Nat) (w : World) (bSkip : Bool) (invoked : List Invocation),
      (∀ res, CallHook.loop host szName r Arguments flag fuel i w bSkip invoked = some res →
        res.1.globals L g = w.globals L g) ∧
      (∀ c ∈ CallHook.calls host szName r Arguments flag fuel i w,
        c.1.globals L g = w.globals L g) := by
  intro fuel
  induction fuel with
  | zero =>
    intro i w bSkip invoked
    constructor
    · intro res h
      simp [CallHook.loop] at h
    · intro c hc
      simp [CallHook.calls] at hc
  | succ fuel ih =>
    intro i w bSkip invoked
    rw [CallHook.loop, CallHook.calls]
    by_cases hi : i < (w.manager.read r).length
    · rw [dif_pos hi, dif_pos hi]
      simp only
      have hb := body_saved host hown szName Arguments flag w bSkip
        ((w.manager.read r)[i]) L g hg
      have hb0 := body_saved host hown szName Arguments flag w false
        ((w.manager.read r)[i]) L g hg
      constructor
      · intro res hres
        rw [(ih _ _ _ _).1 res hres, hb]
      · intro c hc
        rcases List.mem_append.1 hc with h1 | h2
        · obtain ⟨inv, -, rfl⟩ := List.mem_map.1 h1
          rfl
        · rw [(ih (i + 1) _ false []).2 c h2, hb0]
    · rw [dif_neg hi, dif_neg hi]
      constructor
      · intro res hres
        cases hres
        rfl
      · intro c hc
        cases hc

/-- C23, as the code has it: whatever the callback does and returns, also when
the call fails and returns nothing, after each invocation inside `CallHook` the
six globals
`source`, `this`, `sourceResource`, `sourceResourceRoot`, `eventName` and
`client` of the invoked VM hold the values they held just before the invocation.
Hence, with callbacks that change these globals in the invoked VM only, every
callback of a top-level dispatch is called in a program state where these
globals hold, in every VM, the values from before the dispatch, and so does the
caller after the dispatch. -/
theorem CallHook_restores_globals (host : Host) (fuel : Nat) (w : World) (szName : SString)
    (eventHookList : HookInfoList) (Arguments : CLuaArguments)
    (bNameMustBeExplicitlyAllowed : Bool) :
    (∀ (w1 : World) (bSkip : Bool) (info : SDebugHookCallInfo) (pState : lua_State),
      ∀ g ∈ CallHook.savedGlobals,
        (CallHook.invoke host Arguments w1 bSkip info pState).1.globals pState g
          = w1.globals pState g) ∧
    (w.bRecurse = false →
      (∀ w1 pLuaMain functionRef args L, host.pState pLuaMain ≠ some L →
        ∀ g ∈ CallHook.savedGlobals,
          (host.Call w1 pLuaMain functionRef args).1.globals L g = w1.globals L g) →
      (∀ c ∈ CallHook.calls host szName eventHookList Arguments
          bNameMustBeExplicitlyAllowed fuel 0 { w with bRecurse := true },
        ∀ L, ∀ g ∈ CallHook.savedGlobals, c.1.globals L g = w.globals L g) ∧
      (∀ d ∈ CallHook host fuel w szName eventHookList Arguments
          bNameMustBeExplicitlyAllowed,
        ∀ L, ∀ g ∈ CallHook.savedGlobals, d.world.globals L g = w.globals L g)) := by
  refine ⟨fun w1 bSkip info pState g hg =>
    invoke_restores host Arguments w1 bSkip info pState g hg, ?_⟩
  intro htop hown
  constructor
  · intro c hc L g hg
    exact (loop_saved host hown szName eventHookList Arguments bNameMustBeExplicitlyAllowed
      L g hg fuel 0 { w with bRecurse := true } false []).2 c hc
  · intro d hd L g hg
    rw [Option.mem_def] at hd
    obtain ⟨w2, b2, invoked, hl, rfl⟩ := CallHook_top host fuel w szName eventHookList
      Arguments bNameMustBeExplicitlyAllowed htop d hd
    exact (loop_saved host hown szName eventHookList Arguments bNameMustBeExplicitlyAllowed
      L g hg fuel 0 { w with bRecurse := true } false []).1 _ hl


theorem ownHost_own_globals (w1 : World) (pLuaMain : Option CLuaMain)
    (functionRef : CLuaFunctionRef) (args : CLuaArguments) (L : lua_State)
    (h : ownHost.pState pLuaMain ≠ some L) (g : SString) :
    (ownHost.Call w1 pLuaMain functionRef args).1.globals L g = w1.globals L g := by
  by_cases h1 : pLuaMain = some 1
  · subst h1
    have hL : L ≠ 7 := fun hc => h (by rw [hc]; rfl)
    simp [ownHost, World.lua_setglobal, hL]
  · by_cases h2 : pLuaMain = some 2
    · subst h2
      have hL : L ≠ 8 := fun hc => h (by rw [hc]; rfl)
      simp [ownHost, World.lua_setglobal, hL]
    · simp [ownHost, h1, h2]

theorem CallHook_restores_globals_witness :
    (CallHook ownHost 4 (worldOf threeHooks) "setElementPosition" .m_PreFunctionHookList
        [] false).map
      (fun d => (d.invoked.length, d.world.globals 7 "source", d.world.globals 8 "client",
        d.world.globals 7 "counter"))
      = some (3, CLuaArgument.nil, CLuaArgument.nil, CLuaArgument.number 1) ∧
    (∀ d ∈ CallHook ownHost 4 (worldOf threeHooks) "setElementPosition"
        .m_PreFunctionHookList [] false,
      ∀ L, ∀ g ∈ CallHook.savedGlobals,
        d.world.globals L g = (worldOf threeHooks).globals L g) :=
  ⟨by decide,
   ((CallHook_restores_globals ownHost 4 (worldOf threeHooks) "setElementPosition"
      .m_PreFunctionHookList [] false).2 rfl
      (fun w1 p f a L h g _ => ownHost_own_globals w1 p f a L h g)).2⟩

/-- C23, the claim as written fails when a callback changes globals of another
VM: the restore of `CallHook` covers the VM of the callback that was called.
`refA` and `refB` are hooks of `lua_State` 7 and `refC` of `lua_State` 8; when
`refC` sets `source` of `lua_State` 7, the value stays: `refB`, called next in
`lua_State` 7, sees 5 and not the nil from before the first hook, and so does the
caller after the dispatch. -/
theorem CallHook_restores_globals_counterexample :
    (worldOf crossHooks).globals 7 "source" = CLuaArgument.nil ∧
    (CallHook crossHost 4 (worldOf crossHooks) "setElementPosition" .m_PreFunctionHookList
        [] false).map
      (fun d => (d.invoked.map (fun inv => inv.info.functionRef),
        d.world.globals 7 "source", d.world.globals 7 "seen"))
      = some ([refA, refC, refB], CLuaArgument.number 5, CLuaArgument.number 5) := by
  decide


/-! ## Guard release and dead VMs -/

theorem filter_keep_eq (host : Host) (szName : SString) (flag : Bool)
    (l : List SDebugHookCallInfo) :
    l.filter (fun info => !CallHook.filteredOut szName info flag &&
        (host.pState info.pLuaMain).isSome)
      = l.filter (fun info =>
          decide ((szName ∈ info.allowedNameMap ∨ (info.allowedNameMap = ∅ ∧ flag = false)) ∧
            host.pState info.pLuaMain ≠ none)) := by
  apply List.filter_congr
  intro info _
  exact keep_eq_decide host szName flag info

/-- C25: a top-level `CallHook` that returns has cleared the flag `bRecurse`,
whatever the entries and the callbacks did on the way (entries passed over by
name or for a dead VM, callbacks that return `skip`, callbacks that fail); a
dispatch that follows is top-level again and calls its matching hooks.  Over a
list that the callbacks leave as it is, the dispatch returns once the bound
exceeds the length of the list. -/
theorem CallHook_releases_guard (host : Host) (fuel : Nat) (w : World) (szName : SString)
    (eventHookList : HookInfoList) (Arguments : CLuaArguments)
    (bNameMustBeExplicitlyAllowed : Bool) (htop : w.bRecurse = false) :
    (∀ d ∈ CallHook host fuel w szName eventHookList Arguments bNameMustBeExplicitlyAllowed,
      d.world.bRecurse = false ∧
      ∀ (fuel2 : Nat) (szName2 : SString) (list2 : HookInfoList) (Arguments2 : CLuaArguments)
        (flag2 : Bool),
        (∀ w2 pLuaMain functionRef args,
          (host.Call w2 pLuaMain functionRef args).1.manager.read list2
            = w2.manager.read list2) →
        (d.world.manager.read list2).length < fuel2 →
        ∃ d2, CallHook host fuel2 d.world szName2 list2 Arguments2 flag2 = some d2 ∧
          d2.invoked = ((d.world.manager.read list2).filter (fun info =>
              decide ((szName2 ∈ info.allowedNameMap ∨
                  (info.allowedNameMap = ∅ ∧ flag2 = false)) ∧
                host.pState info.pLuaMain ≠ none))).map
              (fun info => { info := info, Arguments := Arguments2 }) ∧
          d2.world.bRecurse = false) ∧
    ((∀ w2 pLuaMain functionRef args,
        (host.Call w2 pLuaMain functionRef args).1.manager.read eventHookList
          = w2.manager.read eventHookList) →
      (w.manager.read eventHookList).length < fuel →
      ∃ d, CallHook host fuel w szName eventHookList Arguments
        bNameMustBeExplicitlyAllowed = some d) := by
  constructor
  · intro d hd
    rw [Option.mem_def] at hd
    obtain ⟨w2, b2, invoked, -, rfl⟩ := CallHook_top host fuel w szName eventHookList
      Arguments bNameMustBeExplicitlyAllowed htop d hd
    refine ⟨rfl, ?_⟩
    intro fuel2 szName2 list2 Arguments2 flag2 hfix hfuel
    obtain ⟨w3, b3, -, -, h⟩ := CallHook_fixed host fuel2
      ({ w2 with bRecurse := false } : World) szName2 list2 Arguments2 flag2 rfl hfix hfuel
    refine ⟨_, h, ?_, rfl⟩
    simp only
    rw [filter_keep_eq]
  · intro hfix hfuel
    obtain ⟨w2, b2, -, -, h⟩ := CallHook_fixed host fuel w szName eventHookList Arguments
      bNameMustBeExplicitlyAllowed htop hfix hfuel
    exact ⟨_, h⟩

theorem CallHook_releases_guard_witness :
    (CallHook sampleHost 4 (worldOf threeHooks) "setElementPosition" .m_PreFunctionHookList
        [] false).map (fun d => (d.result, d.world.bRecurse)) = some (false, false) ∧
    (∀ d ∈ CallHook sampleHost 4 (worldOf threeHooks) "setElementPosition"
        .m_PreFunctionHookList [] false, d.world.bRecurse = false) :=
  ⟨by decide,
   fun d hd => ((CallHook_releases_guard sampleHost 4 (worldOf threeHooks)
      "setElementPosition" .m_PreFunctionHookList [] false rfl).1 d hd).1⟩

/-- C26: an entry whose VM is no longer live takes the `continue` of the loop of
`CallHook`: no callback is called for it and the program state, the globals
included, and `bSkip` stay as they are; the loop goes on with the next index; no
dispatch ever calls it.  Over a list that the callbacks leave as it is, every
entry that matches the name and has a live VM is called, whatever dead entries
come before it. -/
theorem CallHook_dead_vm (host : Host) (szName : SString) (Arguments : CLuaArguments)
    (bNameMustBeExplicitlyAllowed : Bool) (info : SDebugHookCallInfo)
    (hdead : host.pState info.pLuaMain = none) :
    (∀ w bSkip, CallHook.body host szName Arguments bNameMustBeExplicitlyAllowed w bSkip info
      = (w, bSkip, [])) ∧
    (∀ (eventHookList : HookInfoList) (fuel i : Nat) (w : World) (bSkip : Bool)
        (invoked : List Invocation),
      (w.manager.read eventHookList)[i]? = some info →
      CallHook.loop host szName eventHookList Arguments bNameMustBeExplicitlyAllowed
          (fuel + 1) i w bSkip invoked
        = CallHook.loop host szName eventHookList Arguments bNameMustBeExplicitlyAllowed
            fuel (i + 1) w bSkip invoked) ∧
    (∀ (eventHookList : HookInfoList) (fuel : Nat) (w : World),
      ∀ d ∈ CallHook host fuel w szName eventHookList Arguments bNameMustBeExplicitlyAllowed,
        ∀ inv ∈ d.invoked, inv.info ≠ info) ∧
    (∀ (eventHookList : HookInfoList) (fuel : Nat) (w : World),
      w.bRecurse = false →
      (∀ w2 pLuaMain functionRef args,
        (host.Call w2 pLuaMain functionRef args).1.manager.read eventHookList
          = w2.manager.read eventHookList) →
      (w.manager.read eventHookList).length < fuel →
      ∃ d, CallHook host fuel w szName eventHookList Arguments
          bNameMustBeExplicitlyAllowed = some d ∧
        ∀ other ∈ w.manager.read eventHookList,
          (szName ∈ other.allowedNameMap ∨
            (other.allowedNameMap = ∅ ∧ bNameMustBeExplicitlyAllowed = false)) →
          host.pState other.pLuaMain ≠ none →
          ({ info := other, Arguments := Arguments } : Invocation) ∈ d.invoked) := by
  refine ⟨?_, ?_, ?_, ?_⟩
  · intro w bSkip
    exact body_dead host szName Arguments bNameMustBeExplicitlyAllowed w bSkip info hdead
  · intro r fuel i w bSkip invoked hi
    obtain ⟨hlt, hget⟩ := List.getElem?_eq_some.1 hi
    rw [CallHook.loop, dif_pos hlt]
    simp only
    rw [hget, body_dead host szName Arguments bNameMustBeExplicitlyAllowed w bSkip info hdead]
    simp only [List.append_nil]
  · intro r fuel w d hd inv hinv hc
    rw [Option.mem_def] at hd
    have h := (CallHook_sound host fuel w szName r Arguments bNameMustBeExplicitlyAllowed
      d hd inv hinv).2.1
    rw [hc, hdead] at h
    cases h
  · intro r fuel w htop hfix hfuel
    obtain ⟨w2, b2, -, -, h⟩ := CallHook_fixed host fuel w szName r Arguments
      bNameMustBeExplicitlyAllowed htop hfix hfuel
    refine ⟨_, h, ?_⟩
    intro other hmem hmatch hlive
    simp only
    apply List.mem_map.2
    refine ⟨other, ?_, rfl⟩
    rw [filter_keep_eq]
    exact List.mem_filter.2 ⟨hmem, decide_eq_true ⟨hmatch, hlive⟩⟩

theorem CallHook_dead_vm_witness :
    deadHost.pState entryAll.pLuaMain = none ∧
    (CallHook deadHost 4 (worldOf threeHooks) "setElementPosition" .m_PreFunctionHookList
        [] false).map (fun d => (d.result, d.invoked.map (fun inv => inv.info.functionRef)))
      = some (true, [refC]) ∧
    (∀ w bSkip, CallHook.body deadHost "setElementPosition" [] false w bSkip entryAll
      = (w, bSkip, [])) :=
  ⟨rfl, by decide, (CallHook_dead_vm deadHost "setElementPosition" [] false entryAll rfl).1⟩


/-! ## Removal during a dispatch -/

theorem body_sublist (host : Host) (r : HookInfoList)
    (hrem : ∀ w pLuaMain functionRef args,
      ((host.Call w pLuaMain functionRef args).1.manager.read r).Sublist (w.manager.read r))
    (szName : SString) (Arguments : CLuaArguments) (flag : Bool) (w : World) (bSkip : Bool)
    (info : SDebugHookCallInfo) :
    ((CallHook.body host szName Arguments flag w bSkip info).1.manager.read r).Sublist
      (w.manager.read r) := by
  unfold CallHook.body
  split
  · exact List.Sublist.refl _
  · split
    · exact List.Sublist.refl _
    · exact hrem _ _ _ _

theorem loop_removing (host : Host) (szName : SString) (r : HookInfoList)
    (Arguments : CLuaArguments) (flag : Bool)
    (hrem : ∀ w pLuaMain functionRef args,
      ((host.Call w pLuaMain functionRef args).1.manager.read r).Sublist (w.manager.read r)) :
    ∀ (fuel i : Nat) (w : World) (bSkip : Bool) (invoked : List Invocation),
      (w.manager.read r).Nodup →
      (w.manager.read r).length - i < fuel →
      (∀ x ∈ invoked, x.info ∉ (w.manager.read r).drop i) →
      (invoked.map Invocation.info).Nodup →
      ∃ w2 b2 invoked2,
        CallHook.loop host szName r Arguments flag fuel i w bSkip invoked
          = some (w2, b2, invoked2) ∧
        ((w2.manager.read r).Sublist (w.manager.read r)) ∧
        (invoked2.map Invocation.info).Nodup ∧
        ∀ x ∈ invoked2, x ∈ invoked ∨ x.info ∈ (w.manager.read r).drop i := by
  intro fuel
  induction fuel with
  | zero => intro i w bSkip invoked _ h; omega
  | succ fuel ih =>
    intro i w bSkip invoked hnd hlt hnot hinvnd
    rw [CallHook.loop]
    by_cases hi : i < (w.manager.read r).length
    · rw [dif_pos hi]
      simp only
      have hsub := body_sublist host r hrem szName Arguments flag w bSkip
        ((w.manager.read r)[i])
      have hdrop : (w.manager.read r).drop i
          = (w.manager.read r)[i] :: (w.manager.read r).drop (i + 1) :=
        List.drop_eq_getElem_cons hi
      have hnd_drop : ((w.manager.read r).drop i).Nodup :=
        hnd.sublist (List.drop_sublist _ _)
      have hhead : (w.manager.read r)[i] ∉ (w.manager.read r).drop (i + 1) := by
        rw [hdrop] at hnd_drop
        exact (List.nodup_cons.1 hnd_drop).1
      have hsubdrop : ∀ x, x ∈ ((CallHook.body host szName Arguments flag w bSkip
          ((w.manager.read r)[i])).1.manager.read r).drop (i + 1) →
          x ∈ (w.manager.read r).drop (i + 1) :=
        fun x hx => (hsub.drop (i + 1)).subset hx
      have htail : ∀ x, x ∈ (w.manager.read r).drop (i + 1) → x ∈ (w.manager.read r).drop i := by
        intro x hx
        rw [hdrop]
        exact List.mem_cons_of_mem _ hx
      have hbody : ∀ x ∈ (CallHook.body host szName Arguments flag w bSkip
          ((w.manager.read r)[i])).2.2, x.info = (w.manager.read r)[i] := by
        intro x hx
        rw [body_invoked] at hx
        split_ifs at hx with hk
        · rw [List.mem_singleton] at hx
          subst hx
          rfl
        · cases hx
      have hbody_len : (CallHook.body host szName Arguments flag w bSkip
          ((w.manager.read r)[i])).2.2.length ≤ 1 := by
        rw [body_invoked]
        split_ifs <;> simp
      obtain ⟨w2, b2, invoked2, h1, h2, h3, h4⟩ := ih (i + 1)
        (CallHook.body host szName Arguments flag w bSkip ((w.manager.read r)[i])).1
        (CallHook.body host szName Arguments flag w bSkip ((w.manager.read r)[i])).2.1
        (invoked ++ (CallHook.body host szName Arguments flag w bSkip
          ((w.manager.read r)[i])).2.2)
        (hnd.sublist hsub)
        (by have := hsub.length_le; omega)
        (by
          intro x hx hc
          have hc2 := hsubdrop _ hc
          rcases List.mem_append.1 hx with hx1 | hx2
          · exact hnot x hx1 (htail _ hc2)
          · rw [hbody x hx2] at hc2
            exact hhead hc2)
        (by
          rw [List.map_append, List.nodup_append]
          refine ⟨hinvnd, ?_, ?_⟩
          · cases hb : (CallHook.body host szName Arguments flag w bSkip
                ((w.manager.read r)[i])).2.2 with
            | nil => simp
            | cons a t =>
              rw [hb] at hbody_len
              cases t with
              | nil => simp
              | cons b t2 => simp at hbody_len
          · intro a ha1 ha2
            obtain ⟨x, hx, rfl⟩ := List.mem_map.1 ha1
            obtain ⟨y, hy, hxy⟩ := List.mem_map.1 ha2
            have hyi := hbody y hy
            apply hnot x hx
            rw [← hxy, hyi, hdrop]
            exact List.mem_cons_self _ _)
      refine ⟨w2, b2, invoked2, h1, h2.trans hsub, h3, ?_⟩
      intro x hx
      rcases h4 x hx with h5 | h6
      · rcases List.mem_append.1 h5 with h7 | h8
        · exact Or.inl h7
        · right
          rw [hbody x h8, hdrop]
          exact List.mem_cons_self _ _
      · exact Or.inr (htail _ (hsubdrop _ h6))
    · rw [dif_neg hi]
      exact ⟨w, bSkip, invoked, rfl, List.Sublist.refl _, hinvnd, fun x hx => Or.inl hx⟩

theorem RemoveDebugHook_sublist (vm : lua_State → Option CLuaMain) (s : CDebugHookManager)
    (t : EDebugHookType) (f : CLuaFunctionRef) (r : HookInfoList) :
    ((RemoveDebugHook vm s t f).2.read r).Sublist (s.read r) := by
  by_cases hr : r = GetHookInfoListForType t
  · subst hr
    unfold RemoveDebugHook
    simp only
    split
    · rename_i erased he
      rw [read_write_same]
      exact eraseFirst_sublist _ _ _ _ he
    · exact List.Sublist.refl _
  · rw [RemoveDebugHook_read_other vm s t f r hr]

theorem OnPreFunction_zero_world (host : Host) (w : World) (f : Nat)
    (luaVM : Option lua_State) (bAllowed : Bool) (d : Dispatch)
    (h : OnPreFunction host 0 w f luaVM bAllowed = some d) : d.world = w := by
  unfold OnPreFunction at h
  split at h
  · cases h; rfl
  · split at h
    · cases h; rfl
    · simp only at h
      split at h
      · cases h; rfl
      · unfold CallHook at h
        split at h
        · cases h; rfl
        · simp [CallHook.loop] at h

theorem removingHost_removes (w : World) (pLuaMain : Option CLuaMain)
    (functionRef : CLuaFunctionRef) (args : CLuaArguments) (r : HookInfoList) :
    ((removingHost.Call w pLuaMain functionRef args).1.manager.read r).Sublist
      (w.manager.read r) := by
  show ((if functionRef = refA then
      (match OnPreFunction nestedHost 0 w 3 (some 7) true with
        | some d =>
          if d.result then
            (({ d.world with
                manager := (RemoveDebugHook sampleVMs d.world.manager .PRE_FUNCTION refA).2 }
              : World), ([] : CLuaArguments))
          else (d.world, [])
        | none => (w, []))
      else (w, [])).1.manager.read r).Sublist (w.manager.read r)
  split
  · split
    · rename_i d hd
      have hw := OnPreFunction_zero_world nestedHost w 3 (some 7) true d hd
      split
      · simp only
        rw [hw]
        exact RemoveDebugHook_sublist _ _ _ _ _
      · rw [hw]
    · exact List.Sublist.refl _
  · exact List.Sublist.refl _


/-- C28, the claim as written fails: when the callback of the first entry
removes that entry, the entries behind it move one place down while the index
moves one place up, so the entry that followed is passed over.  With the hooks
`refA`, `refB`, `refC`, all matching the name and all with a live VM, `refA`
removing itself leaves `refB` in the list from the start of the dispatch to its
end, and `refB` is never called. -/
theorem CallHook_removal_counterexample :
    (worldOf guardedHooks).manager.m_PreFunctionHookList.map (fun e => e.functionRef)
      = [refA, refB, refC] ∧
    (∀ info ∈ (worldOf guardedHooks).manager.m_PreFunctionHookList,
      CallHook.filteredOut "setElementPosition" info false = false ∧
      removingHost.pState info.pLuaMain ≠ none) ∧
    (OnPreFunction nestedHost 0 { worldOf guardedHooks with bRecurse := true } 3 (some 7)
        true).map (fun d => (d.result, d.invoked)) = some (true, []) ∧
    (CallHook removingHost 4 (worldOf guardedHooks) "setElementPosition"
        .m_PreFunctionHookList [] false).map
      (fun d => (d.invoked.map (fun inv => inv.info.functionRef),
        d.world.manager.m_PreFunctionHookList.map (fun e => e.functionRef)))
      = some ([refA, refC], [refB, refC]) := by
  decide

/-- C28, as the code has it: the loop of `CallHook` tests the index against the
current length of the list before every read, so it never reads outside the
list; when the callbacks only remove entries from the list being dispatched, a
top-level dispatch ends once the bound exceeds the length of the list, every
entry is called at most once, and each entry called was in the list when the
dispatch started, matches the name and has a live VM. -/
theorem CallHook_removal (host : Host) (fuel : Nat) (w : World) (szName : SString)
    (eventHookList : HookInfoList) (Arguments : CLuaArguments)
    (bNameMustBeExplicitlyAllowed : Bool)
    (htop : w.bRecurse = false)
    (hrem : ∀ w2 pLuaMain functionRef args,
      ((host.Call w2 pLuaMain functionRef args).1.manager.read eventHookList).Sublist
        (w2.manager.read eventHookList))
    (hnodup : (w.manager.read eventHookList).Nodup)
    (hfuel : (w.manager.read eventHookList).length < fuel) :
    ∃ d, CallHook host fuel w szName eventHookList Arguments bNameMustBeExplicitlyAllowed
        = some d ∧
      (d.invoked.map Invocation.info).Nodup ∧
      (∀ inv ∈ d.invoked,
        inv.info ∈ w.manager.read eventHookList ∧
        (szName ∈ inv.info.allowedNameMap ∨
          (inv.info.allowedNameMap = ∅ ∧ bNameMustBeExplicitlyAllowed = false)) ∧
        host.pState inv.info.pLuaMain ≠ none ∧
        inv.Arguments = Arguments) ∧
      (d.world.manager.read eventHookList).Sublist (w.manager.read eventHookList) := by
  obtain ⟨w2, b2, invoked2, h1, h2, h3, h4⟩ := loop_removing host szName eventHookList
    Arguments bNameMustBeExplicitlyAllowed hrem fuel 0 { w with bRecurse := true } false []
    hnodup (by simpa using hfuel) (by simp) (by simp)
  have hcall : CallHook host fuel w szName eventHookList Arguments
      bNameMustBeExplicitlyAllowed
      = some { result := !b2, world := { w2 with bRecurse := false }, invoked := invoked2 } := by
    unfold CallHook
    rw [htop]
    simp only [Bool.false_eq_true, if_false]
    rw [h1]
  refine ⟨_, hcall, h3, ?_, h2⟩
  intro inv hinv
  have hs := CallHook_sound host fuel w szName eventHookList Arguments
    bNameMustBeExplicitlyAllowed _ hcall inv hinv
  refine ⟨?_, (filteredOut_eq_false_iff _ _ _).1 hs.1, ?_, hs.2.2⟩
  · rcases h4 inv hinv with h5 | h6
    · cases h5
    · simpa using h6
  · intro hc
    rw [hc] at hs
    cases hs.2.1

theorem CallHook_removal_witness :
    ∃ d, CallHook removingHost 4 (worldOf guardedHooks) "setElementPosition"
        .m_PreFunctionHookList [] false = some d ∧
      (d.invoked.map Invocation.info).Nodup ∧
      (d.world.manager.read .m_PreFunctionHookList).Sublist
        ((worldOf guardedHooks).manager.read .m_PreFunctionHookList) :=
  have h := CallHook_removal removingHost 4 (worldOf guardedHooks) "setElementPosition"
    .m_PreFunctionHookList [] false rfl
    (fun w2 p f a => removingHost_removes w2 p f a .m_PreFunctionHookList)
    (by decide) (by decide)
  h.elim fun d hd => ⟨d, hd.1, hd.2.1, hd.2.2.2⟩

end DebugHook

namespace ClientModel

/-! ## Ownership flag of a client model -/

/-- C30, what the code does where the claim asks for a refusal: `Allocate` sets
`m_bAllocatedByUs` before its tests, so the flag is true after every call that
returns, also one that returns false.  When `Allocate` returns false because the
model ID is already valid, a following `Deallocate` of a ped, object or vehicle
model passes the test of the flag, finds the model valid, deallocates its model
info and returns true. -/
theorem Allocate_sets_flag_before_tests {G : Type} (game : CGame G) (self : CClientModel)
    (g : G) (usParentID : Nat)
    (hptr : game.GetModelInfo g self.m_iModelID = true)
    (hvalid : game.IsValid g self.m_iModelID = true) :
    Allocate game self g usParentID
      = some (false, { self with m_bAllocatedByUs := true }, g) ∧
    (∀ r, Allocate game self g usParentID = some r → r.2.1.m_bAllocatedByUs = true) ∧
    (self.m_eModelType = .PED ∨ self.m_eModelType = .OBJECT ∨ self.m_eModelType = .VEHICLE →
      (Deallocate game { self with m_bAllocatedByUs := true } g).1 = true ∧
      ∃ g1, (Deallocate game { self with m_bAllocatedByUs := true } g).2.2
        = game.DeallocateModel g1 self.m_iModelID) := by
  have hA : Allocate game self g usParentID
      = some (false, { self with m_bAllocatedByUs := true }, g) := by
    simp [Allocate, hptr, hvalid]
  refine ⟨hA, ?_, ?_⟩
  · intro r hr
    rw [hA] at hr
    cases hr
    rfl
  · intro ht
    rcases ht with h | h | h
    · simp only [Deallocate, DeallocateDFF, CClientModel.SetParentResource, hptr, hvalid, h,
        Bool.not_true, Bool.false_eq_true, if_false, Bool.or_self, true_and]
      exact ⟨_, rfl⟩
    · simp only [Deallocate, DeallocateDFF, CClientModel.SetParentResource, hptr, hvalid, h,
        Bool.not_true, Bool.false_eq_true, if_false, Bool.or_self, true_and]
      exact ⟨_, rfl⟩
    · simp only [Deallocate, DeallocateDFF, CClientModel.SetParentResource, hptr, hvalid, h,
        Bool.not_true, Bool.false_eq_true, if_false, Bool.or_self, true_and]
      exact ⟨_, rfl⟩

theorem Allocate_sets_flag_before_tests_witness :
    pedModel.m_bAllocatedByUs = false ∧
    Allocate sampleGame pedModel stockGame 0
      = some (false, { pedModel with m_bAllocatedByUs := true }, stockGame) ∧
    Deallocate sampleGame { pedModel with m_bAllocatedByUs := true } stockGame
      = (true, { pedModel with m_bAllocatedByUs := true },
          { valid := [], deallocated := [7] }) ∧
    (∀ r, Allocate sampleGame pedModel stockGame 0 = some r →
      r.2.1.m_bAllocatedByUs = true) :=
  ⟨rfl, by decide, by decide,
   (Allocate_sets_flag_before_tests sampleGame pedModel stockGame 0
      (by decide) (by decide)).2.1⟩

end ClientModel
